import Mathlib

/-! SolverSphere: Rubik's cube and Sudoku engines.

A shallow embedding of `CubeState`, `CubeSolver`, `SudokuGrid` and `SudokuSolver`
(`src/src/RubiksCube`, `src/src/Sudoku`) together with theorems about them.

Conventions of the embedding:

* `QVector<QVector<QVector<CubeColor>>> m_faces` (always 6 x 3 x 3) is a function from faces
  to 3 x 3 grids of colours; an in-place assignment is a pointwise update.
* `for (int i = 0; i < 3; ++i) body` is `for3 body`, which runs the body for `0, 1, 2` in order.
* `QString` is `String`. `trimmed` removes the characters for which `QChar::isSpace` holds,
  each of which is a single UTF-16 unit; `toUpper`, `QString::number` and
  `QChar::digitValue` are modelled on ASCII text.
* `qrand()` is a stream of draws `Rng` threaded through the solver.
* `QVector<QVector<int>> m_grid` is a list of rows together with the class invariant (9 x 9
  cells, each `0 .. 9`); a method that changes the object returns the new object.
* A loop with an early `return` is `List.all`, `List.any` or `List.find?` over the indices in
  loop order; a loop that updates state is a `List.foldl` over them.
* Recursive searches and the `while` loop of `SudokuSolver::solve` take a `fuel` argument and
  return `none` when it runs out; the theorems show that fuel 82 is always enough.
-/

namespace SolverSphere

/-! ## CubeState.h -/

/-- The enumeration `CubeColor`; constructor order is the ordinal order `0 .. 6`. -/
inductive CubeColor
  | White | Red | Blue | Orange | Green | Yellow | Unknown
  deriving DecidableEq, Repr

/-- The enumeration `CubeFace`; constructor order is the ordinal order `0 .. 5`. -/
inductive CubeFace
  | Front | Back | Left | Right | Up | Down
  deriving DecidableEq, Repr

/-- Ordinal of a colour: `static_cast<int>(color)`. -/
def CubeColor.ordinal : CubeColor → Nat
  | .White => 0
  | .Red => 1
  | .Blue => 2
  | .Orange => 3
  | .Green => 4
  | .Yellow => 5
  | .Unknown => 6

/-- Colour of an ordinal: `static_cast<CubeColor>(colorValue)`, used for `0 .. 6` only. -/
def CubeColor.ofOrdinal : Nat → CubeColor
  | 0 => .White
  | 1 => .Red
  | 2 => .Blue
  | 3 => .Orange
  | 4 => .Green
  | 5 => .Yellow
  | _ => .Unknown

/-- One face: a 3 x 3 grid of colours, `cell row col` being `face[row][col]`. -/
@[ext]
structure FaceGrid where
  cell : Fin 3 → Fin 3 → CubeColor

/-- The data member `m_faces` of `CubeState`: six faces, each 3 x 3. -/
@[ext]
structure CubeState where
  m_faces : CubeFace → FaceGrid

/-- The loop `for (int i = 0; i < 3; ++i)`: the body runs for `0`, `1`, `2`, in this order. -/
def for3 {σ : Type} (body : Fin 3 → σ → σ) (s : σ) : σ :=
  body 2 (body 1 (body 0 s))

/-- The faces in ordinal order: the loop `for (int face = 0; face < 6; ++face)`. -/
def allFaces : List CubeFace :=
  [.Front, .Back, .Left, .Right, .Up, .Down]

/-- The indices `0, 1, 2` of a row or column loop. -/
def idx3 : List (Fin 3) := [0, 1, 2]

/-- The assignment `face[r][c] = v` on one face. -/
def FaceGrid.set (face : FaceGrid) (r c : Fin 3) (v : CubeColor) : FaceGrid :=
  ⟨fun r' c' => if r' = r ∧ c' = c then v else face.cell r' c'⟩

/-- The read `m_faces[face][r][c]`. -/
def CubeState.get (s : CubeState) (face : CubeFace) (r c : Fin 3) : CubeColor :=
  (s.m_faces face).cell r c

/-- The assignment `m_faces[face][r][c] = v`. -/
def CubeState.set (s : CubeState) (face : CubeFace) (r c : Fin 3) (v : CubeColor) : CubeState :=
  ⟨fun f' => if f' = face then (s.m_faces f').set r c v else s.m_faces f'⟩

/-- Replacing a whole face: the effect of running `rotateClockwise` on `m_faces[face]`. -/
def CubeState.putFace (s : CubeState) (face : CubeFace) (g : FaceGrid) : CubeState :=
  ⟨fun f' => if f' = face then g else s.m_faces f'⟩

/-! ## CubeState.cpp -/

/-- The table `faceColors` of `initializeSolvedState`. -/
def faceColors : CubeFace → CubeColor
  | .Front => .Green
  | .Back => .Blue
  | .Left => .Orange
  | .Right => .Red
  | .Up => .White
  | .Down => .Yellow

/-- `CubeState::initializeSolvedState`: every sticker of a face gets the face's colour. -/
def initializeSolvedState : CubeState :=
  ⟨fun face => ⟨fun _ _ => faceColors face⟩⟩

/-- `CubeState::getColor` on in-range indices. -/
def getColor (s : CubeState) (face : CubeFace) (row col : Fin 3) : CubeColor :=
  s.get face row col

/-- The 54 sticker positions in the traversal order face / row / column. -/
def stickerOrder : List (CubeFace × Fin 3 × Fin 3) :=
  allFaces.flatMap fun face => idx3.flatMap fun row => idx3.map fun col => (face, row, col)

/-- The 54 stickers in traversal order. -/
def stickers (s : CubeState) : List CubeColor :=
  stickerOrder.map fun p => s.get p.1 p.2.1 p.2.2

/-- All colours in key order: the order in which a `QMap<CubeColor, int>` is iterated. -/
def allColors : List CubeColor :=
  [.White, .Red, .Blue, .Orange, .Green, .Yellow, .Unknown]

/-- A `QMap<CubeColor, int>`: the value stored under each key, `none` for an absent key. -/
abbrev ColorCount := CubeColor → Option Nat

/-- The statement `colorCount[color]++`: an absent key is inserted with `0` and then
incremented. -/
def qmapIncr (colorCount : ColorCount) (color : CubeColor) : ColorCount :=
  fun k => if k = color then some ((colorCount k).getD 0 + 1) else colorCount k

/-- The values of the map in iteration order (`it.value()` for `it` from `begin()` to `end()`);
its length is `colorCount.size()`. -/
def qmapValues (colorCount : ColorCount) : List Nat :=
  allColors.filterMap colorCount

/-- The counting loop of `validateCube`: `none` is the early `return false` on `Unknown`. -/
def countColors : List CubeColor → ColorCount → Option ColorCount
  | [], colorCount => some colorCount
  | color :: rest, colorCount =>
    if color = .Unknown then none else countColors rest (qmapIncr colorCount color)

/-- `CubeState::validateCube`. -/
def validateCube (s : CubeState) : Bool :=
  match countColors (stickers s) (fun _ => none) with
  | none => false
  | some colorCount =>
    if (qmapValues colorCount).any (fun v => v != 9) then false
    else (qmapValues colorCount).length == 6

/-- `CubeState::isValid`. -/
def CubeState.isValid (s : CubeState) : Bool :=
  validateCube s

/-- `CubeState::isSolved`: every sticker equals the centre of its face. -/
def CubeState.isSolved (s : CubeState) : Bool :=
  allFaces.all fun face =>
    let faceColor := s.get face 1 1
    idx3.all fun row => idx3.all fun col => s.get face row col == faceColor

/-- `CubeState::rotateClockwise`: `face[j][2-i] = temp[i][j]` for all `i`, `j`. -/
def rotateClockwise (face : FaceGrid) : FaceGrid :=
  let temp := face
  for3 (fun i f => for3 (fun j f => f.set j (2 - i) (temp.cell i j)) f) face

/-- `CubeState::rotateCounterClockwise`: `face[2-j][i] = temp[i][j]` for all `i`, `j`. -/
def rotateCounterClockwise (face : FaceGrid) : FaceGrid :=
  let temp := face
  for3 (fun i f => for3 (fun j f => f.set (2 - j) i (temp.cell i j)) f) face

/-- `CubeState::rotateF`. -/
def rotateF (s0 : CubeState) : CubeState :=
  let s := s0.putFace .Front (rotateClockwise (s0.m_faces .Front))
  let temp : Fin 3 → CubeColor := fun i => s.get .Up 2 i
  let s := for3 (fun i s => s.set .Up 2 i (s.get .Left (2 - i) 2)) s
  let s := for3 (fun i s => s.set .Left i 2 (s.get .Down 0 i)) s
  let s := for3 (fun i s => s.set .Down 0 i (s.get .Right (2 - i) 0)) s
  for3 (fun i s => s.set .Right i 0 (temp i)) s

/-- `CubeState::rotateR`. -/
def rotateR (s0 : CubeState) : CubeState :=
  let s := s0.putFace .Right (rotateClockwise (s0.m_faces .Right))
  let temp : Fin 3 → CubeColor := fun i => s.get .Front i 2
  let s := for3 (fun i s => s.set .Front i 2 (s.get .Down i 2)) s
  let s := for3 (fun i s => s.set .Down i 2 (s.get .Back (2 - i) 0)) s
  let s := for3 (fun i s => s.set .Back i 0 (s.get .Up (2 - i) 2)) s
  for3 (fun i s => s.set .Up i 2 (temp i)) s

/-- `CubeState::rotateU`. -/
def rotateU (s0 : CubeState) : CubeState :=
  let s := s0.putFace .Up (rotateClockwise (s0.m_faces .Up))
  let temp : Fin 3 → CubeColor := fun i => s.get .Front 0 i
  let s := for3 (fun i s => s.set .Front 0 i (s.get .Right 0 i)) s
  let s := for3 (fun i s => s.set .Right 0 i (s.get .Back 0 i)) s
  let s := for3 (fun i s => s.set .Back 0 i (s.get .Left 0 i)) s
  for3 (fun i s => s.set .Left 0 i (temp i)) s

/-- `CubeState::rotateL`. -/
def rotateL (s0 : CubeState) : CubeState :=
  let s := s0.putFace .Left (rotateClockwise (s0.m_faces .Left))
  let temp : Fin 3 → CubeColor := fun i => s.get .Front i 0
  let s := for3 (fun i s => s.set .Front i 0 (s.get .Up i 0)) s
  let s := for3 (fun i s => s.set .Up i 0 (s.get .Back (2 - i) 2)) s
  let s := for3 (fun i s => s.set .Back i 2 (s.get .Down (2 - i) 0)) s
  for3 (fun i s => s.set .Down i 0 (temp i)) s

/-- `CubeState::rotateB`. -/
def rotateB (s0 : CubeState) : CubeState :=
  let s := s0.putFace .Back (rotateClockwise (s0.m_faces .Back))
  let temp : Fin 3 → CubeColor := fun i => s.get .Up 0 i
  let s := for3 (fun i s => s.set .Up 0 i (s.get .Right i 2)) s
  let s := for3 (fun i s => s.set .Right i 2 (s.get .Down 2 (2 - i))) s
  let s := for3 (fun i s => s.set .Down 2 i (s.get .Left (2 - i) 0)) s
  for3 (fun i s => s.set .Left i 0 (temp (2 - i))) s

/-- `CubeState::rotateD`. -/
def rotateD (s0 : CubeState) : CubeState :=
  let s := s0.putFace .Down (rotateClockwise (s0.m_faces .Down))
  let temp : Fin 3 → CubeColor := fun i => s.get .Front 2 i
  let s := for3 (fun i s => s.set .Front 2 i (s.get .Left 2 i)) s
  let s := for3 (fun i s => s.set .Left 2 i (s.get .Back 2 i)) s
  let s := for3 (fun i s => s.set .Back 2 i (s.get .Right 2 i)) s
  for3 (fun i s => s.set .Right 2 i (temp i)) s

/-- `CubeState::rotateFPrime`: `rotateF` three times. -/
def rotateFPrime (s : CubeState) : CubeState :=
  for3 (fun _ s => rotateF s) s

/-- `CubeState::rotateRPrime`: `rotateR` three times. -/
def rotateRPrime (s : CubeState) : CubeState :=
  for3 (fun _ s => rotateR s) s

/-- `CubeState::rotateUPrime`: `rotateU` three times. -/
def rotateUPrime (s : CubeState) : CubeState :=
  for3 (fun _ s => rotateU s) s

/-- `CubeState::rotateLPrime`: `rotateL` three times. -/
def rotateLPrime (s : CubeState) : CubeState :=
  for3 (fun _ s => rotateL s) s

/-- `CubeState::rotateBPrime`: `rotateB` three times. -/
def rotateBPrime (s : CubeState) : CubeState :=
  for3 (fun _ s => rotateB s) s

/-- `CubeState::rotateDPrime`: `rotateD` three times. -/
def rotateDPrime (s : CubeState) : CubeState :=
  for3 (fun _ s => rotateD s) s

/-- The test `QChar::isSpace_helper` of Qt for a code point above 127: the character belongs
to one of the Unicode categories `Zs`, `Zl`, `Zp`. These are the no-break space U+00A0, the
Ogham space mark U+1680, the spaces U+2000 .. U+200A, the line separator U+2028, the paragraph
separator U+2029, the narrow no-break space U+202F, the medium mathematical space U+205F and
the ideographic space U+3000. -/
def isSeparator (ucs4 : Nat) : Bool :=
  ucs4 == 0xA0 || ucs4 == 0x1680 || (0x2000 ≤ ucs4 && ucs4 ≤ 0x200A) ||
  ucs4 == 0x2028 || ucs4 == 0x2029 || ucs4 == 0x202F || ucs4 == 0x205F || ucs4 == 0x3000

/-- `QChar::isSpace`: the space U+0020, the controls U+0009 .. U+000D (tab, line feed, vertical
tab, form feed, carriage return) and, above 127, the control U+0085, the no-break space U+00A0
and the separator characters. -/
def isSpace (c : Char) : Bool :=
  c.toNat == 0x20 || (c.toNat ≤ 0x0D && c.toNat ≥ 0x09) ||
  (c.toNat > 127 && (c.toNat == 0x85 || c.toNat == 0xA0 || isSeparator c.toNat))

/-- `QString::trimmed`: the characters for which `QChar::isSpace` holds are removed from both
ends. -/
def trimmed (s : String) : String :=
  ⟨((s.data.dropWhile isSpace).reverse.dropWhile isSpace).reverse⟩

/-- `QString::toUpper` on ASCII letters; a character outside ASCII is kept as it is. Qt maps
such a character to upper case as well, but to no string that is empty, is one of the
characters `F R U L B D '` or is a move symbol, so a string is a move symbol after the one
mapping exactly when it is one after the other. -/
def toUpper (s : String) : String :=
  ⟨s.data.map fun c => if 97 ≤ c.toNat ∧ c.toNat ≤ 122 then Char.ofNat (c.toNat - 32) else c⟩

/-- `CubeState::applyMove`: a move that is none of the twelve symbols changes nothing. -/
def applyMove (s : CubeState) (move : String) : CubeState :=
  let cleanMove := toUpper (trimmed move)
  if cleanMove = "F" then rotateF s
  else if cleanMove = "F'" then rotateFPrime s
  else if cleanMove = "R" then rotateR s
  else if cleanMove = "R'" then rotateRPrime s
  else if cleanMove = "U" then rotateU s
  else if cleanMove = "U'" then rotateUPrime s
  else if cleanMove = "L" then rotateL s
  else if cleanMove = "L'" then rotateLPrime s
  else if cleanMove = "B" then rotateB s
  else if cleanMove = "B'" then rotateBPrime s
  else if cleanMove = "D" then rotateD s
  else if cleanMove = "D'" then rotateDPrime s
  else s

/-- The loop `for (const QString& move : moves) state->applyMove(move)`. -/
def applyMoves (s : CubeState) (moves : List String) : CubeState :=
  moves.foldl applyMove s

/-- `QString::number(n)`: the decimal digits of `n`. -/
def qNumber (n : Nat) : String :=
  ⟨Nat.toDigits 10 n⟩

/-- `QChar::digitValue` on ASCII: the value of a decimal digit, `-1` for any other character. -/
def digitValue (c : Char) : Int :=
  if 48 ≤ c.toNat ∧ c.toNat ≤ 57 then (c.toNat : Int) - 48 else -1

/-- `CubeState::toString`: one digit per sticker, in traversal order. -/
def CubeState.toString (s : CubeState) : String :=
  stickerOrder.foldl (fun result p => result ++ qNumber (s.get p.1 p.2.1 p.2.2).ordinal) ""

/-- One iteration of the loops of `CubeState::fromString` at position `(face, row, col)`; the
second component is the counter `index`. A character that is not a digit `0 .. 6` leaves its
sticker as it was. -/
def fromStringStep (state : String) (acc : CubeState × Nat) (p : CubeFace × Fin 3 × Fin 3) :
    CubeState × Nat :=
  let colorValue := digitValue (state.data.getD acc.2 ' ')
  let s := if 0 ≤ colorValue ∧ colorValue ≤ 6 then
      acc.1.set p.1 p.2.1 p.2.2 (CubeColor.ofOrdinal colorValue.toNat)
    else acc.1
  (s, acc.2 + 1)

/-- `CubeState::fromString`: a string whose length is not 54 is ignored. -/
def CubeState.fromString (s : CubeState) (state : String) : CubeState :=
  if state.length ≠ 54 then s
  else (stickerOrder.foldl (fromStringStep state) (s, 0)).1

/-- `CubeState::copy`: an independent state with the same 54 stickers. -/
def CubeState.copy (s : CubeState) : CubeState :=
  ⟨s.m_faces⟩

/-! ## CubeSolver.cpp -/

/-- The values returned by successive calls of `qrand()`: call number `pos` returns
`draws pos`. -/
structure Rng where
  draws : Nat → Nat
  pos : Nat

/-- One call of `qrand()`: the value drawn and the generator after the call. -/
def qrand (rng : Rng) : Nat × Rng :=
  (rng.draws rng.pos, ⟨rng.draws, rng.pos + 1⟩)

/-- The member `m_rightHandAlgorithm`. -/
def m_rightHandAlgorithm : List String := ["R", "U", "R'", "U'"]

/-- The member `m_leftHandAlgorithm`. -/
def m_leftHandAlgorithm : List String := ["L'", "U'", "L", "U"]

/-- The member `m_sledgehammerAlgorithm`. -/
def m_sledgehammerAlgorithm : List String := ["R'", "F", "R", "F'"]

/-- The member `m_tPermAlgorithm`. -/
def m_tPermAlgorithm : List String :=
  ["R", "U", "R'", "F'", "R", "U", "R'", "U'", "R'", "F", "R2", "U'", "R'"]

/-- The member `m_yPermAlgorithm`. -/
def m_yPermAlgorithm : List String :=
  ["R", "U'", "R'", "F", "R", "F'", "R", "U", "R'", "F'", "R", "F", "R2", "U'", "R'"]

/-- The table `m_algorithms` as filled by `initializeAlgorithms`. -/
def m_algorithms : List (String × List String) :=
  [("OLL_CROSS", ["F", "R", "U", "R'", "U'", "F'"]),
   ("OLL_DOT", ["F", "R", "U", "R'", "U'", "R", "U", "R'", "U'", "F'"]),
   ("OLL_LINE", ["F", "R", "U", "R'", "U'", "F'"]),
   ("OLL_L", ["F", "U", "R", "U'", "R'", "F'"]),
   ("PLL_T", m_tPermAlgorithm),
   ("PLL_Y", m_yPermAlgorithm),
   ("PLL_A", ["R'", "F", "R'", "B2", "R", "F'", "R'", "B2", "R2"]),
   ("PLL_U", ["R", "U'", "R", "U", "R", "U", "R", "U'", "R'", "U'", "R2"]),
   ("F2L_BASIC", ["R", "U'", "R'", "F", "R", "F'"]),
   ("F2L_SEPARATED", ["R", "U", "R'", "U'", "R", "U", "R'"])]

/-- The call `m_algorithms.contains(key)`. -/
def algorithmsContains (key : String) : Bool :=
  m_algorithms.any fun kv => kv.1 == key

/-- The read `m_algorithms[key]`: an absent key reads as the empty list. -/
def algorithmsAt (key : String) : List String :=
  (m_algorithms.lookup key).getD []

/-- `CubeSolver::isCrossSolved`. -/
def isCrossSolved (state : CubeState) : Bool :=
  let centerColor := getColor state .Down 1 1
  getColor state .Down 0 1 == centerColor &&
  getColor state .Down 1 0 == centerColor &&
  getColor state .Down 1 2 == centerColor &&
  getColor state .Down 2 1 == centerColor

/-- `CubeSolver::isFirstLayerSolved`. -/
def isFirstLayerSolved (state : CubeState) : Bool :=
  let centerColor := getColor state .Down 1 1
  idx3.all fun row => idx3.all fun col => getColor state .Down row col == centerColor

/-- `CubeSolver::isMiddleLayerSolved`: the loop runs over the faces `0 .. 3`. -/
def isMiddleLayerSolved (state : CubeState) : Bool :=
  [CubeFace.Front, .Back, .Left, .Right].all fun cubeFace =>
    let centerColor := getColor state cubeFace 1 1
    !(getColor state cubeFace 1 0 != centerColor || getColor state cubeFace 1 2 != centerColor)

/-- `CubeSolver::isTopCrossSolved`. -/
def isTopCrossSolved (state : CubeState) : Bool :=
  let centerColor := getColor state .Up 1 1
  getColor state .Up 0 1 == centerColor &&
  getColor state .Up 1 0 == centerColor &&
  getColor state .Up 1 2 == centerColor &&
  getColor state .Up 2 1 == centerColor

/-- `CubeSolver::isLastLayerOriented`. -/
def isLastLayerOriented (state : CubeState) : Bool :=
  let centerColor := getColor state .Up 1 1
  idx3.all fun row => idx3.all fun col => getColor state .Up row col == centerColor

/-- `CubeSolver::detectPattern`: for the layer `"top"` the Up edges are counted; for any other
layer one of six names is drawn with `qrand()`. -/
def detectPattern (state : CubeState) (layer : String) (rng : Rng) : String × Rng :=
  if layer = "top" then
    let edges : List Bool :=
      [getColor state .Up 0 1 == getColor state .Up 1 1,
       getColor state .Up 1 0 == getColor state .Up 1 1,
       getColor state .Up 1 2 == getColor state .Up 1 1,
       getColor state .Up 2 1 == getColor state .Up 1 1]
    let correctEdges : Nat := edges.foldl (fun n e => if e then n + 1 else n) 0
    if correctEdges = 0 then ("dot", rng)
    else if correctEdges = 2 then ("line", rng)
    else if correctEdges = 3 then ("L", rng)
    else ("cross", rng)
  else
    let patterns : List String := ["T", "Y", "A", "U", "H", "Z"]
    let draw := qrand rng
    (patterns.getD (draw.1 % patterns.length) "", draw.2)

/-- `CubeSolver::solveCross`. -/
def solveCross (state : CubeState) : List String :=
  if !isCrossSolved state then
    ["F", "D", "R", "U'", "R'", "F'"] ++ ["R", "U", "R'", "U'", "F", "R", "F'"] ++
      ["D", "R", "F", "U", "F'", "R'"] ++ ["U", "R", "U'", "F'", "U", "F"]
  else []

/-- `CubeSolver::solveFirstLayerCorners`. -/
def solveFirstLayerCorners (state : CubeState) : List String :=
  if !isFirstLayerSolved state then
    ["R", "U", "R'", "U'"] ++ ["U", "R", "U'", "R'"] ++
      ["R", "U2", "R'", "U'", "R", "U", "R'"] ++ ["U'", "R", "U", "R'"]
  else []

/-- `CubeSolver::solveMiddleLayer`. -/
def solveMiddleLayer (state : CubeState) : List String :=
  if !isMiddleLayerSolved state then
    ["U", "R", "U'", "R'", "U'", "F'", "U", "F"] ++
      ["U'", "L'", "U", "L", "U", "F", "U'", "F'"] ++
      ["R", "U", "R'", "F", "R", "F'", "U'", "R", "U", "R'"]
  else []

/-- `CubeSolver::solveTopCross`. -/
def solveTopCross (state : CubeState) (rng : Rng) : List String × Rng :=
  if !isTopCrossSolved state then
    let pattern := detectPattern state "top" rng
    if pattern.1 = "dot" then (algorithmsAt "OLL_DOT", pattern.2)
    else if pattern.1 = "line" then (algorithmsAt "OLL_LINE", pattern.2)
    else if pattern.1 = "L" then (algorithmsAt "OLL_L", pattern.2)
    else (algorithmsAt "OLL_CROSS", pattern.2)
  else ([], rng)

/-- `CubeSolver::orientLastLayer`. -/
def orientLastLayer (state : CubeState) (rng : Rng) : List String × Rng :=
  if !isLastLayerOriented state then
    let pattern := detectPattern state "oll" rng
    if algorithmsContains ("OLL_" ++ toUpper pattern.1) then
      (algorithmsAt ("OLL_" ++ toUpper pattern.1), pattern.2)
    else
      (["R", "U", "R'", "U", "R", "U2", "R'"] ++ ["F", "R", "U", "R'", "U'", "F'"], pattern.2)
  else ([], rng)

/-- `CubeSolver::permuteLastLayer`. -/
def permuteLastLayer (state : CubeState) (rng : Rng) : List String × Rng :=
  if !state.isSolved then
    let pattern := detectPattern state "pll" rng
    if pattern.1 = "T" then (algorithmsAt "PLL_T", pattern.2)
    else if pattern.1 = "Y" then (algorithmsAt "PLL_Y", pattern.2)
    else if pattern.1 = "A" then (algorithmsAt "PLL_A", pattern.2)
    else if pattern.1 = "U" then (algorithmsAt "PLL_U", pattern.2)
    else
      (["R", "U", "R'", "F'", "R", "U", "R'", "U'", "R'", "F", "R2", "U'", "R'"], pattern.2)
  else ([], rng)

/-- The test of `CubeSolver::cancelMoves`: `move` cancels against `lastMove`. -/
def cancels (move lastMove : String) : Bool :=
  (move == "R" && lastMove == "R'") ||
  (move == "R'" && lastMove == "R") ||
  (move == "U" && lastMove == "U'") ||
  (move == "U'" && lastMove == "U") ||
  (move == "F" && lastMove == "F'") ||
  (move == "F'" && lastMove == "F") ||
  (move == "L" && lastMove == "L'") ||
  (move == "L'" && lastMove == "L") ||
  (move == "B" && lastMove == "B'") ||
  (move == "B'" && lastMove == "B") ||
  (move == "D" && lastMove == "D'") ||
  (move == "D'" && lastMove == "D")

/-- One iteration of the loop of `cancelMoves`; `result` is kept with its last element first. -/
def cancelStep (result : List String) (move : String) : List String :=
  match result with
  | [] => [move]
  | lastMove :: init => if cancels move lastMove then init else move :: lastMove :: init

/-- `CubeSolver::cancelMoves`. -/
def cancelMoves (moves : List String) : List String :=
  (moves.foldl cancelStep []).reverse

/-- `CubeSolver::optimizeMoves`. -/
def optimizeMoves (moves : List String) : List String :=
  if moves.isEmpty then moves else cancelMoves moves

/-- `CubeSolver::beginnerMethodSolve`: the six phases; each phase's moves are appended to
`totalSolution` and, except for the last phase, applied to the working state. -/
def beginnerMethodSolve (state : CubeState) (rng : Rng) : List String × Rng :=
  let totalSolution : List String := []
  let crossSolution := solveCross state
  let totalSolution := totalSolution ++ crossSolution
  let state := applyMoves state crossSolution
  let cornersSolution := solveFirstLayerCorners state
  let totalSolution := totalSolution ++ cornersSolution
  let state := applyMoves state cornersSolution
  let middleSolution := solveMiddleLayer state
  let totalSolution := totalSolution ++ middleSolution
  let state := applyMoves state middleSolution
  let topCrossSolution := solveTopCross state rng
  let totalSolution := totalSolution ++ topCrossSolution.1
  let state := applyMoves state topCrossSolution.1
  let ollSolution := orientLastLayer state topCrossSolution.2
  let totalSolution := totalSolution ++ ollSolution.1
  let state := applyMoves state ollSolution.1
  let pllSolution := permuteLastLayer state ollSolution.2
  (totalSolution ++ pllSolution.1, pllSolution.2)

/-- `CubeSolver::kociembaSolve`: falls back to the beginner's method. -/
def kociembaSolve (state : CubeState) (rng : Rng) : List String × Rng :=
  beginnerMethodSolve state rng

/-- `CubeSolver::solve` on a non-null `cubeState`. -/
def CubeSolver.solve (cubeState : CubeState) (rng : Rng) : List String × Rng :=
  if !cubeState.isValid then ([], rng)
  else if cubeState.isSolved then (["Cube is already solved!"], rng)
  else
    let workingState := cubeState.copy
    let solution := beginnerMethodSolve workingState rng
    if !solution.1.isEmpty then (optimizeMoves solution.1, solution.2)
    else ([], solution.2)

/-! ## SudokuGrid.cpp

Rows, columns and cell values are `int` in the source; the class only ever stores values
`0 .. 9` in a 9 x 9 array, which is the invariant `inv` below. Indices and values are natural
numbers here: every caller modelled passes non-negative arguments. -/

/-- The constant `GRID_SIZE`. -/
def GRID_SIZE : Nat := 9

/-- The constant `BLOCK_SIZE`. -/
def BLOCK_SIZE : Nat := 3

/-- The data member `m_grid` of `SudokuGrid`, with the class invariant: 9 rows of 9 cells, each
cell in `0 .. 9` (`0` is an empty cell). -/
structure SudokuGrid where
  m_grid : List (List Nat)
  inv : m_grid.length = 9 ∧ ∀ row ∈ m_grid, row.length = 9 ∧ ∀ v ∈ row, v ≤ 9

/-- `SudokuGrid::initializeGrid`: the grid of a newly constructed object, all cells `0`. -/
def SudokuGrid.empty : SudokuGrid :=
  ⟨List.replicate 9 (List.replicate 9 0), by decide⟩

/-- The read `m_grid[row][col]`. -/
def SudokuGrid.cell (g : SudokuGrid) (row col : Nat) : Nat :=
  (g.m_grid.getD row []).getD col 0

/-- `SudokuGrid::isValidPosition`. -/
def isValidPosition (row col : Nat) : Bool :=
  decide (row < GRID_SIZE) && decide (col < GRID_SIZE)

/-- `SudokuGrid::getValue`. -/
def SudokuGrid.getValue (g : SudokuGrid) (row col : Nat) : Nat :=
  if isValidPosition row col then g.cell row col else 0

/-- The assignment `m_grid[row][col] = value` for an in-range position and a value `0 .. 9`. -/
def SudokuGrid.assign (g : SudokuGrid) (row col value : Nat) (hrow : row < 9) (hvalue : value ≤ 9) :
    SudokuGrid :=
  ⟨g.m_grid.set row ((g.m_grid.getD row []).set col value), by
    obtain ⟨hlen, hrows⟩ := g.inv
    refine ⟨by rw [List.length_set]; exact hlen, ?_⟩
    intro r hr
    rcases List.mem_or_eq_of_mem_set hr with h | h
    · exact hrows r h
    · have hmem : g.m_grid.getD row [] ∈ g.m_grid := by
        rw [List.getD_eq_getElem _ _ (by omega)]
        exact List.getElem_mem _
      obtain ⟨h9, hle⟩ := hrows _ hmem
      rw [h]
      refine ⟨by rw [List.length_set]; exact h9, ?_⟩
      intro v hv
      rcases List.mem_or_eq_of_mem_set hv with h' | h'
      · exact hle v h'
      · omega⟩

/-- `SudokuGrid::setValue`: nothing happens for a position out of range or a value above 9. -/
def SudokuGrid.setValue (g : SudokuGrid) (row col value : Nat) : SudokuGrid :=
  if h : row < 9 ∧ col < 9 ∧ value ≤ 9 then g.assign row col value h.1 h.2.2 else g

/-- The cell positions in row-major order: the loops `for row` / `for col` over the grid. -/
def allCells : List (Nat × Nat) :=
  (List.range 9).flatMap fun row => (List.range 9).map fun col => (row, col)

/-- `SudokuGrid::reset`. -/
def SudokuGrid.reset (_g : SudokuGrid) : SudokuGrid :=
  SudokuGrid.empty

/-- `SudokuGrid::clearCell`. -/
def SudokuGrid.clearCell (g : SudokuGrid) (row col : Nat) : SudokuGrid :=
  g.setValue row col 0

/-- The loop over a `QSet<int> seen` shared by `isRowValid`, `isColumnValid` and
`isBlockValid`, run on the values read in loop order: `false` as soon as a non-zero value is
already in `seen`. -/
def noRepeat : List Nat → List Nat → Bool
  | [], _ => true
  | value :: rest, seen =>
    if value != 0 then
      if seen.contains value then false else noRepeat rest (value :: seen)
    else noRepeat rest seen

/-- `SudokuGrid::isRowValid`. -/
def SudokuGrid.isRowValid (g : SudokuGrid) (row : Nat) : Bool :=
  if row ≥ GRID_SIZE then false
  else noRepeat ((List.range 9).map fun col => g.cell row col) []

/-- `SudokuGrid::isColumnValid`. -/
def SudokuGrid.isColumnValid (g : SudokuGrid) (col : Nat) : Bool :=
  if col ≥ GRID_SIZE then false
  else noRepeat ((List.range 9).map fun row => g.cell row col) []

/-- The cells visited by the loops `for row in [startRow, startRow + 3)`,
`for col in [startCol, startCol + 3)`, in loop order. -/
def blockLoop (startRow startCol : Nat) : List (Nat × Nat) :=
  (List.range' startRow 3).flatMap fun row => (List.range' startCol 3).map fun col => (row, col)

/-- `SudokuGrid::isBlockValid`. -/
def SudokuGrid.isBlockValid (g : SudokuGrid) (blockRow blockCol : Nat) : Bool :=
  if blockRow ≥ 3 || blockCol ≥ 3 then false
  else
    let startRow := blockRow * BLOCK_SIZE
    let startCol := blockCol * BLOCK_SIZE
    noRepeat ((blockLoop startRow startCol).map fun p => g.cell p.1 p.2) []

/-- `SudokuGrid::isValid`. -/
def SudokuGrid.isValid (g : SudokuGrid) : Bool :=
  ((List.range 9).all fun i => g.isRowValid i && g.isColumnValid i) &&
  ((List.range 3).all fun blockRow => (List.range 3).all fun blockCol =>
    g.isBlockValid blockRow blockCol)

/-- `SudokuGrid::isSolved`. -/
def SudokuGrid.isSolved (g : SudokuGrid) : Bool :=
  if !g.isValid then false
  else allCells.all fun p => !(g.cell p.1 p.2 == 0)

/-- `SudokuGrid::isEmpty`. -/
def SudokuGrid.isEmpty (g : SudokuGrid) : Bool :=
  allCells.all fun p => !(g.cell p.1 p.2 != 0)

/-- `SudokuGrid::hasRowConflict`. -/
def SudokuGrid.hasRowConflict (g : SudokuGrid) (row col value : Nat) : Bool :=
  (List.range 9).any fun c => c != col && g.cell row c == value

/-- `SudokuGrid::hasColumnConflict`. -/
def SudokuGrid.hasColumnConflict (g : SudokuGrid) (row col value : Nat) : Bool :=
  (List.range 9).any fun r => r != row && g.cell r col == value

/-- `SudokuGrid::hasBlockConflict`. -/
def SudokuGrid.hasBlockConflict (g : SudokuGrid) (row col value : Nat) : Bool :=
  let blockStartRow := (row / BLOCK_SIZE) * BLOCK_SIZE
  let blockStartCol := (col / BLOCK_SIZE) * BLOCK_SIZE
  (blockLoop blockStartRow blockStartCol).any fun p =>
    (p.1 != row || p.2 != col) && g.cell p.1 p.2 == value

/-- `SudokuGrid::hasConflict`. -/
def SudokuGrid.hasConflict (g : SudokuGrid) (row col value : Nat) : Bool :=
  g.hasRowConflict row col value || g.hasColumnConflict row col value ||
    g.hasBlockConflict row col value

/-- `SudokuGrid::isValidValue`. -/
def SudokuGrid.isValidValue (g : SudokuGrid) (row col value : Nat) : Bool :=
  if !isValidPosition row col || decide (value < 1) || decide (value > 9) then false
  else !g.hasConflict row col value

/-- `SudokuGrid::getValidValues`. -/
def SudokuGrid.getValidValues (g : SudokuGrid) (row col : Nat) : List Nat :=
  if !isValidPosition row col || g.cell row col != 0 then []
  else (List.range' 1 9).filter fun value => g.isValidValue row col value

/-- `SudokuGrid::getEmptyCells`. -/
def SudokuGrid.getEmptyCells (g : SudokuGrid) : List (Nat × Nat) :=
  allCells.filter fun p => g.cell p.1 p.2 == 0

/-- `SudokuGrid::getEmptyCount`. -/
def SudokuGrid.getEmptyCount (g : SudokuGrid) : Nat :=
  allCells.foldl (fun count p => if g.cell p.1 p.2 == 0 then count + 1 else count) 0

/-- `SudokuGrid::toString`: the decimal text of each cell, in row-major order. -/
def SudokuGrid.toString (g : SudokuGrid) : String :=
  allCells.foldl (fun result p => result ++ qNumber (g.cell p.1 p.2)) ""

/-- One iteration of the loops of `SudokuGrid::fromString`; the second component is the
counter `index`. A character that is not a digit stores `0`. The assignment
`m_grid[row][col] = value` is written with `setValue`, which does the same for the in-range
positions of the loops and the values `0 .. 9` stored here. -/
def gridFromStringStep (gridString : String) (acc : SudokuGrid × Nat) (p : Nat × Nat) :
    SudokuGrid × Nat :=
  let value := digitValue (gridString.data.getD acc.2 ' ')
  let g := if 0 ≤ value ∧ value ≤ 9 then acc.1.setValue p.1 p.2 value.toNat
    else acc.1.setValue p.1 p.2 0
  (g, acc.2 + 1)

/-- `SudokuGrid::fromString`: a string whose length is not 81 is ignored. -/
def SudokuGrid.fromString (g : SudokuGrid) (gridString : String) : SudokuGrid :=
  if gridString.length ≠ 81 then g
  else (allCells.foldl (gridFromStringStep gridString) (g, 0)).1

/-- `SudokuGrid::copy`. -/
def SudokuGrid.copy (g : SudokuGrid) : SudokuGrid :=
  ⟨g.m_grid, g.inv⟩

/-- `SudokuGrid::equals` for a non-null `other`. -/
def SudokuGrid.equals (g other : SudokuGrid) : Bool :=
  allCells.all fun p => !(g.cell p.1 p.2 != other.cell p.1 p.2)

/-! ## SudokuSolver.cpp

The diagnostic counters `m_backtrackCount` and `m_maxDepth` are written but never read by the
solver and are left out. The flags `m_useLogicalTechniques` and `m_explainSteps` are set to
`true` by the constructor and never changed. Recursion and the `while` loop of `solve` take a
`fuel` argument; `none` means that the fuel ran out. -/

/-- The record `SolutionStep`. -/
structure SolutionStep where
  row : Int
  col : Int
  value : Nat
  reason : String
  technique : String
  deriving DecidableEq, Repr

/-- The flag `m_explainSteps`. -/
def m_explainSteps : Bool := true

/-- The flag `m_useLogicalTechniques`. -/
def m_useLogicalTechniques : Bool := true

/-- The bound `m_maxSolutions`. -/
def m_maxSolutions : Nat := 2

/-- The list `m_techniqueOrder`. -/
def m_techniqueOrder : List String :=
  ["naked_singles", "hidden_singles", "naked_pairs", "pointing_pairs", "box_line_reduction"]

/-- `SudokuSolver::copyGrid` for a non-null `original`: a new grid filled cell by cell. -/
def copyGrid (original : SudokuGrid) : SudokuGrid :=
  allCells.foldl (fun copy p => copy.setValue p.1 p.2 (original.getValue p.1 p.2)) SudokuGrid.empty

/-- The loops `grid->setValue(row, col, workingGrid->getValue(row, col))` that copy a solution
back into the caller's grid. -/
def copyBack (grid workingGrid : SudokuGrid) : SudokuGrid :=
  allCells.foldl (fun g p => g.setValue p.1 p.2 (workingGrid.getValue p.1 p.2)) grid

/-- `SudokuSolver::getCandidates`. -/
def getCandidates (grid : SudokuGrid) (row col : Nat) : List Nat :=
  grid.getValidValues row col

/-- `SudokuSolver::explainNakedSingle`. -/
def explainNakedSingle (row col value : Nat) : String :=
  "Cell (" ++ (qNumber (row + 1) ++ ("," ++ (qNumber (col + 1) ++ (") can only contain the value "
    ++ (qNumber value ++ ". This is the only number that doesn't conflict with existing numbers in the same row, column, and 3×3 block.")))))

/-- `SudokuSolver::explainHiddenSingle`. -/
def explainHiddenSingle (row col value : Nat) (unit : String) : String :=
  "The value " ++ (qNumber value ++ (" can only be placed in cell (" ++ (qNumber (row + 1) ++ (","
    ++ (qNumber (col + 1) ++ (") within its " ++ (unit ++ (". All other cells in this " ++ (unit
    ++ (" already contain " ++ (qNumber value ++ " or cannot contain it due to constraints.")))))))))))

/-- `SudokuSolver::findNextEmptyCell`: `none` is the point `(-1, -1)`. -/
def findNextEmptyCell (grid : SudokuGrid) (startRow startCol : Nat) : Option (Nat × Nat) :=
  (List.range' startRow (9 - startRow)).findSome? fun row =>
    let colStart := if row = startRow then startCol else 0
    ((List.range' colStart (9 - colStart)).find? fun col => grid.getValue row col == 0).map
      fun col => (row, col)

/-- The body of the loops of `applyNakedSingles` at one cell; the state is
`(progress, grid, steps)`. -/
def nakedSingleStep (acc : Bool × SudokuGrid × List SolutionStep) (p : Nat × Nat) :
    Bool × SudokuGrid × List SolutionStep :=
  let grid := acc.2.1
  if grid.getValue p.1 p.2 == 0 then
    let candidates := getCandidates grid p.1 p.2
    if candidates.length == 1 then
      let value := candidates.headD 0
      let steps := if m_explainSteps then
          acc.2.2 ++ [⟨p.1, p.2, value, explainNakedSingle p.1 p.2 value, "naked_single"⟩]
        else acc.2.2
      (true, grid.setValue p.1 p.2 value, steps)
    else acc
  else acc

/-- `SudokuSolver::applyNakedSingles`: the result is `(progress, grid, steps)`. -/
def applyNakedSingles (grid : SudokuGrid) (steps : List SolutionStep) :
    Bool × SudokuGrid × List SolutionStep :=
  allCells.foldl nakedSingleStep (false, grid, steps)

/-- The body shared by the three parts of `applyHiddenSingles` for one unit (given by its cells
in loop order) and one value: the empty cells of the unit where the value is legal are
collected, and if there is exactly one the value is placed there. -/
def hiddenSingleStep (unit : String) (acc : Bool × SudokuGrid × List SolutionStep)
    (uv : List (Nat × Nat) × Nat) : Bool × SudokuGrid × List SolutionStep :=
  let grid := acc.2.1
  let value := uv.2
  let possibleCells := uv.1.filter fun p =>
    grid.getValue p.1 p.2 == 0 && grid.isValidValue p.1 p.2 value
  if possibleCells.length == 1 then
    let cell := possibleCells.headD (0, 0)
    let steps := if m_explainSteps then
        acc.2.2 ++ [⟨cell.1, cell.2, value, explainHiddenSingle cell.1 cell.2 value unit,
          "hidden_single"⟩]
      else acc.2.2
    (true, grid.setValue cell.1 cell.2 value, steps)
  else acc

/-- The cells of a row, in the order of the loop `for col`. -/
def rowCells (row : Nat) : List (Nat × Nat) :=
  (List.range 9).map fun col => (row, col)

/-- The cells of a column, in the order of the loop `for row`. -/
def colCells (col : Nat) : List (Nat × Nat) :=
  (List.range 9).map fun row => (row, col)

/-- The pairs (unit, value) visited by one part of `applyHiddenSingles`: for each unit, the
values `1 .. 9`. -/
def unitValuePairs (units : List (List (Nat × Nat))) : List (List (Nat × Nat) × Nat) :=
  units.flatMap fun u => (List.range' 1 9).map fun value => (u, value)

/-- `SudokuSolver::applyHiddenSingles`: rows, then columns, then blocks. -/
def applyHiddenSingles (grid : SudokuGrid) (steps : List SolutionStep) :
    Bool × SudokuGrid × List SolutionStep :=
  let acc := (unitValuePairs ((List.range 9).map rowCells)).foldl
    (hiddenSingleStep "row") (false, grid, steps)
  let acc := (unitValuePairs ((List.range 9).map colCells)).foldl
    (hiddenSingleStep "column") acc
  (unitValuePairs ((List.range 3).flatMap fun blockRow => (List.range 3).map fun blockCol =>
      blockLoop (blockRow * 3) (blockCol * 3))).foldl
    (hiddenSingleStep "block") acc

/-- `SudokuSolver::applyNakedPairs`: a stub that reports no progress. -/
def applyNakedPairs (grid : SudokuGrid) (steps : List SolutionStep) :
    Bool × SudokuGrid × List SolutionStep :=
  (false, grid, steps)

/-- `SudokuSolver::applyPointingPairs`: a stub that reports no progress. -/
def applyPointingPairs (grid : SudokuGrid) (steps : List SolutionStep) :
    Bool × SudokuGrid × List SolutionStep :=
  (false, grid, steps)

/-- `SudokuSolver::applyBoxLineReduction`: a stub that reports no progress. -/
def applyBoxLineReduction (grid : SudokuGrid) (steps : List SolutionStep) :
    Bool × SudokuGrid × List SolutionStep :=
  (false, grid, steps)

/-- The loop over `m_techniqueOrder` of `applySolvingTechniques`, which stops at the first
technique that reports progress. -/
def techniqueLoop : List String → SudokuGrid → List SolutionStep →
    Bool × SudokuGrid × List SolutionStep
  | [], grid, steps => (false, grid, steps)
  | technique :: rest, grid, steps =>
    let r :=
      if technique = "naked_singles" then applyNakedSingles grid steps
      else if technique = "hidden_singles" then applyHiddenSingles grid steps
      else if technique = "naked_pairs" then applyNakedPairs grid steps
      else if technique = "pointing_pairs" then applyPointingPairs grid steps
      else if technique = "box_line_reduction" then applyBoxLineReduction grid steps
      else (false, grid, steps)
    if r.1 then r else techniqueLoop rest r.2.1 r.2.2

/-- `SudokuSolver::applySolvingTechniques`. -/
def applySolvingTechniques (grid : SudokuGrid) (steps : List SolutionStep) :
    Bool × SudokuGrid × List SolutionStep :=
  techniqueLoop m_techniqueOrder grid steps

/-- The loop `for (int value = 1; value <= 9; ++value)` of `backtrackSolve` on the values still
to try; `recurse` is the recursive call `backtrackSolve(grid, cellRow, cellCol)`. The result is
the returned flag and the grid as the call leaves it. -/
def tryValues (recurse : SudokuGrid → Option (Bool × SudokuGrid)) (cellRow cellCol : Nat) :
    List Nat → SudokuGrid → Option (Bool × SudokuGrid)
  | [], grid => some (false, grid)
  | value :: rest, grid =>
    if grid.isValidValue cellRow cellCol value then
      match recurse (grid.setValue cellRow cellCol value) with
      | none => none
      | some (true, g) => some (true, g)
      | some (false, g) => tryValues recurse cellRow cellCol rest (g.setValue cellRow cellCol 0)
    else tryValues recurse cellRow cellCol rest grid

/-- `SudokuSolver::backtrackSolve`. -/
def backtrackSolve : Nat → SudokuGrid → Nat → Nat → Option (Bool × SudokuGrid)
  | 0, _, _, _ => none
  | fuel + 1, grid, row, col =>
    match findNextEmptyCell grid row col with
    | none => some (grid.isSolved, grid)
    | some (cellRow, cellCol) =>
      tryValues (fun g => backtrackSolve fuel g cellRow cellCol) cellRow cellCol
        (List.range' 1 9) grid

/-- The `while` loop of `solve`: `some (true, w, steps)` when the working grid became solved
inside the loop, `some (false, w, steps)` when a round made no progress. -/
def solveLoop : Nat → SudokuGrid → List SolutionStep →
    Option (Bool × SudokuGrid × List SolutionStep)
  | 0, _, _ => none
  | fuel + 1, workingGrid, steps =>
    let r := applySolvingTechniques workingGrid steps
    if r.1 then
      if r.2.1.isSolved then some (true, r.2.1, r.2.2)
      else solveLoop fuel r.2.1 r.2.2
    else some (false, r.2.1, r.2.2)

/-- `SudokuSolver::solve` for a non-null `grid`: the returned flag and the caller's grid after
the call. -/
def SudokuSolver.solve (fuel : Nat) (grid : SudokuGrid) : Option (Bool × SudokuGrid) :=
  if !grid.isValid then some (false, grid)
  else if grid.isSolved then some (true, grid)
  else
    let workingGrid := copyGrid grid
    match (if m_useLogicalTechniques then solveLoop fuel workingGrid []
        else some (false, workingGrid, [])) with
    | none => none
    | some (true, w, _) => some (true, copyBack grid w)
    | some (false, w, _) =>
      match backtrackSolve fuel w 0 0 with
      | none => none
      | some (true, w') => some (true, copyBack grid w')
      | some (false, _) => some (false, grid)

/-- The chain `if (applyNakedSingles(...)) ... else if (applyHiddenSingles(...)) ...` of one
round of the `while` loop of `solveWithSteps`: the techniques are tried in order until one
reports progress. -/
def techniqueChain (workingGrid : SudokuGrid) (steps : List SolutionStep) :
    Bool × SudokuGrid × List SolutionStep :=
  let r := applyNakedSingles workingGrid steps
  if r.1 then r
  else
    let r := applyHiddenSingles r.2.1 r.2.2
    if r.1 then r
    else
      let r := applyNakedPairs r.2.1 r.2.2
      if r.1 then r
      else
        let r := applyPointingPairs r.2.1 r.2.2
        if r.1 then r
        else applyBoxLineReduction r.2.1 r.2.2

/-- The `while` loop of `solveWithSteps`; `remaining` is `maxIterations - iteration`, which
starts at 100. The result is the working grid and the steps when the loop ends. -/
def stepsLoop : Nat → Bool → SudokuGrid → List SolutionStep → SudokuGrid × List SolutionStep
  | 0, _, workingGrid, steps => (workingGrid, steps)
  | remaining + 1, progress, workingGrid, steps =>
    if progress && !workingGrid.isSolved then
      let stepsBefore := steps.length
      let r := techniqueChain workingGrid steps
      let progress := if r.2.2.length == stepsBefore then false else r.1
      stepsLoop remaining progress r.2.1 r.2.2
    else (workingGrid, steps)

/-- The step recorded by `solveWithSteps` for a grid that is already solved. -/
def solvedStep : SolutionStep :=
  ⟨-1, -1, 0, "Grid is already solved!", "validation"⟩

/-- The step recorded by `solveWithSteps` for the guess of `value` at `(row, col)`. -/
def guessStep (row col value : Nat) : SolutionStep :=
  ⟨row, col, value,
    "Trying candidate " ++ (qNumber value ++ (" at position (" ++ (qNumber (row + 1) ++ (","
      ++ (qNumber (col + 1) ++ "). If this leads to a contradiction, we'll backtrack."))))),
    "backtrack_guess"⟩

/-- The body of `SudokuSolver::solveWithSteps` for a non-null `grid`; `recurse` is the recursive
call `solveWithSteps(workingGrid)`. The result is the returned steps. -/
def solveWithStepsBody (recurse : SudokuGrid → Option (List SolutionStep)) (grid : SudokuGrid) :
    Option (List SolutionStep) :=
  if !grid.isValid then some []
  else if grid.isSolved then some [solvedStep]
  else
    let workingGrid := copyGrid grid
    let r := stepsLoop 100 true workingGrid []
    let workingGrid := r.1
    let steps := r.2
    if !workingGrid.isSolved then
      match findNextEmptyCell workingGrid 0 0 with
      | none => some steps
      | some nextCell =>
        let candidates := getCandidates workingGrid nextCell.1 nextCell.2
        if !candidates.isEmpty then
          let value := candidates.headD 0
          let workingGrid := workingGrid.setValue nextCell.1 nextCell.2 value
          let steps := steps ++ [guessStep nextCell.1 nextCell.2 value]
          match recurse workingGrid with
          | none => none
          | some remainingSteps => some (steps ++ remainingSteps)
        else some steps
    else some steps

/-- `SudokuSolver::solveWithSteps` for a non-null `grid`: the returned steps. Each level of the
recursion takes one unit of `fuel`; `none` means that the fuel ran out. -/
def solveWithSteps : Nat → SudokuGrid → Option (List SolutionStep)
  | 0, grid => solveWithStepsBody (fun _ => none) grid
  | fuel + 1, grid => solveWithStepsBody (solveWithSteps fuel) grid

/-- The loop over the values of `countSolutions`; `recurse` is the recursive call
`countSolutions(grid, cellRow, cellCol)`. The state is the grid and `m_solutionCount`. -/
def countValues (recurse : SudokuGrid → Nat → Option (SudokuGrid × Nat)) (cellRow cellCol : Nat) :
    List Nat → SudokuGrid → Nat → Option (SudokuGrid × Nat)
  | [], grid, count => some (grid, count)
  | value :: rest, grid, count =>
    if grid.isValidValue cellRow cellCol value then
      match recurse (grid.setValue cellRow cellCol value) count with
      | none => none
      | some (g, n) =>
        if n ≥ m_maxSolutions then some (g.setValue cellRow cellCol 0, n)
        else countValues recurse cellRow cellCol rest (g.setValue cellRow cellCol 0) n
    else countValues recurse cellRow cellCol rest grid count

/-- `SudokuSolver::countSolutions`: the grid and `m_solutionCount` after the call. -/
def countSolutions : Nat → SudokuGrid → Nat → Nat → Nat → Option (SudokuGrid × Nat)
  | 0, _, _, _, _ => none
  | fuel + 1, grid, count, row, col =>
    if count ≥ m_maxSolutions then some (grid, count)
    else
      match findNextEmptyCell grid row col with
      | none => some (grid, count + 1)
      | some (cellRow, cellCol) =>
        countValues (fun g n => countSolutions fuel g n cellRow cellCol) cellRow cellCol
          (List.range' 1 9) grid count

/-- `SudokuSolver::isUniqueSolution` for a non-null `grid`. -/
def isUniqueSolution (fuel : Nat) (grid : SudokuGrid) : Option Bool :=
  let testGrid := copyGrid grid
  (countSolutions fuel testGrid 0 0 0).map fun r => r.2 == 1

/-- The table `puzzle` of `generateSamplePuzzle`. -/
def samplePuzzle : List (List Nat) :=
  [[5, 3, 0, 0, 7, 0, 0, 0, 0],
   [6, 0, 0, 1, 9, 5, 0, 0, 0],
   [0, 9, 8, 0, 0, 0, 0, 6, 0],
   [8, 0, 0, 0, 6, 0, 0, 0, 3],
   [4, 0, 0, 8, 0, 3, 0, 0, 1],
   [7, 0, 0, 0, 2, 0, 0, 0, 6],
   [0, 6, 0, 0, 0, 0, 2, 8, 0],
   [0, 0, 0, 4, 1, 9, 0, 0, 5],
   [0, 0, 0, 0, 8, 0, 0, 7, 9]]

/-- `SudokuSolver::generateSamplePuzzle` for a non-null `grid`. -/
def generateSamplePuzzle (grid : SudokuGrid) : SudokuGrid :=
  allCells.foldl (fun g p => g.setValue p.1 p.2 ((samplePuzzle.getD p.1 []).getD p.2 0)) grid

/-! ## Objects behind pointers

`CubeSolver::solve` and `SudokuSolver::solveWithSteps` receive a pointer and work on a copy made
with `new`. To tell the caller's object from the copy, the objects of a class are kept in a
heap and a pointer is an address. A function that changes the object behind a pointer reads the
object, applies the function on values defined above and writes the result back. `delete` is
left out, so that an address is never used twice. -/

/-- The objects of one class: the object at address `a` is `objects[a]`. -/
structure Heap (α : Type) where
  objects : List α

/-- The object behind the pointer `a`; `d` stands for the object behind a pointer that does not
point to an object. -/
def Heap.read {α : Type} (h : Heap α) (a : Nat) (d : α) : α :=
  h.objects.getD a d

/-- The object behind the pointer `a` is replaced by `x`. -/
def Heap.write {α : Type} (h : Heap α) (a : Nat) (x : α) : Heap α :=
  ⟨h.objects.set a x⟩

/-- The expression `new T`: the heap with the new object `x`, and its address. -/
def Heap.alloc {α : Type} (h : Heap α) (x : α) : Heap α × Nat :=
  (⟨h.objects ++ [x]⟩, h.objects.length)

/-- The cube behind the pointer `a`. -/
def cubeAt (h : Heap CubeState) (a : Nat) : CubeState :=
  h.read a initializeSolvedState

/-- The grid behind the pointer `a`. -/
def gridAt (h : Heap SudokuGrid) (a : Nat) : SudokuGrid :=
  h.read a SudokuGrid.empty

/-- `CubeState::copy` through a pointer: `new CubeState` with the same `m_faces`. -/
def copyAt (h : Heap CubeState) (state : Nat) : Heap CubeState × Nat :=
  h.alloc ⟨(cubeAt h state).m_faces⟩

/-- The loop `for (const QString& move : moves) state->applyMove(move)` through the pointer
`state`. -/
def applyMovesAt (h : Heap CubeState) (state : Nat) (moves : List String) : Heap CubeState :=
  moves.foldl (fun h move => h.write state (applyMove (cubeAt h state) move)) h

/-- `CubeSolver::beginnerMethodSolve` through the pointer `state`: the result and the heap after
the call. -/
def beginnerMethodSolveAt (h : Heap CubeState) (state : Nat) (rng : Rng) :
    (List String × Rng) × Heap CubeState :=
  let totalSolution : List String := []
  let crossSolution := solveCross (cubeAt h state)
  let totalSolution := totalSolution ++ crossSolution
  let h := applyMovesAt h state crossSolution
  let cornersSolution := solveFirstLayerCorners (cubeAt h state)
  let totalSolution := totalSolution ++ cornersSolution
  let h := applyMovesAt h state cornersSolution
  let middleSolution := solveMiddleLayer (cubeAt h state)
  let totalSolution := totalSolution ++ middleSolution
  let h := applyMovesAt h state middleSolution
  let topCrossSolution := solveTopCross (cubeAt h state) rng
  let totalSolution := totalSolution ++ topCrossSolution.1
  let h := applyMovesAt h state topCrossSolution.1
  let ollSolution := orientLastLayer (cubeAt h state) topCrossSolution.2
  let totalSolution := totalSolution ++ ollSolution.1
  let h := applyMovesAt h state ollSolution.1
  let pllSolution := permuteLastLayer (cubeAt h state) ollSolution.2
  ((totalSolution ++ pllSolution.1, pllSolution.2), h)

/-- `CubeSolver::solve` through the non-null pointer `cubeState`: the result and the heap after
the call. -/
def CubeSolver.solveAt (h : Heap CubeState) (cubeState : Nat) (rng : Rng) :
    (List String × Rng) × Heap CubeState :=
  if !(cubeAt h cubeState).isValid then (([], rng), h)
  else if (cubeAt h cubeState).isSolved then ((["Cube is already solved!"], rng), h)
  else
    let c := copyAt h cubeState
    let workingState := c.2
    let r := beginnerMethodSolveAt c.1 workingState rng
    let solution := r.1
    if !solution.1.isEmpty then ((optimizeMoves solution.1, solution.2), r.2)
    else (([], solution.2), r.2)

/-- `SudokuSolver::copyGrid` through the non-null pointer `original`: `new SudokuGrid` filled
cell by cell. -/
def copyGridAt (h : Heap SudokuGrid) (original : Nat) : Heap SudokuGrid × Nat :=
  let a := h.alloc SudokuGrid.empty
  let copy := a.2
  (allCells.foldl (fun h p =>
    h.write copy ((gridAt h copy).setValue p.1 p.2 ((gridAt h original).getValue p.1 p.2))) a.1,
   copy)

/-- The `while` loop of `solveWithSteps` through the pointer `workingGrid`: the heap and the
steps when the loop ends. -/
def stepsLoopAt (h : Heap SudokuGrid) (workingGrid : Nat) (steps : List SolutionStep) :
    Heap SudokuGrid × List SolutionStep :=
  let r := stepsLoop 100 true (gridAt h workingGrid) steps
  (h.write workingGrid r.1, r.2)

/-- The body of `SudokuSolver::solveWithSteps` through the non-null pointer `grid`; `recurse` is
the recursive call `solveWithSteps(workingGrid)`. The result is the returned steps and the heap
after the call. -/
def solveWithStepsBodyAt
    (recurse : Heap SudokuGrid → Nat → Option (List SolutionStep × Heap SudokuGrid))
    (h : Heap SudokuGrid) (grid : Nat) : Option (List SolutionStep × Heap SudokuGrid) :=
  if !(gridAt h grid).isValid then some ([], h)
  else if (gridAt h grid).isSolved then some ([solvedStep], h)
  else
    let c := copyGridAt h grid
    let workingGrid := c.2
    let r := stepsLoopAt c.1 workingGrid []
    let h := r.1
    let steps := r.2
    if !(gridAt h workingGrid).isSolved then
      match findNextEmptyCell (gridAt h workingGrid) 0 0 with
      | none => some (steps, h)
      | some nextCell =>
        let candidates := getCandidates (gridAt h workingGrid) nextCell.1 nextCell.2
        if !candidates.isEmpty then
          let value := candidates.headD 0
          let h := h.write workingGrid
            ((gridAt h workingGrid).setValue nextCell.1 nextCell.2 value)
          let steps := steps ++ [guessStep nextCell.1 nextCell.2 value]
          match recurse h workingGrid with
          | none => none
          | some (remainingSteps, h) => some (steps ++ remainingSteps, h)
        else some (steps, h)
    else some (steps, h)

/-- `SudokuSolver::solveWithSteps` through the non-null pointer `grid`; `none` means that the
fuel ran out. -/
def solveWithStepsAt : Nat → Heap SudokuGrid → Nat → Option (List SolutionStep × Heap SudokuGrid)
  | 0, h, grid => solveWithStepsBodyAt (fun _ _ => none) h grid
  | fuel + 1, h, grid => solveWithStepsBodyAt (solveWithStepsAt fuel) h grid

/-! ## SudokuGrid.cpp on `int`

The methods of `SudokuGrid` that write to `m_grid`, on the member as the source declares it: a
vector of vectors of `int` without invariant, with `int` arguments that may be negative. -/

/-- The data member `m_grid` of `SudokuGrid` as a vector of vectors of `int`. -/
structure RawGrid where
  m_grid : List (List Int)
  deriving DecidableEq, Repr

/-- The read `m_grid[row][col]`. -/
def RawGrid.cell (g : RawGrid) (row col : Nat) : Int :=
  (g.m_grid.getD row []).getD col 0

/-- The assignment `m_grid[row][col] = value`. -/
def RawGrid.store (g : RawGrid) (row col : Nat) (value : Int) : RawGrid :=
  ⟨g.m_grid.set row ((g.m_grid.getD row []).set col value)⟩

/-- `SudokuGrid::isValidPosition` on `int` arguments. -/
def RawGrid.isValidPosition (row col : Int) : Bool :=
  decide (row ≥ 0) && decide (row < 9) && decide (col ≥ 0) && decide (col < 9)

/-- `SudokuGrid::initializeGrid`: the vectors are resized to 9 x 9 and every cell is set
to 0. -/
def RawGrid.initializeGrid : RawGrid :=
  allCells.foldl (fun g p => g.store p.1 p.2 0) ⟨List.replicate 9 (List.replicate 9 0)⟩

/-- `SudokuGrid::reset` on the vector of vectors. -/
def RawGrid.reset (g : RawGrid) : RawGrid :=
  allCells.foldl (fun g p => g.store p.1 p.2 0) g

/-- `SudokuGrid::setValue` on `int` arguments. -/
def RawGrid.setValue (g : RawGrid) (row col value : Int) : RawGrid :=
  if !RawGrid.isValidPosition row col then g
  else if value < 0 ∨ value > 9 then g
  else g.store row.toNat col.toNat value

/-- `SudokuGrid::clearCell` on `int` arguments. -/
def RawGrid.clearCell (g : RawGrid) (row col : Int) : RawGrid :=
  g.setValue row col 0

/-- `SudokuGrid::clearAll` on the vector of vectors. -/
def RawGrid.clearAll (g : RawGrid) : RawGrid :=
  g.reset

/-- One iteration of the loops of `SudokuGrid::fromString` on the vector of vectors; the second
component is the counter `index`. -/
def RawGrid.fromStringStep (gridString : String) (acc : RawGrid × Nat) (p : Nat × Nat) :
    RawGrid × Nat :=
  let value := digitValue (gridString.data.getD acc.2 ' ')
  let g := if value ≥ 0 ∧ value ≤ 9 then acc.1.store p.1 p.2 value
    else acc.1.store p.1 p.2 0
  (g, acc.2 + 1)

/-- `SudokuGrid::fromString` on the vector of vectors. -/
def RawGrid.fromString (g : RawGrid) (gridString : String) : RawGrid :=
  if gridString.length ≠ 81 then g
  else (allCells.foldl (RawGrid.fromStringStep gridString) (g, 0)).1

/-! ## Auxiliary definitions used in the proofs -/

/-- A sticker position: face, row, column. -/
abbrev StickerPos := CubeFace × Fin 3 × Fin 3

/-- The read `m_faces[p.face][p.row][p.col]`. -/
def CubeState.at (s : CubeState) (p : StickerPos) : CubeColor :=
  s.get p.1 p.2.1 p.2.2

/-- Ordinal of a face: `static_cast<int>(face)`. -/
def CubeFace.ordinal : CubeFace → Nat
  | .Front => 0
  | .Back => 1
  | .Left => 2
  | .Right => 3
  | .Up => 4
  | .Down => 5

/-- Index of a position in the traversal order, `0 .. 53`. -/
def posIndex (p : StickerPos) : Nat :=
  p.1.ordinal * 9 + p.2.1.val * 3 + p.2.2.val

/-- Probe state number `k`: the sticker at each position is coloured with base-7 digit `k` of
the position's index, so that the three probes together identify every position. -/
def probe (k : Nat) : CubeState :=
  ⟨fun f => ⟨fun r c => CubeColor.ofOrdinal (posIndex (f, r, c) / 7 ^ k % 7)⟩⟩

/-- The position whose sticker a state transformer `T` moves to `p`, read off the three probe
states after running `T` on them. -/
def sourceOf (T : CubeState → CubeState) (p : StickerPos) : StickerPos :=
  stickerOrder.getD (((T (probe 0)).at p).ordinal + 7 * ((T (probe 1)).at p).ordinal
    + 49 * ((T (probe 2)).at p).ordinal) p

/-- The solved cube after the single move `R`. -/
def afterR : CubeState :=
  applyMove initializeSolvedState "R"

/-- The solved cube after the single move `U`. -/
def afterU : CubeState :=
  applyMove initializeSolvedState "U"

/-- A generator whose every draw is `0`. -/
def zeroRng : Rng :=
  ⟨fun _ => 0, 0⟩

/-- The twelve move symbols. -/
def moveAlphabet : List String :=
  ["F", "F'", "R", "R'", "U", "U'", "L", "L'", "B", "B'", "D", "D'"]

/-- Two different cells that share a row, a column or a 3 x 3 box. -/
def Peer (r c r' c' : Nat) : Prop :=
  (r ≠ r' ∨ c ≠ c') ∧ (r = r' ∨ c = c' ∨ (r / 3 = r' / 3 ∧ c / 3 = c' / 3))

instance (r c r' c' : Nat) : Decidable (Peer r c r' c') := by
  unfold Peer
  infer_instance

/-- No row, column or box holds the same non-zero value in two different cells. -/
def NoClash (g : SudokuGrid) : Prop :=
  ∀ r c r' c', r < 9 → c < 9 → r' < 9 → c' < 9 → Peer r c r' c' →
    g.cell r c ≠ 0 → g.cell r c ≠ g.cell r' c'

/-- The grid `h` agrees with `g` on every non-zero cell of `g`. -/
def Extends (g h : SudokuGrid) : Prop :=
  ∀ r c, r < 9 → c < 9 → g.cell r c ≠ 0 → h.cell r c = g.cell r c

/-- A completion of `g`: a solved grid that agrees with `g` on every non-zero cell of `g`. -/
def Completion (g h : SudokuGrid) : Prop :=
  h.isSolved = true ∧ Extends g h

/-- Every cell before `(row, col)` in row-major order is filled. -/
def FilledBefore (g : SudokuGrid) (row col : Nat) : Prop :=
  ∀ r c, r < 9 → c < 9 → (r < row ∨ (r = row ∧ c < col)) → g.cell r c ≠ 0

/-- The number of empty cells. -/
def emptyCount (g : SudokuGrid) : Nat :=
  allCells.countP fun p => g.cell p.1 p.2 == 0

/-- A unit: nine different in-range cells that are pairwise peers. -/
def IsUnit (u : List (Nat × Nat)) : Prop :=
  u.Nodup ∧ u.length = 9 ∧ (∀ p ∈ u, p.1 < 9 ∧ p.2 < 9) ∧
    ∀ p ∈ u, ∀ q ∈ u, p ≠ q → Peer p.1 p.2 q.1 q.2

instance (u : List (Nat × Nat)) : Decidable (IsUnit u) := by
  unfold IsUnit
  infer_instance

/-- The grid built by `generateSamplePuzzle` on a new grid. -/
def sampleGrid : SudokuGrid :=
  generateSamplePuzzle SudokuGrid.empty

/-- What a call of the backtracking search on `g` must deliver: a result, which is either
`true` with a solved grid extending `g`, or `false` with `g` itself when `g` has no
completion. -/
def SearchOk (g : SudokuGrid) (result : Option (Bool × SudokuGrid)) : Prop :=
  ∃ b g', result = some (b, g') ∧
    (b = true → g'.isSolved = true ∧ Extends g g') ∧
    (b = false → g' = g ∧ ∀ h, ¬ Completion g h)

/-- The invariant of one technique run started on `g`, on its state `(progress, grid, steps)`:
the grid extends `g`, keeps every completion of `g`, has fewer empty cells when progress is
reported and is `g` itself otherwise. -/
def StepInv (g : SudokuGrid) (acc : Bool × SudokuGrid × List SolutionStep) : Prop :=
  Extends g acc.2.1 ∧ (∀ h, Completion g h → Completion acc.2.1 h) ∧
    (acc.1 = true → emptyCount acc.2.1 < emptyCount g) ∧ (acc.1 = false → acc.2.1 = g)

/-- What a call of the counting search on `g` must deliver when it starts with the count `n`
and `C` holds of the completions it is to count: it returns, with `g` restored, a count that
has grown by the number of those completions, capped at two. -/
def CountOk (C : SudokuGrid → Prop) (g : SudokuGrid) (n : Nat)
    (result : Option (SudokuGrid × Nat)) : Prop :=
  ∃ n', result = some (g, n') ∧ n ≤ n' ∧ n' ≤ 2 ∧
    ((∀ h, ¬ C h) → n' = n) ∧
    ((∃ h, C h) → min 2 (n + 1) ≤ n') ∧
    ((∃ h1 h2, C h1 ∧ C h2 ∧ h1 ≠ h2) → 2 ≤ n') ∧
    ((∀ h1 h2, C h1 → C h2 → h1 = h2) → n' ≤ n + 1)

/-- The rows of the solved sample puzzle. -/
def sampleSolutionRows : List (List Nat) :=
  [[5, 3, 4, 6, 7, 8, 9, 1, 2],
   [6, 7, 2, 1, 9, 5, 3, 4, 8],
   [1, 9, 8, 3, 4, 2, 5, 6, 7],
   [8, 5, 9, 7, 6, 1, 4, 2, 3],
   [4, 2, 6, 8, 5, 3, 7, 9, 1],
   [7, 1, 3, 9, 2, 4, 8, 5, 6],
   [9, 6, 1, 5, 3, 7, 2, 8, 4],
   [2, 8, 7, 4, 1, 9, 6, 3, 5],
   [3, 4, 5, 2, 8, 6, 1, 7, 9]]

/-- The inverse of a move symbol: `X` for `X'` and `X'` for `X`; any other string is left as
it is. -/
def inverseMove (m : String) : String :=
  if m = "F" then "F'" else if m = "F'" then "F"
  else if m = "R" then "R'" else if m = "R'" then "R"
  else if m = "U" then "U'" else if m = "U'" then "U"
  else if m = "L" then "L'" else if m = "L'" then "L"
  else if m = "B" then "B'" else if m = "B'" then "B"
  else if m = "D" then "D'" else if m = "D'" then "D"
  else m

/-- Two strings are mutually inverse moves: one is a move of the alphabet and the other is its
inverse. -/
def MutuallyInverse (x y : String) : Prop :=
  x ∈ moveAlphabet ∧ y = inverseMove x

instance (x y : String) : Decidable (MutuallyInverse x y) :=
  inferInstanceAs (Decidable (x ∈ moveAlphabet ∧ y = inverseMove x))

/-- The symbols of double turns that occur in the algorithm tables. -/
def doubleTurns : List String := ["U2", "R2", "B2"]

/-- The text returned by `CubeSolver::solve` for a solved cube. -/
def solvedNotice : String := "Cube is already solved!"

/-- The solved sample puzzle. -/
def sampleSolved : SudokuGrid :=
  ⟨sampleSolutionRows, by decide⟩

/-- A full grid that is not valid: the solved sample puzzle with a second 3 in its first
row. -/
def invalidFullGrid : SudokuGrid :=
  sampleSolved.setValue 0 0 3

/-- A valid grid without completion: the solved sample puzzle with the cells `(0, 0)`, `(3, 1)`
and `(8, 8)` emptied and a 5 in place of the 3 at `(0, 1)`. No value is legal at `(0, 0)`, and
9 is the only candidate of `(8, 8)`. -/
def deadEndGrid : SudokuGrid :=
  (((sampleSolved.setValue 0 1 5).setValue 0 0 0).setValue 3 1 0).setValue 8 8 0

/-- Replaying a step on a grid: the step's value is written at its position; a step with a
negative position writes nothing. -/
def applyStep (g : SudokuGrid) (s : SolutionStep) : SudokuGrid :=
  if 0 ≤ s.row ∧ 0 ≤ s.col then g.setValue s.row.toNat s.col.toNat s.value else g

/-- Replaying a list of steps in order. -/
def replay (g : SudokuGrid) (steps : List SolutionStep) : SudokuGrid :=
  steps.foldl applyStep g

/-- The row, the column and the box of the cell `(r, c)`. -/
def unitsOf (r c : Nat) : List (List (Nat × Nat)) :=
  [rowCells r, colCells c, blockLoop (r / 3 * 3) (c / 3 * 3)]

/-- The step `s` is at the cell `(r, c)` of the grid, which is empty in `w`. -/
def EmptyCellOf (w : SudokuGrid) (s : SolutionStep) (r c : Nat) : Prop :=
  r < 9 ∧ c < 9 ∧ s.row = (r : Int) ∧ s.col = (c : Int) ∧ w.getValue r c = 0

/-- In the grid `w` the cell of the step `s` is empty and the step's value is its only
candidate. -/
def NakedSingleAt (w : SudokuGrid) (s : SolutionStep) : Prop :=
  ∃ r c, EmptyCellOf w s r c ∧ w.getValidValues r c = [s.value]

/-- In the grid `w` the cell of the step `s` is empty and it is the only empty cell of its
row, of its column or of its box in which the step's value is legal. -/
def HiddenSingleAt (w : SudokuGrid) (s : SolutionStep) : Prop :=
  ∃ r c, EmptyCellOf w s r c ∧ ∃ u ∈ unitsOf r c, (r, c) ∈ u ∧
    ∀ p ∈ u, (w.getValue p.1 p.2 = 0 ∧ w.isValidValue p.1 p.2 s.value = true) ↔ p = (r, c)

/-- In the grid `w` the cell of the step `s` is the first empty cell in row-major order and
the step's value is its first candidate. -/
def GuessAt (w : SudokuGrid) (s : SolutionStep) : Prop :=
  ∃ r c, EmptyCellOf w s r c ∧ findNextEmptyCell w 0 0 = some (r, c) ∧
    (getCandidates w r c).head? = some s.value

/-- The step `s` is justified in the grid `w` by the technique it names. -/
def StepOk (w : SudokuGrid) (s : SolutionStep) : Prop :=
  (s.technique = "naked_single" ∧ NakedSingleAt w s) ∨
  (s.technique = "hidden_single" ∧ HiddenSingleAt w s) ∨
  (s.technique = "backtrack_guess" ∧ GuessAt w s) ∨
  (s = solvedStep ∧ w.isSolved = true)

/-- Every step of the list is justified in the grid obtained by replaying the steps before
it. -/
def TraceOk : SudokuGrid → List SolutionStep → Prop
  | _, [] => True
  | w, s :: rest => StepOk w s ∧ TraceOk (applyStep w s) rest

/-- The state `(progress, grid, steps)` of a technique run that started on the grid `w0` with
the steps `steps0`: the steps recorded since then are justified, the grid is their replay, and
progress is reported exactly when a step was recorded. -/
def Run (w0 : SudokuGrid) (steps0 : List SolutionStep)
    (acc : Bool × SudokuGrid × List SolutionStep) : Prop :=
  ∃ new, acc.2.2 = steps0 ++ new ∧ acc.2.1 = replay w0 new ∧ TraceOk w0 new ∧
    (acc.1 = true ↔ new ≠ [])

/-- Every cell of the list `u` has `u` as its row, its column or its box. -/
def UnitOfCells (u : List (Nat × Nat)) : Prop :=
  ∀ p ∈ u, u ∈ unitsOf p.1 p.2

instance (u : List (Nat × Nat)) : Decidable (UnitOfCells u) :=
  inferInstanceAs (Decidable (∀ p ∈ u, u ∈ unitsOf p.1 p.2))

/-- The class invariant of `SudokuGrid` on the vector of vectors: 9 rows of 9 cells, each an
integer in `0 .. 9`. -/
def RawGrid.InRange (g : RawGrid) : Prop :=
  g.m_grid.length = 9 ∧ ∀ row ∈ g.m_grid, row.length = 9 ∧ ∀ v ∈ row, 0 ≤ v ∧ v ≤ 9

instance (g : RawGrid) : Decidable g.InRange :=
  inferInstanceAs (Decidable (g.m_grid.length = 9 ∧
    ∀ row ∈ g.m_grid, row.length = 9 ∧ ∀ v ∈ row, 0 ≤ v ∧ v ≤ 9))

/-- The vector of vectors of `int` behind a grid. -/
def SudokuGrid.toRaw (g : SudokuGrid) : RawGrid :=
  ⟨g.m_grid.map fun row => row.map Int.ofNat⟩

/-- The names from which `detectPattern` draws for the layers other than `"top"`. -/
def patternNames : List String :=
  ["T", "Y", "A", "U", "H", "Z"]

/-- A random source whose every draw is `n`. -/
def constRng (n : Nat) : Rng :=
  ⟨fun _ => n, 0⟩

/-- A valid grid with a completion on which the first guess of `solveWithSteps` is wrong: the
solved sample puzzle with eleven cells emptied. No empty cell is a naked or hidden single; the
first empty cell `(0, 3)` has the candidates 1 and 6, and the solved sample puzzle, which is a
completion, has 6 there. -/
def trapGrid : SudokuGrid :=
  ⟨[[5, 3, 4, 0, 0, 8, 9, 0, 2],
    [6, 7, 2, 0, 9, 5, 3, 0, 8],
    [1, 9, 8, 3, 0, 2, 5, 0, 7],
    [8, 5, 9, 0, 0, 1, 4, 2, 3],
    [4, 2, 6, 8, 5, 3, 7, 9, 1],
    [7, 1, 3, 9, 2, 4, 8, 5, 6],
    [9, 6, 1, 5, 3, 7, 2, 8, 4],
    [2, 8, 7, 0, 0, 9, 6, 3, 5],
    [3, 4, 5, 2, 8, 6, 1, 7, 9]], by decide⟩

/-! ## Auxiliary definitions: edge count, row-major reading -/

/-- The four edge positions of a face, in the order in which `detectPattern` reads them. -/
def edgePositions : List (Fin 3 × Fin 3) :=
  [(0, 1), (1, 0), (1, 2), (2, 1)]

/-- The number of edge stickers of the Up face that equal the Up centre. -/
def upEdgeMatches (state : CubeState) : Nat :=
  (edgePositions.filter fun p => state.get .Up p.1 p.2 == state.get .Up 1 1).length

/-- The 81 cells of a grid read in row-major order. -/
def rowMajor (g : SudokuGrid) : List Nat :=
  allCells.map fun p => g.cell p.1 p.2

/-- The row-major reading of `g` is lexicographically at most that of `h`. -/
def LexLe (g h : SudokuGrid) : Prop :=
  rowMajor g = rowMajor h ∨ List.Lex (fun a b => a < b) (rowMajor g) (rowMajor h)

/-- The fallback sequence of `orientLastLayer`. -/
def ollFallback : List String :=
  ["R", "U", "R'", "U", "R", "U2", "R'", "F", "R", "U", "R'", "U'", "F'"]

/-- The string made of a no-break space U+00A0, the letter `r` and an em space U+2003. -/
def paddedR : String :=
  ⟨[Char.ofNat 0xA0, 'r', Char.ofNat 0x2003]⟩

/-! ## Theorems: CubeState -/

theorem CubeState.get_set (s : CubeState) (f : CubeFace) (r c : Fin 3) (v : CubeColor)
    (f' : CubeFace) (r' c' : Fin 3) :
    (s.set f r c v).get f' r' c' = if f' = f ∧ r' = r ∧ c' = c then v else s.get f' r' c' := by
  unfold CubeState.set CubeState.get
  by_cases hf : f' = f
  · by_cases hrc : r' = r ∧ c' = c
    · simp [FaceGrid.set, hf, hrc]
    · simp [FaceGrid.set, hf, hrc]
  · simp [hf]

theorem CubeState.ext_get {s t : CubeState} (h : ∀ f r c, s.get f r c = t.get f r c) : s = t := by
  ext f r c
  exact h f r c

theorem rotateF_source (s : CubeState) (p : StickerPos) :
    (rotateF s).at p = s.at (sourceOf rotateF p) := by
  obtain ⟨f, r, c⟩ := p
  cases f <;> fin_cases r <;> fin_cases c <;> rfl

theorem rotateR_source (s : CubeState) (p : StickerPos) :
    (rotateR s).at p = s.at (sourceOf rotateR p) := by
  obtain ⟨f, r, c⟩ := p
  cases f <;> fin_cases r <;> fin_cases c <;> rfl

theorem rotateU_source (s : CubeState) (p : StickerPos) :
    (rotateU s).at p = s.at (sourceOf rotateU p) := by
  obtain ⟨f, r, c⟩ := p
  cases f <;> fin_cases r <;> fin_cases c <;> rfl

theorem rotateL_source (s : CubeState) (p : StickerPos) :
    (rotateL s).at p = s.at (sourceOf rotateL p) := by
  obtain ⟨f, r, c⟩ := p
  cases f <;> fin_cases r <;> fin_cases c <;> rfl

theorem rotateB_source (s : CubeState) (p : StickerPos) :
    (rotateB s).at p = s.at (sourceOf rotateB p) := by
  obtain ⟨f, r, c⟩ := p
  cases f <;> fin_cases r <;> fin_cases c <;> rfl

theorem rotateD_source (s : CubeState) (p : StickerPos) :
    (rotateD s).at p = s.at (sourceOf rotateD p) := by
  obtain ⟨f, r, c⟩ := p
  cases f <;> fin_cases r <;> fin_cases c <;> rfl

/-- A transformer that only moves stickers around, along a permutation of the positions,
permutes the sticker list. -/
theorem stickers_perm_of_source (T : CubeState → CubeState)
    (hsrc : ∀ s p, (T s).at p = s.at (sourceOf T p))
    (hperm : (stickerOrder.map (sourceOf T)).Perm stickerOrder) (s : CubeState) :
    (stickers (T s)).Perm (stickers s) := by
  have h1 : stickers (T s) = (stickerOrder.map (sourceOf T)).map s.at := by
    simp only [stickers, List.map_map]
    apply List.map_congr_left
    intro p _
    exact hsrc s p
  rw [h1]
  exact hperm.map _

theorem stickers_rotateF (s : CubeState) : (stickers (rotateF s)).Perm (stickers s) :=
  stickers_perm_of_source rotateF rotateF_source (by decide!) s

theorem stickers_rotateR (s : CubeState) : (stickers (rotateR s)).Perm (stickers s) :=
  stickers_perm_of_source rotateR rotateR_source (by decide!) s

theorem stickers_rotateU (s : CubeState) : (stickers (rotateU s)).Perm (stickers s) :=
  stickers_perm_of_source rotateU rotateU_source (by decide!) s

theorem stickers_rotateL (s : CubeState) : (stickers (rotateL s)).Perm (stickers s) :=
  stickers_perm_of_source rotateL rotateL_source (by decide!) s

theorem stickers_rotateB (s : CubeState) : (stickers (rotateB s)).Perm (stickers s) :=
  stickers_perm_of_source rotateB rotateB_source (by decide!) s

theorem stickers_rotateD (s : CubeState) : (stickers (rotateD s)).Perm (stickers s) :=
  stickers_perm_of_source rotateD rotateD_source (by decide!) s

/-- Three applications of a sticker-permuting transformer permute the stickers. -/
theorem stickers_for3 (T : CubeState → CubeState)
    (h : ∀ s, (stickers (T s)).Perm (stickers s)) (s : CubeState) :
    (stickers (for3 (fun _ s => T s) s)).Perm (stickers s) :=
  ((h _).trans (h _)).trans (h s)

/-- Case analysis on `applyMove`: a property of all twelve turns of `s` and of `s` itself
holds of `applyMove s move`, whatever the string. -/
theorem applyMove_cases (P : CubeState → Prop) (s : CubeState) (move : String)
    (hF : P (rotateF s)) (hF' : P (rotateFPrime s)) (hR : P (rotateR s)) (hR' : P (rotateRPrime s))
    (hU : P (rotateU s)) (hU' : P (rotateUPrime s)) (hL : P (rotateL s)) (hL' : P (rotateLPrime s))
    (hB : P (rotateB s)) (hB' : P (rotateBPrime s)) (hD : P (rotateD s)) (hD' : P (rotateDPrime s))
    (hid : P s) : P (applyMove s move) := by
  unfold applyMove
  generalize toUpper (trimmed move) = cleanMove
  show P (if cleanMove = "F" then _ else _)
  by_cases h1 : cleanMove = "F"
  · rw [if_pos h1]; exact hF
  rw [if_neg h1]
  by_cases h2 : cleanMove = "F'"
  · rw [if_pos h2]; exact hF'
  rw [if_neg h2]
  by_cases h3 : cleanMove = "R"
  · rw [if_pos h3]; exact hR
  rw [if_neg h3]
  by_cases h4 : cleanMove = "R'"
  · rw [if_pos h4]; exact hR'
  rw [if_neg h4]
  by_cases h5 : cleanMove = "U"
  · rw [if_pos h5]; exact hU
  rw [if_neg h5]
  by_cases h6 : cleanMove = "U'"
  · rw [if_pos h6]; exact hU'
  rw [if_neg h6]
  by_cases h7 : cleanMove = "L"
  · rw [if_pos h7]; exact hL
  rw [if_neg h7]
  by_cases h8 : cleanMove = "L'"
  · rw [if_pos h8]; exact hL'
  rw [if_neg h8]
  by_cases h9 : cleanMove = "B"
  · rw [if_pos h9]; exact hB
  rw [if_neg h9]
  by_cases h10 : cleanMove = "B'"
  · rw [if_pos h10]; exact hB'
  rw [if_neg h10]
  by_cases h11 : cleanMove = "D"
  · rw [if_pos h11]; exact hD
  rw [if_neg h11]
  by_cases h12 : cleanMove = "D'"
  · rw [if_pos h12]; exact hD'
  rw [if_neg h12]
  exact hid

/-- Whatever the string, `applyMove` permutes the 54 stickers. -/
theorem stickers_applyMove (s : CubeState) (move : String) :
    (stickers (applyMove s move)).Perm (stickers s) :=
  applyMove_cases (fun t => (stickers t).Perm (stickers s)) s move
    (stickers_rotateF s) (stickers_for3 rotateF stickers_rotateF s)
    (stickers_rotateR s) (stickers_for3 rotateR stickers_rotateR s)
    (stickers_rotateU s) (stickers_for3 rotateU stickers_rotateU s)
    (stickers_rotateL s) (stickers_for3 rotateL stickers_rotateL s)
    (stickers_rotateB s) (stickers_for3 rotateB stickers_rotateB s)
    (stickers_rotateD s) (stickers_for3 rotateD stickers_rotateD s)
    (List.Perm.refl _)

/-- Whatever the strings, a sequence of `applyMove` calls permutes the 54 stickers. -/
theorem stickers_applyMoves (moves : List String) (s : CubeState) :
    (stickers (applyMoves s moves)).Perm (stickers s) := by
  induction moves generalizing s with
  | nil => exact List.Perm.refl _
  | cons m rest ih =>
    show (stickers (applyMoves (applyMove s m) rest)).Perm (stickers s)
    exact (ih (applyMove s m)).trans (stickers_applyMove s m)

theorem countColors_eq (l : List CubeColor) (m : ColorCount) :
    countColors l m = if CubeColor.Unknown ∈ l then none
      else some (fun k => if l.count k = 0 then m k else some ((m k).getD 0 + l.count k)) := by
  induction l generalizing m with
  | nil => simp [countColors]
  | cons c rest ih =>
    unfold countColors
    by_cases hc : c = CubeColor.Unknown
    · simp [hc]
    · rw [if_neg hc, ih]
      have hc' : ¬ CubeColor.Unknown = c := fun h => hc h.symm
      by_cases hr : CubeColor.Unknown ∈ rest
      · simp [hr]
      · simp only [hr, List.mem_cons, hc', or_self, if_false, Option.some.injEq]
        funext k
        by_cases hk : k = c
        · subst hk
          simp [qmapIncr, List.count_cons_self]
          split_ifs <;> simp_all
          omega
        · have hk' : ¬ c = k := fun h => hk h.symm
          simp [qmapIncr, List.count_cons, hk, hk']

theorem qmapCheck_iff (cnt : CubeColor → Nat) (h0 : cnt .Unknown = 0) :
    (if (qmapValues (fun k => if cnt k = 0 then none else some (0 + cnt k))).any (fun v => v != 9)
      then false
      else (qmapValues (fun k => if cnt k = 0 then none else some (0 + cnt k))).length == 6) = true
      ↔ ∀ c, c ≠ CubeColor.Unknown → cnt c = 9 := by
  constructor
  · intro h c hc
    simp only [qmapValues, allColors, List.filterMap_cons, List.filterMap_nil, h0] at h
    by_cases hW : cnt .White = 0 <;> by_cases hR : cnt .Red = 0 <;> by_cases hB : cnt .Blue = 0 <;>
    by_cases hO : cnt .Orange = 0 <;> by_cases hG : cnt .Green = 0 <;>
    by_cases hY : cnt .Yellow = 0 <;> simp [hW, hR, hB, hO, hG, hY] at h
    cases c <;> simp_all
  · intro h
    have hW := h .White (by decide)
    have hR := h .Red (by decide)
    have hB := h .Blue (by decide)
    have hO := h .Orange (by decide)
    have hG := h .Green (by decide)
    have hY := h .Yellow (by decide)
    simp [qmapValues, allColors, List.filterMap_cons, h0, hW, hR, hB, hO, hG, hY]

/-- `validateCube` holds exactly when no sticker is `Unknown` and each of the six colours
appears nine times. -/
theorem validateCube_iff (s : CubeState) :
    validateCube s = true ↔
      CubeColor.Unknown ∉ stickers s ∧
        ∀ c, c ≠ CubeColor.Unknown → (stickers s).count c = 9 := by
  unfold validateCube
  rw [countColors_eq]
  by_cases hU : CubeColor.Unknown ∈ stickers s
  · simp [hU]
  · simp only [hU, if_false, not_false_eq_true, true_and, Option.getD_none]
    exact qmapCheck_iff (fun k => (stickers s).count k) (List.count_eq_zero.2 hU)

theorem mem_stickerOrder (p : StickerPos) : p ∈ stickerOrder := by
  obtain ⟨f, r, c⟩ := p
  cases f <;> fin_cases r <;> fin_cases c <;> decide

theorem CubeState.ext_at {s t : CubeState} (h : ∀ p ∈ stickerOrder, s.at p = t.at p) : s = t := by
  ext f r c
  exact h (f, r, c) (mem_stickerOrder _)

theorem mem_stickers (s : CubeState) (f : CubeFace) (r c : Fin 3) : s.get f r c ∈ stickers s :=
  List.mem_map.2 ⟨(f, r, c), mem_stickerOrder _, rfl⟩

theorem CubeState.at_set (s : CubeState) (q : StickerPos) (v : CubeColor) (p : StickerPos) :
    (s.set q.1 q.2.1 q.2.2 v).at p = if p = q then v else s.at p := by
  obtain ⟨f, r, c⟩ := q
  obtain ⟨f', r', c'⟩ := p
  simp only [CubeState.at, CubeState.get_set, Prod.mk.injEq]

theorem qNumber_ordinal (c : CubeColor) :
    qNumber c.ordinal = ⟨[Char.ofNat (48 + c.ordinal)]⟩ := by
  cases c <;> rfl

theorem digitValue_ordinal (c : CubeColor) :
    digitValue (Char.ofNat (48 + c.ordinal)) = (c.ordinal : Int) := by
  cases c <;> rfl

theorem ofOrdinal_ordinal (c : CubeColor) : CubeColor.ofOrdinal c.ordinal = c := by
  cases c <;> rfl

theorem ordinal_le (c : CubeColor) : c.ordinal ≤ 6 := by
  cases c <;> decide

theorem foldl_append_data {α : Type} (f : α → String) (l : List α) (init : String) :
    (l.foldl (fun result p => result ++ f p) init).data
      = init.data ++ l.flatMap (fun p => (f p).data) := by
  induction l generalizing init with
  | nil => simp
  | cons a rest ih => simp [ih, String.data_append, List.append_assoc]

theorem CubeState.toString_data (s : CubeState) :
    s.toString.data = stickerOrder.map (fun p => Char.ofNat (48 + (s.at p).ordinal)) := by
  unfold CubeState.toString
  rw [foldl_append_data]
  simp only [qNumber_ordinal]
  generalize stickerOrder = l
  induction l with
  | nil => rfl
  | cons a rest ih =>
    simp only [List.flatMap_cons, List.map_cons] at ih ⊢
    rw [← ih]
    rfl

theorem getD_append_length {α : Type} (l1 l2 : List α) (a d : α) :
    (l1 ++ a :: l2).getD l1.length d = a := by
  induction l1 with
  | nil => rfl
  | cons b rest ih => simpa using ih

/-- The loop of `fromString` run on the text written by `toString s`: once every position
has been visited the state agrees with `s` everywhere. -/
theorem fromString_loop (s : CubeState) (state : String)
    (hstate : state.data = stickerOrder.map (fun p => Char.ofNat (48 + (s.at p).ordinal)))
    (rest done : List StickerPos) (acc : CubeState × Nat)
    (horder : done ++ rest = stickerOrder) (hidx : acc.2 = done.length)
    (hdone : ∀ p ∈ done, acc.1.at p = s.at p) :
    ∀ p ∈ stickerOrder, (rest.foldl (fromStringStep state) acc).1.at p = s.at p := by
  induction rest generalizing done acc with
  | nil =>
    intro p hp
    rw [← horder, List.append_nil] at hp
    exact hdone p hp
  | cons q rest ih =>
    have hchar : state.data.getD acc.2 ' ' = Char.ofNat (48 + (s.at q).ordinal) := by
      rw [hstate, ← horder, hidx, List.map_append, List.map_cons]
      have h := getD_append_length (done.map fun p => Char.ofNat (48 + (s.at p).ordinal))
        (rest.map fun p => Char.ofNat (48 + (s.at p).ordinal))
        (Char.ofNat (48 + (s.at q).ordinal)) ' '
      rwa [List.length_map] at h
    have hstep : fromStringStep state acc q
        = (acc.1.set q.1 q.2.1 q.2.2 (s.at q), acc.2 + 1) := by
      unfold fromStringStep
      simp only [hchar, digitValue_ordinal]
      have h6 := ordinal_le (s.at q)
      have hcond : (0 : Int) ≤ ((s.at q).ordinal : Int) ∧ ((s.at q).ordinal : Int) ≤ 6 := by
        constructor <;> omega
      rw [if_pos hcond, Int.toNat_ofNat, ofOrdinal_ordinal]
    rw [List.foldl_cons, hstep]
    apply ih (done ++ [q])
    · simp [← horder]
    · simp [hidx]
    · intro p hp
      rw [CubeState.at_set]
      by_cases hpq : p = q
      · simp [hpq]
      · rw [if_neg hpq]
        rcases List.mem_append.1 hp with h | h
        · exact hdone p h
        · exact absurd (List.mem_singleton.1 h) hpq

/-! ## Claims about CubeState -/

/-- Four clockwise turns of the Front, Right, Up, Left or Down face restore every sticker. -/
theorem rotate_four_times_except_B (s : CubeState) :
    rotateF (rotateF (rotateF (rotateF s))) = s ∧
    rotateR (rotateR (rotateR (rotateR s))) = s ∧
    rotateU (rotateU (rotateU (rotateU s))) = s ∧
    rotateL (rotateL (rotateL (rotateL s))) = s ∧
    rotateD (rotateD (rotateD (rotateD s))) = s := by
  refine ⟨?_, ?_, ?_, ?_, ?_⟩ <;>
  · ext f r c
    cases f <;> fin_cases r <;> fin_cases c <;> rfl

/-- C1, evaluated at the failing input: on the solved cube turned by `R`, four `applyMove "B"`
calls do not restore the state. The sticker Up(0,0) is White before and Green after, and the
sticker Down(2,0) is Yellow before and Blue after. -/
theorem rotateB_four_times_differs :
    getColor afterR .Up 0 0 = .White ∧
    getColor (applyMoves afterR ["B", "B", "B", "B"]) .Up 0 0 = .Green ∧
    getColor afterR .Down 2 0 = .Yellow ∧
    getColor (applyMoves afterR ["B", "B", "B", "B"]) .Down 2 0 = .Blue := by
  decide

/-- C2, evaluated at the failing input: on the solved cube turned by `R`, the move `B` followed
by the move `B'` (three more `B` turns) does not restore the state: the sticker Up(0,0) is
White before and Green after. -/
theorem rotateB_then_BPrime_differs :
    getColor afterR .Up 0 0 = .White ∧
    getColor (applyMove (applyMove afterR "B") "B'") .Up 0 0 = .Green := by
  decide

/-- C3: from a valid cube, any finite sequence of moves of the twelve-move alphabet leads to
a valid cube: `isValid` holds, no sticker is `Unknown` and each of the six colours appears
exactly nine times. -/
theorem applyMoves_preserves_valid (s : CubeState) (moves : List String)
    (hvalid : s.isValid = true) (_hmoves : ∀ m ∈ moves, m ∈ moveAlphabet) :
    (applyMoves s moves).isValid = true ∧
    (∀ face row col, getColor (applyMoves s moves) face row col ≠ CubeColor.Unknown) ∧
    (∀ c, c ≠ CubeColor.Unknown → (stickers (applyMoves s moves)).count c = 9) := by
  have hperm := stickers_applyMoves moves s
  obtain ⟨hU, hcount⟩ := (validateCube_iff s).1 hvalid
  have hU' : CubeColor.Unknown ∉ stickers (applyMoves s moves) := fun h => hU (hperm.mem_iff.1 h)
  have hcount' : ∀ c, c ≠ CubeColor.Unknown → (stickers (applyMoves s moves)).count c = 9 :=
    fun c hc => (hperm.count_eq c).trans (hcount c hc)
  refine ⟨(validateCube_iff _).2 ⟨hU', hcount'⟩, ?_, hcount'⟩
  intro face row col h
  apply hU'
  rw [← h]
  exact mem_stickers _ face row col

/-- Witness of C3: the solved cube and the moves `R`, `U'`, `B`. -/
theorem applyMoves_preserves_valid_witness :
    (initializeSolvedState.isValid = true ∧ ∀ m ∈ ["R", "U'", "B"], m ∈ moveAlphabet) ∧
    ((applyMoves initializeSolvedState ["R", "U'", "B"]).isValid = true ∧
    (∀ face row col,
      getColor (applyMoves initializeSolvedState ["R", "U'", "B"]) face row col
        ≠ CubeColor.Unknown) ∧
    (∀ c, c ≠ CubeColor.Unknown →
      (stickers (applyMoves initializeSolvedState ["R", "U'", "B"])).count c = 9)) :=
  ⟨⟨by decide, by decide⟩,
    applyMoves_preserves_valid initializeSolvedState ["R", "U'", "B"] (by decide) (by decide)⟩

/-- C9: `toString` writes exactly 54 characters, the digit of each sticker's colour ordinal in
the order face (Front, Back, Left, Right, Up, Down) / row / column, and `fromString` called on
any cube state `t` with that text yields `s`, sticker for sticker. This holds for every state
`s`, valid or not. -/
theorem cube_fromString_toString (s t : CubeState) :
    s.toString.length = 54 ∧
    s.toString.data = (stickers s).map (fun c => Char.ofNat (48 + c.ordinal)) ∧
    t.fromString s.toString = s := by
  have hdata := CubeState.toString_data s
  have hlen : s.toString.length = 54 := by
    show s.toString.data.length = 54
    rw [hdata, List.length_map]
    rfl
  refine ⟨hlen, ?_, ?_⟩
  · rw [hdata]
    simp only [stickers, List.map_map]
    rfl
  · unfold CubeState.fromString
    rw [if_neg (by rw [hlen]; exact fun h => h rfl)]
    apply CubeState.ext_at
    exact fromString_loop s s.toString hdata stickerOrder [] (t, 0) rfl rfl (by simp)

/-! ## Claims about CubeSolver.solve -/

/-- On the solved cube turned by `U` the first five phases contribute no move, so the result
of `solve` is the optimised output of `permuteLastLayer`, which only depends on the first
draw modulo six. -/
theorem solve_afterU (rng : Rng) :
    (CubeSolver.solve afterU rng).1
      = (CubeSolver.solve afterU ⟨fun _ => rng.draws rng.pos % 6, 0⟩).1 := by
  have hv : afterU.isValid = true := by decide
  have hs : afterU.isSolved = false := by decide
  have hcopy : afterU.copy = afterU := rfl
  have h1 : solveCross afterU = [] := by decide
  have h2 : solveFirstLayerCorners afterU = [] := by decide
  have h3 : solveMiddleLayer afterU = [] := by decide
  have h4 : isTopCrossSolved afterU = true := by decide
  have h5 : isLastLayerOriented afterU = true := by decide
  have h0 : applyMoves afterU [] = afterU := rfl
  have hpll : ¬ ("pll" = "top") := by decide
  simp only [CubeSolver.solve, beginnerMethodSolve, hv, hs, hcopy, h1, h2, h3, h0, solveTopCross,
    orientLastLayer, h4, h5, permuteLastLayer, detectPattern, qrand, hpll, Nat.mod_mod,
    List.length_cons, List.length_nil, Bool.not_true, Bool.not_false, if_true, if_false,
    Bool.false_eq_true, List.nil_append, List.append_nil, Nat.zero_add, Nat.reduceAdd]
  split_ifs <;> rfl

/-- The claim C4 fails: the solved cube turned by `U` is valid and not solved, and whatever
`qrand()` returns, the moves returned by `solve` do not lead to a solved cube. -/
theorem solve_does_not_solve_afterU :
    afterU.isValid = true ∧ afterU.isSolved = false ∧
    ∀ rng : Rng, (applyMoves afterU (CubeSolver.solve afterU rng).1).isSolved = false := by
  refine ⟨by decide, by decide, ?_⟩
  intro rng
  rw [solve_afterU]
  have hr : rng.draws rng.pos % 6 < 6 := Nat.mod_lt _ (by decide)
  generalize rng.draws rng.pos % 6 = r at hr
  interval_cases r <;> decide!

/-- C4 as amended: for a valid cube that is not solved, applying the move list returned by
`solve` leads to a valid cube (no `Unknown` sticker, each colour nine times), whatever
`qrand()` returns. -/
theorem solve_moves_keep_valid (s : CubeState) (rng : Rng)
    (hvalid : s.isValid = true) (_hunsolved : s.isSolved = false) :
    (applyMoves s (CubeSolver.solve s rng).1).isValid = true ∧
    CubeColor.Unknown ∉ stickers (applyMoves s (CubeSolver.solve s rng).1) ∧
    ∀ c, c ≠ CubeColor.Unknown →
      (stickers (applyMoves s (CubeSolver.solve s rng).1)).count c = 9 := by
  have hperm := stickers_applyMoves (CubeSolver.solve s rng).1 s
  obtain ⟨hU, hcount⟩ := (validateCube_iff s).1 hvalid
  have hres : CubeColor.Unknown ∉ stickers (applyMoves s (CubeSolver.solve s rng).1) ∧
      ∀ c, c ≠ CubeColor.Unknown →
        (stickers (applyMoves s (CubeSolver.solve s rng).1)).count c = 9 :=
    ⟨fun h => hU (hperm.mem_iff.1 h), fun c hc => (hperm.count_eq c).trans (hcount c hc)⟩
  exact ⟨(validateCube_iff _).2 hres, hres⟩

/-- Witness of the amended C4: the solved cube turned by `U`, every draw being `0`. -/
theorem solve_moves_keep_valid_witness :
    (afterU.isValid = true ∧ afterU.isSolved = false) ∧
    ((applyMoves afterU (CubeSolver.solve afterU zeroRng).1).isValid = true ∧
    CubeColor.Unknown ∉ stickers (applyMoves afterU (CubeSolver.solve afterU zeroRng).1) ∧
    ∀ c, c ≠ CubeColor.Unknown →
      (stickers (applyMoves afterU (CubeSolver.solve afterU zeroRng).1)).count c = 9) :=
  ⟨⟨by decide, by decide⟩, solve_moves_keep_valid afterU zeroRng (by decide) (by decide)⟩

/-! ## Theorems: move cancellation -/

theorem cancels_iff (x y : String) : cancels x y = true ↔ MutuallyInverse x y := by
  unfold MutuallyInverse
  constructor
  · unfold cancels
    simp only [Bool.or_eq_true, Bool.and_eq_true, beq_iff_eq]
    rintro (((((((((((⟨rfl, rfl⟩ | ⟨rfl, rfl⟩) | ⟨rfl, rfl⟩) | ⟨rfl, rfl⟩) | ⟨rfl, rfl⟩) |
      ⟨rfl, rfl⟩) | ⟨rfl, rfl⟩) | ⟨rfl, rfl⟩) | ⟨rfl, rfl⟩) | ⟨rfl, rfl⟩) | ⟨rfl, rfl⟩) |
      ⟨rfl, rfl⟩) <;> decide
  · rintro ⟨hx, rfl⟩
    simp only [moveAlphabet, List.mem_cons, List.mem_singleton, List.not_mem_nil, or_false] at hx
    rcases hx with rfl | rfl | rfl | rfl | rfl | rfl | rfl | rfl | rfl | rfl | rfl | rfl <;> decide

theorem inverseMove_mem {m : String} (h : m ∈ moveAlphabet) : inverseMove m ∈ moveAlphabet := by
  simp only [moveAlphabet, List.mem_cons, List.mem_singleton, List.not_mem_nil, or_false] at h
  rcases h with rfl | rfl | rfl | rfl | rfl | rfl | rfl | rfl | rfl | rfl | rfl | rfl <;> decide

theorem inverseMove_inverseMove {m : String} (h : m ∈ moveAlphabet) :
    inverseMove (inverseMove m) = m := by
  simp only [moveAlphabet, List.mem_cons, List.mem_singleton, List.not_mem_nil, or_false] at h
  rcases h with rfl | rfl | rfl | rfl | rfl | rfl | rfl | rfl | rfl | rfl | rfl | rfl <;> decide

theorem mutuallyInverse_symm {x y : String} (h : MutuallyInverse x y) : MutuallyInverse y x := by
  obtain ⟨hx, rfl⟩ := h
  exact ⟨inverseMove_mem hx, (inverseMove_inverseMove hx).symm⟩

/-- The stack of `cancelMoves` (last element first) never holds two adjacent mutually inverse
moves. -/
theorem cancelStep_chain (stack : List String) (move : String)
    (h : stack.Chain' fun top next => cancels top next = false) :
    (cancelStep stack move).Chain' fun top next => cancels top next = false := by
  cases stack with
  | nil => exact List.chain'_singleton _
  | cons t rest =>
    show List.Chain' _ (if cancels move t = true then rest else move :: t :: rest)
    by_cases hc : cancels move t = true
    · rw [if_pos hc]
      exact h.tail
    · rw [if_neg hc]
      exact List.Chain'.cons (by simpa using hc) h

theorem foldl_cancelStep_chain (moves stack : List String)
    (h : stack.Chain' fun top next => cancels top next = false) :
    (moves.foldl cancelStep stack).Chain' fun top next => cancels top next = false := by
  induction moves generalizing stack with
  | nil => exact h
  | cons m rest ih => exact ih _ (cancelStep_chain stack m h)

/-- Pushing a move and then its inverse leaves the stack of `cancelMoves` as it was. -/
theorem cancelStep_inverse (stack : List String) (m : String) (hm : m ∈ moveAlphabet)
    (h : stack.Chain' fun top next => cancels top next = false) :
    cancelStep (cancelStep stack m) (inverseMove m) = stack := by
  have hinv : cancels (inverseMove m) m = true := (cancels_iff _ _).2 (mutuallyInverse_symm ⟨hm, rfl⟩)
  cases stack with
  | nil => simp [cancelStep, hinv]
  | cons t rest =>
    by_cases hc : cancels m t = true
    · have ht : t = inverseMove m := ((cancels_iff _ _).1 hc).2
      subst ht
      have h1 : cancelStep (inverseMove m :: rest) m = rest := by simp [cancelStep, hc]
      rw [h1]
      cases rest with
      | nil => rfl
      | cons x rest' =>
        have hx : cancels (inverseMove m) x = false := (List.chain'_cons.1 h).1
        simp [cancelStep, hx]
    · have h1 : cancelStep (t :: rest) m = m :: t :: rest := by simp [cancelStep, hc]
      rw [h1]
      simp [cancelStep, hinv]

/-- C11: inserting a move of the twelve-move alphabet followed by its inverse anywhere in a
list does not change the result of `optimizeMoves`; in particular `["R", "R'"]` is optimised
to `[]` and `["R", "R'", "U"]` to `["U"]`. -/
theorem optimizeMoves_insert_inverse_pair (a b : List String) (m : String)
    (hm : m ∈ moveAlphabet) :
    optimizeMoves (a ++ [m, inverseMove m] ++ b) = optimizeMoves (a ++ b) ∧
    optimizeMoves ["R", "R'"] = [] ∧ optimizeMoves ["R", "R'", "U"] = ["U"] := by
  refine ⟨?_, by decide, by decide⟩
  have hcancel : cancelMoves (a ++ [m, inverseMove m] ++ b) = cancelMoves (a ++ b) := by
    unfold cancelMoves
    rw [List.foldl_append, List.foldl_append, List.foldl_append, List.foldl_cons,
      List.foldl_cons, List.foldl_nil,
      cancelStep_inverse _ m hm (foldl_cancelStep_chain a [] List.chain'_nil)]
  have hne : (a ++ [m, inverseMove m] ++ b).isEmpty = false := by
    cases a <;> rfl
  unfold optimizeMoves
  rw [hne, hcancel]
  cases hab : (a ++ b).isEmpty with
  | false => rfl
  | true =>
    have : a ++ b = [] := List.isEmpty_iff.1 hab
    rw [this]
    rfl

/-- Witness of C11: the move `R` inserted with its inverse between `["U"]` and `["F"]`. -/
theorem optimizeMoves_insert_inverse_pair_witness :
    "R" ∈ moveAlphabet ∧
    (optimizeMoves (["U"] ++ ["R", inverseMove "R"] ++ ["F"]) = optimizeMoves (["U"] ++ ["F"]) ∧
    optimizeMoves ["R", "R'"] = [] ∧ optimizeMoves ["R", "R'", "U"] = ["U"]) :=
  ⟨by decide, optimizeMoves_insert_inverse_pair ["U"] ["F"] "R" (by decide)⟩

/-- Without adjacent mutually inverse moves every move is pushed on the stack. -/
theorem foldl_cancelStep_of_chain (moves stack : List String)
    (h : (stack.reverse ++ moves).Chain' fun x y => ¬ MutuallyInverse x y) :
    moves.foldl cancelStep stack = moves.reverse ++ stack := by
  induction moves generalizing stack with
  | nil => rfl
  | cons m rest ih =>
    have hstep : cancelStep stack m = m :: stack := by
      cases stack with
      | nil => rfl
      | cons t init =>
        have hpair : ¬ MutuallyInverse t m := by
          have h' : ((init.reverse ++ [t]) ++ (m :: rest)).Chain'
              fun x y => ¬ MutuallyInverse x y := by simpa using h
          have h2 := (List.chain'_append.1 h').2.2 t (by simp) m (by simp)
          exact h2
        have hc : ¬ cancels m t = true := fun hc => hpair (mutuallyInverse_symm ((cancels_iff _ _).1 hc))
        simp [cancelStep, hc]
    rw [List.foldl_cons, hstep, ih (m :: stack) (by simpa using h)]
    simp

/-- C12: a move list in which no two adjacent elements are mutually inverse is returned
unchanged by `optimizeMoves`; for example `["R", "U", "R'", "U'"]`. -/
theorem optimizeMoves_of_no_adjacent_inverse (moves : List String)
    (h : moves.Chain' fun x y => ¬ MutuallyInverse x y ∧ ¬ MutuallyInverse y x) :
    optimizeMoves moves = moves ∧
    optimizeMoves ["R", "U", "R'", "U'"] = ["R", "U", "R'", "U'"] := by
  refine ⟨?_, by decide⟩
  unfold optimizeMoves
  split_ifs
  · rfl
  · unfold cancelMoves
    rw [foldl_cancelStep_of_chain moves [] (by simpa using h.imp fun _ _ hxy => hxy.1)]
    simp

/-- Witness of C12: the list `["R", "U", "R'", "U'"]`. -/
theorem optimizeMoves_of_no_adjacent_inverse_witness :
    (["R", "U", "R'", "U'"].Chain' fun x y => ¬ MutuallyInverse x y ∧ ¬ MutuallyInverse y x) ∧
    (optimizeMoves ["R", "U", "R'", "U'"] = ["R", "U", "R'", "U'"] ∧
    optimizeMoves ["R", "U", "R'", "U'"] = ["R", "U", "R'", "U'"]) :=
  ⟨by simp only [List.chain'_cons, List.chain'_singleton, and_true]; decide,
    optimizeMoves_of_no_adjacent_inverse ["R", "U", "R'", "U'"]
      (by simp only [List.chain'_cons, List.chain'_singleton, and_true]; decide)⟩

/-! ## Theorems: the symbols returned by `CubeSolver.solve` -/

theorem lookup_getD_subset (P : String → Prop) (table : List (String × List String))
    (h : ∀ kv ∈ table, ∀ m ∈ kv.2, P m) (key : String) :
    ∀ m ∈ (table.lookup key).getD [], P m := by
  induction table with
  | nil => intro m hm; simp at hm
  | cons kv rest ih =>
    obtain ⟨k, v⟩ := kv
    rw [List.lookup_cons]
    cases hk : key == k with
    | true => exact h (k, v) (List.mem_cons_self _ _)
    | false => exact ih fun kv hkv => h kv (List.mem_cons_of_mem _ hkv)

theorem algorithmsAt_symbols (key : String) :
    ∀ m ∈ algorithmsAt key, m ∈ moveAlphabet ++ doubleTurns :=
  lookup_getD_subset _ m_algorithms (by decide) key

theorem solveCross_symbols (state : CubeState) :
    ∀ m ∈ solveCross state, m ∈ moveAlphabet ++ doubleTurns := by
  unfold solveCross
  split_ifs
  · decide
  · decide

theorem solveFirstLayerCorners_symbols (state : CubeState) :
    ∀ m ∈ solveFirstLayerCorners state, m ∈ moveAlphabet ++ doubleTurns := by
  unfold solveFirstLayerCorners
  split_ifs
  · decide
  · decide

theorem solveMiddleLayer_symbols (state : CubeState) :
    ∀ m ∈ solveMiddleLayer state, m ∈ moveAlphabet ++ doubleTurns := by
  unfold solveMiddleLayer
  split_ifs
  · decide
  · decide

theorem solveTopCross_symbols (state : CubeState) (rng : Rng) :
    ∀ m ∈ (solveTopCross state rng).1, m ∈ moveAlphabet ++ doubleTurns := by
  unfold solveTopCross
  dsimp only
  split_ifs
  all_goals dsimp only
  all_goals first | exact algorithmsAt_symbols _ | decide

theorem orientLastLayer_symbols (state : CubeState) (rng : Rng) :
    ∀ m ∈ (orientLastLayer state rng).1, m ∈ moveAlphabet ++ doubleTurns := by
  unfold orientLastLayer
  dsimp only
  split_ifs
  all_goals dsimp only
  all_goals first | exact algorithmsAt_symbols _ | decide

theorem permuteLastLayer_symbols (state : CubeState) (rng : Rng) :
    ∀ m ∈ (permuteLastLayer state rng).1, m ∈ moveAlphabet ++ doubleTurns := by
  unfold permuteLastLayer
  dsimp only
  split_ifs
  all_goals dsimp only
  all_goals first | exact algorithmsAt_symbols _ | decide

theorem beginnerMethodSolve_symbols (state : CubeState) (rng : Rng) :
    ∀ m ∈ (beginnerMethodSolve state rng).1, m ∈ moveAlphabet ++ doubleTurns := by
  intro m hm
  unfold beginnerMethodSolve at hm
  simp only [List.nil_append, List.mem_append] at hm
  rcases hm with ((((h | h) | h) | h) | h) | h
  · exact solveCross_symbols _ m h
  · exact solveFirstLayerCorners_symbols _ m h
  · exact solveMiddleLayer_symbols _ m h
  · exact solveTopCross_symbols _ _ m h
  · exact orientLastLayer_symbols _ _ m h
  · exact permuteLastLayer_symbols _ _ m h

theorem cancelStep_subset (stack : List String) (move m : String)
    (h : m ∈ cancelStep stack move) : m = move ∨ m ∈ stack := by
  cases stack with
  | nil => left; simpa [cancelStep] using h
  | cons t rest =>
    have h' : m ∈ (if cancels move t = true then rest else move :: t :: rest) := h
    split_ifs at h'
    · right; exact List.mem_cons_of_mem _ h'
    · simpa using h'

theorem foldl_cancelStep_subset (moves stack : List String) (m : String)
    (h : m ∈ moves.foldl cancelStep stack) : m ∈ moves ∨ m ∈ stack := by
  induction moves generalizing stack with
  | nil => right; exact h
  | cons x rest ih =>
    rcases ih _ h with h1 | h1
    · left; exact List.mem_cons_of_mem _ h1
    · rcases cancelStep_subset _ _ _ h1 with h2 | h2
      · left; rw [h2]; exact List.mem_cons_self _ _
      · right; exact h2

theorem optimizeMoves_subset (moves : List String) (m : String)
    (h : m ∈ optimizeMoves moves) : m ∈ moves := by
  unfold optimizeMoves at h
  split_ifs at h
  · exact h
  · unfold cancelMoves at h
    rcases foldl_cancelStep_subset _ _ _ (List.mem_reverse.1 h) with h1 | h1
    · exact h1
    · simp at h1

/-- A string whose cleaned form is none of the twelve symbols is ignored by `applyMove`. -/
theorem applyMove_of_not_mem (s : CubeState) (move : String)
    (h : toUpper (trimmed move) ∉ moveAlphabet) : applyMove s move = s := by
  unfold applyMove
  generalize toUpper (trimmed move) = cleanMove at h
  simp only [moveAlphabet, List.mem_cons, List.mem_singleton, List.not_mem_nil, or_false,
    not_or] at h
  obtain ⟨h1, h2, h3, h4, h5, h6, h7, h8, h9, h10, h11, h12⟩ := h
  show (if cleanMove = "F" then _ else _) = s
  rw [if_neg h1, if_neg h2, if_neg h3, if_neg h4, if_neg h5, if_neg h6, if_neg h7, if_neg h8,
    if_neg h9, if_neg h10, if_neg h11, if_neg h12]

/-- Counterexample to C13: for the solved cube `solve` returns the text
`"Cube is already solved!"`, and for the solved cube turned by `U` the result contains the
double turn `"R2"`; neither is one of the twelve move symbols. -/
theorem solve_returns_other_symbols :
    (CubeSolver.solve initializeSolvedState zeroRng).1 = ["Cube is already solved!"] ∧
    "Cube is already solved!" ∉ moveAlphabet ∧
    "R2" ∈ (CubeSolver.solve afterU zeroRng).1 ∧ "R2" ∉ moveAlphabet := by
  decide

/-- C13 (amended): every element of the list returned by `CubeSolver.solve` is one of the
twelve move symbols or one of the double turns `U2`, `R2`, `B2`, or, when the cube is valid and
already solved, the text `"Cube is already solved!"`. -/
theorem solve_symbols (cubeState : CubeState) (rng : Rng) (m : String)
    (h : m ∈ (CubeSolver.solve cubeState rng).1) :
    m ∈ moveAlphabet ++ doubleTurns ∨
    (cubeState.isValid = true ∧ cubeState.isSolved = true ∧ m = solvedNotice) := by
  unfold CubeSolver.solve at h
  cases hv : cubeState.isValid with
  | false => simp [hv] at h
  | true =>
    cases hs : cubeState.isSolved with
    | true =>
      right
      simp only [hv, hs, Bool.not_true, Bool.false_eq_true, if_false, if_true,
        List.mem_singleton] at h
      exact ⟨rfl, rfl, h⟩
    | false =>
      left
      simp only [hv, hs, Bool.not_true, Bool.false_eq_true, if_false] at h
      split_ifs at h
      · exact beginnerMethodSolve_symbols _ _ m (optimizeMoves_subset _ m h)
      · simp at h

/-- Witness of C13 (amended): the double turn `R2` in the result for the solved cube turned
by `U`. -/
theorem solve_symbols_witness :
    "R2" ∈ (CubeSolver.solve afterU zeroRng).1 ∧
    ("R2" ∈ moveAlphabet ++ doubleTurns ∨
      (afterU.isValid = true ∧ afterU.isSolved = true ∧ "R2" = solvedNotice)) :=
  ⟨by decide, solve_symbols afterU zeroRng "R2" (by decide)⟩

/-- C14: for a valid cube that is already solved, `CubeSolver.solve` returns the one-element
list `["Cube is already solved!"]`; it contains no move of the twelve-move alphabet, and
applying it element by element with `applyMove` leaves the cube unchanged and solved. -/
theorem solve_of_solved (cubeState : CubeState) (rng : Rng)
    (hv : cubeState.isValid = true) (hs : cubeState.isSolved = true) :
    (CubeSolver.solve cubeState rng).1 = [solvedNotice] ∧
    (∀ m ∈ (CubeSolver.solve cubeState rng).1, m ∉ moveAlphabet) ∧
    applyMoves cubeState (CubeSolver.solve cubeState rng).1 = cubeState ∧
    (applyMoves cubeState (CubeSolver.solve cubeState rng).1).isSolved = true := by
  have hsolve : (CubeSolver.solve cubeState rng).1 = [solvedNotice] := by
    unfold CubeSolver.solve
    simp only [hv, hs, Bool.not_true, Bool.false_eq_true, if_false, if_true]
    rfl
  have happly : applyMoves cubeState [solvedNotice] = cubeState :=
    applyMove_of_not_mem cubeState solvedNotice (by decide)
  rw [hsolve, happly]
  exact ⟨rfl, by decide, rfl, hs⟩

/-- Witness of C14: the solved cube. -/
theorem solve_of_solved_witness :
    initializeSolvedState.isValid = true ∧ initializeSolvedState.isSolved = true ∧
    ((CubeSolver.solve initializeSolvedState zeroRng).1 = [solvedNotice] ∧
    (∀ m ∈ (CubeSolver.solve initializeSolvedState zeroRng).1, m ∉ moveAlphabet) ∧
    applyMoves initializeSolvedState (CubeSolver.solve initializeSolvedState zeroRng).1
      = initializeSolvedState ∧
    (applyMoves initializeSolvedState
      (CubeSolver.solve initializeSolvedState zeroRng).1).isSolved = true) :=
  ⟨by decide, by decide, solve_of_solved initializeSolvedState zeroRng (by decide) (by decide)⟩

/-- C15: for a cube that is not valid, `CubeSolver.solve` returns the empty list; a cube is
not valid exactly when some sticker is `Unknown` or some colour does not appear exactly nine
times. -/
theorem solve_of_invalid (cubeState : CubeState) (rng : Rng)
    (h : cubeState.isValid = false) :
    (CubeSolver.solve cubeState rng).1 = [] ∧
    (cubeState.isValid = false ↔
      (CubeColor.Unknown ∈ stickers cubeState ∨
        ∃ c, c ≠ CubeColor.Unknown ∧ (stickers cubeState).count c ≠ 9)) := by
  constructor
  · unfold CubeSolver.solve
    simp [h]
  · have hiff := validateCube_iff cubeState
    unfold CubeState.isValid
    rw [← Bool.not_eq_true, hiff]
    constructor
    · intro hn
      by_cases hU : CubeColor.Unknown ∈ stickers cubeState
      · exact Or.inl hU
      · right
        by_contra hex
        exact hn ⟨hU, fun c hc => by_contra fun hcount => hex ⟨c, hc, hcount⟩⟩
    · rintro (hU | ⟨c, hc, hcount⟩) ⟨h1, h2⟩
      · exact h1 hU
      · exact hcount (h2 c hc)

/-- Witness of C15: the solved cube with one sticker replaced by `Unknown`. -/
theorem solve_of_invalid_witness :
    (initializeSolvedState.set .Front 0 0 .Unknown).isValid = false ∧
    ((CubeSolver.solve (initializeSolvedState.set .Front 0 0 .Unknown) zeroRng).1 = [] ∧
    ((initializeSolvedState.set .Front 0 0 .Unknown).isValid = false ↔
      (CubeColor.Unknown ∈ stickers (initializeSolvedState.set .Front 0 0 .Unknown) ∨
        ∃ c, c ≠ CubeColor.Unknown ∧
          (stickers (initializeSolvedState.set .Front 0 0 .Unknown)).count c ≠ 9))) :=
  ⟨by decide, solve_of_invalid (initializeSolvedState.set .Front 0 0 .Unknown) zeroRng
    (by decide)⟩

/-! ## Theorems: SudokuGrid cells -/

theorem SudokuGrid.row_length (g : SudokuGrid) (r : Nat) (hr : r < 9) :
    (g.m_grid.getD r []).length = 9 := by
  obtain ⟨hlen, hrows⟩ := g.inv
  have hmem : g.m_grid.getD r [] ∈ g.m_grid := by
    rw [List.getD_eq_getElem _ _ (by omega)]
    exact List.getElem_mem _
  exact (hrows _ hmem).1

theorem SudokuGrid.cell_le (g : SudokuGrid) (r c : Nat) : g.cell r c ≤ 9 := by
  obtain ⟨hlen, hrows⟩ := g.inv
  unfold SudokuGrid.cell
  by_cases hr : r < g.m_grid.length
  · have hmem : g.m_grid.getD r [] ∈ g.m_grid := by
      rw [List.getD_eq_getElem _ _ hr]
      exact List.getElem_mem _
    by_cases hc : c < (g.m_grid.getD r []).length
    · rw [List.getD_eq_getElem _ _ hc]
      exact (hrows _ hmem).2 _ (List.getElem_mem _)
    · rw [List.getD_eq_default _ _ (Nat.le_of_not_lt hc)]
      omega
  · rw [List.getD_eq_default _ _ (Nat.le_of_not_lt hr)]
    simp

theorem SudokuGrid.ext_cell {g h : SudokuGrid}
    (H : ∀ r c, r < 9 → c < 9 → g.cell r c = h.cell r c) : g = h := by
  have hg := g.inv.1
  have hh := h.inv.1
  have key : g.m_grid = h.m_grid := by
    apply List.ext_getElem (by rw [hg, hh])
    intro r h1 h2
    have hr : r < 9 := by omega
    have e1 : g.m_grid[r] = g.m_grid.getD r [] := (List.getD_eq_getElem _ _ h1).symm
    have e2 : h.m_grid[r] = h.m_grid.getD r [] := (List.getD_eq_getElem _ _ h2).symm
    rw [e1, e2]
    have l1 := g.row_length r hr
    have l2 := h.row_length r hr
    apply List.ext_getElem (by rw [l1, l2])
    intro c h3 h4
    have hc : c < 9 := by omega
    have := H r c hr hc
    unfold SudokuGrid.cell at this
    rwa [List.getD_eq_getElem _ _ h3, List.getD_eq_getElem _ _ h4] at this
  cases g
  cases h
  simp only at key
  subst key
  rfl

theorem getD_set_self {α : Type} (l : List α) (i : Nat) (a d : α) (h : i < l.length) :
    (l.set i a).getD i d = a := by
  rw [List.getD_eq_getElem _ _ (by rw [List.length_set]; exact h), List.getElem_set_self]

theorem getD_set_ne {α : Type} (l : List α) (i j : Nat) (a d : α) (h : i ≠ j) :
    (l.set i a).getD j d = l.getD j d := by
  simp only [List.getD_eq_getElem?_getD]
  rw [List.getElem?_set_ne h]

/-- Reading a cell after `setValue` with in-range arguments. -/
theorem SudokuGrid.cell_setValue (g : SudokuGrid) (r c v : Nat) (hr : r < 9) (hc : c < 9)
    (hv : v ≤ 9) (r' c' : Nat) :
    (g.setValue r c v).cell r' c' = if r' = r ∧ c' = c then v else g.cell r' c' := by
  have hlen := g.inv.1
  have hrow := g.row_length r hr
  unfold SudokuGrid.setValue
  rw [dif_pos ⟨hr, hc, hv⟩]
  unfold SudokuGrid.assign SudokuGrid.cell
  simp only
  by_cases h1 : r' = r
  · subst h1
    rw [getD_set_self _ _ _ _ (by omega)]
    by_cases h2 : c' = c
    · subst h2
      rw [getD_set_self _ _ _ _ (by omega)]
      simp
    · rw [getD_set_ne _ _ _ _ _ (fun h => h2 h.symm)]
      simp [h2]
  · rw [getD_set_ne _ _ _ _ _ (fun h => h1 h.symm)]
    simp [h1]

/-- `setValue` with an out-of-range argument changes nothing. -/
theorem SudokuGrid.setValue_out_of_range (g : SudokuGrid) (r c v : Nat)
    (h : ¬ (r < 9 ∧ c < 9 ∧ v ≤ 9)) : g.setValue r c v = g := by
  unfold SudokuGrid.setValue
  rw [dif_neg h]

theorem SudokuGrid.getValue_eq_cell (g : SudokuGrid) (r c : Nat) : g.getValue r c = g.cell r c := by
  unfold SudokuGrid.getValue isValidPosition GRID_SIZE
  by_cases hr : r < 9
  · by_cases hc : c < 9
    · simp [hr, hc]
    · have : g.cell r c = 0 := by
        unfold SudokuGrid.cell
        rw [List.getD_eq_default _ _ (by rw [g.row_length r hr]; omega)]
      simp [hr, hc, this]
  · have : g.cell r c = 0 := by
      unfold SudokuGrid.cell
      rw [List.getD_eq_default g.m_grid [] (by rw [g.inv.1]; omega)]
      rfl
    simp [hr, this]

theorem mem_allCells (p : Nat × Nat) : p ∈ allCells ↔ p.1 < 9 ∧ p.2 < 9 := by
  obtain ⟨r, c⟩ := p
  simp [allCells]

theorem allCells_nodup : allCells.Nodup := by decide

theorem allCells_length : allCells.length = 81 := by
  simp only [allCells, List.length_flatMap, List.length_map, List.length_range]
  rfl

/-! ## Theorems: SudokuGrid text form -/

theorem qNumber_digit (n : Nat) (h : n ≤ 9) : qNumber n = ⟨[Char.ofNat (48 + n)]⟩ := by
  interval_cases n <;> rfl

theorem digitValue_digit (n : Nat) (h : n ≤ 9) : digitValue (Char.ofNat (48 + n)) = (n : Int) := by
  interval_cases n <;> rfl

theorem SudokuGrid.gridText_data (g : SudokuGrid) :
    g.toString.data = allCells.map (fun p => Char.ofNat (48 + g.cell p.1 p.2)) := by
  unfold SudokuGrid.toString
  rw [foldl_append_data]
  simp only [qNumber_digit _ (g.cell_le _ _)]
  generalize allCells = l
  induction l with
  | nil => rfl
  | cons a rest ih =>
    simp only [List.flatMap_cons, List.map_cons] at ih ⊢
    rw [← ih]
    rfl

/-- The loop of `SudokuGrid::fromString` run on the text written by `toString g`: once every
cell has been visited the grid agrees with `g` everywhere. -/
theorem gridFromString_loop (g : SudokuGrid) (text : String)
    (htext : text.data = allCells.map (fun p => Char.ofNat (48 + g.cell p.1 p.2)))
    (rest done : List (Nat × Nat)) (acc : SudokuGrid × Nat)
    (horder : done ++ rest = allCells) (hidx : acc.2 = done.length)
    (hdone : ∀ p ∈ done, acc.1.cell p.1 p.2 = g.cell p.1 p.2) :
    ∀ p ∈ allCells, (rest.foldl (gridFromStringStep text) acc).1.cell p.1 p.2 = g.cell p.1 p.2 := by
  induction rest generalizing done acc with
  | nil =>
    intro p hp
    rw [← horder, List.append_nil] at hp
    exact hdone p hp
  | cons q rest ih =>
    have hq : q ∈ allCells := by
      rw [← horder]
      exact List.mem_append_right _ (List.mem_cons_self _ _)
    obtain ⟨hq1, hq2⟩ := (mem_allCells q).1 hq
    have hchar : text.data.getD acc.2 ' ' = Char.ofNat (48 + g.cell q.1 q.2) := by
      rw [htext, ← horder, hidx, List.map_append, List.map_cons]
      have h := getD_append_length (done.map fun p => Char.ofNat (48 + g.cell p.1 p.2))
        (rest.map fun p => Char.ofNat (48 + g.cell p.1 p.2))
        (Char.ofNat (48 + g.cell q.1 q.2)) ' '
      rwa [List.length_map] at h
    have h9 := g.cell_le q.1 q.2
    have hstep : gridFromStringStep text acc q
        = (acc.1.setValue q.1 q.2 (g.cell q.1 q.2), acc.2 + 1) := by
      unfold gridFromStringStep
      simp only [hchar, digitValue_digit _ h9]
      have hcond : (0 : Int) ≤ (g.cell q.1 q.2 : Int) ∧ (g.cell q.1 q.2 : Int) ≤ 9 := by
        constructor <;> omega
      rw [if_pos hcond, Int.toNat_ofNat]
    rw [List.foldl_cons, hstep]
    apply ih (done ++ [q])
    · simp [← horder]
    · simp [hidx]
    · intro p hp
      rw [SudokuGrid.cell_setValue _ _ _ _ hq1 hq2 h9]
      by_cases hpq : p = q
      · simp [hpq]
      · have hne : ¬ (p.1 = q.1 ∧ p.2 = q.2) := fun h => hpq (Prod.ext h.1 h.2)
        rw [if_neg hne]
        rcases List.mem_append.1 hp with h | h
        · exact hdone p h
        · exact absurd (List.mem_singleton.1 h) hpq

/-- C10: `toString` writes exactly 81 characters, the digit of each cell in row-major order
(`0` for an empty cell), and `fromString` called on any grid `t` with that text yields a grid
equal to `g`. This holds for every grid `g`, valid or not. -/
theorem grid_fromString_toString (g t : SudokuGrid) :
    g.toString.length = 81 ∧
    g.toString.data = allCells.map (fun p => Char.ofNat (48 + g.cell p.1 p.2)) ∧
    (∀ p ∈ allCells, g.cell p.1 p.2 ≤ 9) ∧
    t.fromString g.toString = g := by
  have hdata := SudokuGrid.gridText_data g
  have hlen : g.toString.length = 81 := by
    rw [← String.length_data, hdata, List.length_map]
    exact allCells_length
  refine ⟨hlen, hdata, fun p _ => g.cell_le _ _, ?_⟩
  unfold SudokuGrid.fromString
  rw [if_neg (by rw [hlen]; exact fun h => h rfl)]
  apply SudokuGrid.ext_cell
  intro r c hr hc
  exact gridFromString_loop g g.toString hdata allCells [] (t, 0) rfl rfl (by simp) (r, c)
    ((mem_allCells (r, c)).2 ⟨hr, hc⟩)

/-! ## Theorems: validity of a grid -/

theorem noRepeat_iff (vals seen : List Nat) :
    noRepeat vals seen = true ↔
      vals.Pairwise (fun a b => a ≠ 0 → a ≠ b) ∧ ∀ v ∈ vals, v ≠ 0 → v ∉ seen := by
  induction vals generalizing seen with
  | nil => simp [noRepeat]
  | cons v rest ih =>
    unfold noRepeat
    by_cases hv : v = 0
    · subst hv
      simp [ih]
    · have hv' : (v != 0) = true := by simpa using hv
      rw [if_pos hv']
      by_cases hs : v ∈ seen
      · have : seen.contains v = true := by simpa using hs
        rw [if_pos this]
        simp only [Bool.false_eq_true, false_iff, not_and]
        intro _ h
        exact h v (List.mem_cons_self _ _) hv hs
      · have : ¬ (seen.contains v = true) := by simpa using hs
        rw [if_neg this, ih]
        simp only [List.pairwise_cons, List.mem_cons, forall_eq_or_imp]
        constructor
        · rintro ⟨hp, hm⟩
          refine ⟨⟨fun w hw _ hvw => ?_, hp⟩, fun _ => hs, fun w hw hw0 hws => ?_⟩
          · subst hvw
            exact (not_or.1 (hm v hw hv)).1 rfl
          · exact (not_or.1 (hm w hw hw0)).2 hws
        · rintro ⟨⟨hvr, hp⟩, _, hm⟩
          refine ⟨hp, fun w hw hw0 => not_or.2 ⟨fun hwv => ?_, hm w hw hw0⟩⟩
          exact hvr w hw hv hwv.symm

/-- The `seen` loop over the values of a list of different positions accepts exactly when no
two different positions hold the same non-zero value. -/
theorem noRepeat_map_iff {α : Type} (ps : List α) (hnd : ps.Nodup) (f : α → Nat) :
    noRepeat (ps.map f) [] = true ↔
      ∀ p ∈ ps, ∀ q ∈ ps, p ≠ q → f p ≠ 0 → f p ≠ f q := by
  rw [noRepeat_iff, List.pairwise_map]
  simp only [List.not_mem_nil, not_false_eq_true, implies_true, and_true]
  constructor
  · intro hp
    have hsym : Symmetric (fun p q => (f p ≠ 0 → f p ≠ f q) ∧ (f q ≠ 0 → f q ≠ f p)) :=
      fun _ _ h => ⟨h.2, h.1⟩
    have hp' : ps.Pairwise (fun p q => (f p ≠ 0 → f p ≠ f q) ∧ (f q ≠ 0 → f q ≠ f p)) :=
      hp.imp (fun {p q} h => ⟨h, fun hq hqp => h (hqp ▸ hq) hqp.symm⟩)
    intro p hpm q hqm hne
    exact (hp'.forall hsym hpm hqm hne).1
  · intro h
    exact hnd.pairwise_of_forall_ne h

theorem mem_blockLoop (sr sc : Nat) (p : Nat × Nat) :
    p ∈ blockLoop sr sc ↔ (sr ≤ p.1 ∧ p.1 < sr + 3) ∧ (sc ≤ p.2 ∧ p.2 < sc + 3) := by
  obtain ⟨r, c⟩ := p
  simp only [blockLoop, List.mem_flatMap, List.mem_map, List.mem_range'_1, Prod.mk.injEq]
  constructor
  · rintro ⟨a, ha, b, hb, rfl, rfl⟩
    exact ⟨ha, hb⟩
  · rintro ⟨ha, hb⟩
    exact ⟨r, ha, c, hb, rfl, rfl⟩

theorem blockLoop_nodup (sr sc : Nat) : (blockLoop sr sc).Nodup := by
  unfold blockLoop
  rw [List.nodup_flatMap]
  constructor
  · intro r _
    exact (List.nodup_range' _ _).map (fun a b h => (Prod.mk.inj h).2)
  · apply (List.nodup_range' sr 3).pairwise_of_forall_ne
    intro a _ b _ hab
    simp only [Function.onFun, List.disjoint_left, List.mem_map, not_exists, not_and]
    rintro p ⟨x, _, rfl⟩ y _ h
    exact hab (Prod.mk.inj h).1.symm

theorem SudokuGrid.isRowValid_iff (g : SudokuGrid) (r : Nat) :
    g.isRowValid r = true ↔
      r < 9 ∧ ∀ c, c < 9 → ∀ c', c' < 9 → c ≠ c' → g.cell r c ≠ 0 → g.cell r c ≠ g.cell r c' := by
  unfold SudokuGrid.isRowValid GRID_SIZE
  by_cases hr : r < 9
  · rw [if_neg (by omega), noRepeat_map_iff _ (List.nodup_range 9)]
    simp only [List.mem_range, hr, true_and]
  · rw [if_pos (by omega)]
    simp [hr]

theorem SudokuGrid.isColumnValid_iff (g : SudokuGrid) (c : Nat) :
    g.isColumnValid c = true ↔
      c < 9 ∧ ∀ r, r < 9 → ∀ r', r' < 9 → r ≠ r' → g.cell r c ≠ 0 → g.cell r c ≠ g.cell r' c := by
  unfold SudokuGrid.isColumnValid GRID_SIZE
  by_cases hc : c < 9
  · rw [if_neg (by omega), noRepeat_map_iff _ (List.nodup_range 9)]
    simp only [List.mem_range, hc, true_and]
  · rw [if_pos (by omega)]
    simp [hc]

theorem SudokuGrid.isBlockValid_iff (g : SudokuGrid) (br bc : Nat) :
    g.isBlockValid br bc = true ↔
      br < 3 ∧ bc < 3 ∧ ∀ p ∈ blockLoop (br * 3) (bc * 3), ∀ q ∈ blockLoop (br * 3) (bc * 3),
        p ≠ q → g.cell p.1 p.2 ≠ 0 → g.cell p.1 p.2 ≠ g.cell q.1 q.2 := by
  unfold SudokuGrid.isBlockValid BLOCK_SIZE
  by_cases h : br < 3 ∧ bc < 3
  · have h' : ¬ ((decide (br ≥ 3) || decide (bc ≥ 3)) = true) := by
      simp only [Bool.or_eq_true, decide_eq_true_eq]
      omega
    rw [if_neg h']
    simp only
    rw [noRepeat_map_iff _ (blockLoop_nodup _ _)]
    simp only [h.1, h.2, true_and]
  · have h' : (decide (br ≥ 3) || decide (bc ≥ 3)) = true := by
      simp only [Bool.or_eq_true, decide_eq_true_eq]
      omega
    rw [if_pos h']
    simp only [Bool.false_eq_true, false_iff]
    intro hh
    exact h ⟨hh.1, hh.2.1⟩

/-- `isValid` holds exactly when no row, column or box repeats a non-zero value. -/
theorem SudokuGrid.isValid_iff (g : SudokuGrid) : g.isValid = true ↔ NoClash g := by
  unfold SudokuGrid.isValid
  simp only [Bool.and_eq_true, List.all_eq_true, List.mem_range, SudokuGrid.isRowValid_iff,
    SudokuGrid.isColumnValid_iff, SudokuGrid.isBlockValid_iff]
  constructor
  · rintro ⟨hrc, hb⟩ r c r' c' hr hc hr' hc' ⟨hne, hp⟩ h0
    rcases hp with h | h | ⟨h1, h2⟩
    · subst h
      have hcc : c ≠ c' := by
        rcases hne with h | h
        · exact absurd rfl h
        · exact h
      exact (hrc r hr).1.2 c hc c' hc' hcc h0
    · subst h
      have hrr : r ≠ r' := by
        rcases hne with h | h
        · exact h
        · exact absurd rfl h
      exact (hrc c hc).2.2 r hr r' hr' hrr h0
    · have hbr : r / 3 < 3 := by omega
      have hbc : c / 3 < 3 := by omega
      have hmem : (r, c) ∈ blockLoop (r / 3 * 3) (c / 3 * 3) := by
        rw [mem_blockLoop]
        simp only
        omega
      have hmem' : (r', c') ∈ blockLoop (r / 3 * 3) (c / 3 * 3) := by
        rw [mem_blockLoop]
        simp only
        omega
      have hpq : (r, c) ≠ (r', c') := by
        intro h
        rcases hne with h' | h'
        · exact h' (Prod.mk.inj h).1
        · exact h' (Prod.mk.inj h).2
      exact (hb (r / 3) hbr (c / 3) hbc).2.2 (r, c) hmem (r', c') hmem' hpq h0
  · intro hn
    refine ⟨fun i hi => ⟨⟨hi, fun c hc c' hc' hcc h0 => ?_⟩, ⟨hi, fun r hr r' hr' hrr h0 => ?_⟩⟩,
      fun br hbr bc hbc => ⟨hbr, hbc, fun p hp q hq hpq h0 => ?_⟩⟩
    · exact hn i c i c' hi hc hi hc' ⟨Or.inr hcc, Or.inl rfl⟩ h0
    · exact hn r i r' i hr hi hr' hi ⟨Or.inl hrr, Or.inr (Or.inl rfl)⟩ h0
    · rw [mem_blockLoop] at hp hq
      have hne : p.1 ≠ q.1 ∨ p.2 ≠ q.2 := by
        by_contra hcon
        rw [not_or, not_not, not_not] at hcon
        exact hpq (Prod.ext hcon.1 hcon.2)
      exact hn p.1 p.2 q.1 q.2 (by omega) (by omega) (by omega) (by omega)
        ⟨hne, Or.inr (Or.inr ⟨by omega, by omega⟩)⟩ h0

theorem SudokuGrid.isSolved_iff (g : SudokuGrid) :
    g.isSolved = true ↔ NoClash g ∧ ∀ r c, r < 9 → c < 9 → g.cell r c ≠ 0 := by
  unfold SudokuGrid.isSolved
  by_cases hv : g.isValid = true
  · have hn := (g.isValid_iff).1 hv
    simp only [hv, Bool.not_true, Bool.false_eq_true, if_false, List.all_eq_true,
      Bool.not_eq_true', beq_eq_false_iff_ne, ne_eq, hn, true_and]
    constructor
    · intro h r c hr hc
      exact h (r, c) ((mem_allCells _).2 ⟨hr, hc⟩)
    · intro h p hp
      exact h p.1 p.2 ((mem_allCells p).1 hp).1 ((mem_allCells p).1 hp).2
  · have hn : ¬ NoClash g := fun h => hv ((g.isValid_iff).2 h)
    simp [hv, hn]

theorem Peer.symm {r c r' c' : Nat} (h : Peer r c r' c') : Peer r' c' r c := by
  obtain ⟨h1, h2⟩ := h
  refine ⟨?_, ?_⟩
  · rcases h1 with h | h
    · exact Or.inl (Ne.symm h)
    · exact Or.inr (Ne.symm h)
  · rcases h2 with h | h | ⟨h, h'⟩
    · exact Or.inl h.symm
    · exact Or.inr (Or.inl h.symm)
    · exact Or.inr (Or.inr ⟨h.symm, h'.symm⟩)

/-- `hasConflict` holds exactly when some peer of the cell holds the value. -/
theorem SudokuGrid.hasConflict_iff (g : SudokuGrid) (r c v : Nat) (hr : r < 9) (hc : c < 9) :
    g.hasConflict r c v = true ↔
      ∃ r' c', r' < 9 ∧ c' < 9 ∧ Peer r c r' c' ∧ g.cell r' c' = v := by
  unfold SudokuGrid.hasConflict SudokuGrid.hasRowConflict SudokuGrid.hasColumnConflict
    SudokuGrid.hasBlockConflict BLOCK_SIZE
  simp only [Bool.or_eq_true, List.any_eq_true, List.mem_range, Bool.and_eq_true, bne_iff_ne,
    ne_eq, beq_iff_eq, mem_blockLoop]
  constructor
  · rintro ((⟨c', hc', hne, hv⟩ | ⟨r', hr', hne, hv⟩) | ⟨p, hp, hne, hv⟩)
    · exact ⟨r, c', hr, hc', ⟨Or.inr (Ne.symm hne), Or.inl rfl⟩, hv⟩
    · exact ⟨r', c, hr', hc, ⟨Or.inl (Ne.symm hne), Or.inr (Or.inl rfl)⟩, hv⟩
    · refine ⟨p.1, p.2, by omega, by omega, ⟨?_, Or.inr (Or.inr ⟨by omega, by omega⟩)⟩, hv⟩
      rcases hne with h | h
      · exact Or.inl (Ne.symm h)
      · exact Or.inr (Ne.symm h)
  · rintro ⟨r', c', hr', hc', ⟨hne, hp⟩, hv⟩
    rcases hp with h | h | ⟨h1, h2⟩
    · subst h
      refine Or.inl (Or.inl ⟨c', hc', ?_, hv⟩)
      rcases hne with h | h
      · exact absurd rfl h
      · exact Ne.symm h
    · subst h
      refine Or.inl (Or.inr ⟨r', hr', ?_, hv⟩)
      rcases hne with h | h
      · exact Ne.symm h
      · exact absurd rfl h
    · refine Or.inr ⟨(r', c'), ⟨by simp only; omega, by simp only; omega⟩, ?_, hv⟩
      rcases hne with h | h
      · exact Or.inl (Ne.symm h)
      · exact Or.inr (Ne.symm h)

/-- `isValidValue` holds exactly for an in-range cell and a value `1 .. 9` that no peer of
the cell holds. -/
theorem SudokuGrid.isValidValue_iff (g : SudokuGrid) (r c v : Nat) :
    g.isValidValue r c v = true ↔
      r < 9 ∧ c < 9 ∧ 1 ≤ v ∧ v ≤ 9 ∧
        ∀ r' c', r' < 9 → c' < 9 → Peer r c r' c' → g.cell r' c' ≠ v := by
  unfold SudokuGrid.isValidValue isValidPosition GRID_SIZE
  by_cases h : r < 9 ∧ c < 9 ∧ 1 ≤ v ∧ v ≤ 9
  · obtain ⟨hr, hc, h1, h9⟩ := h
    have hcond : ¬ ((!(decide (r < 9) && decide (c < 9)) || decide (v < 1) || decide (v > 9))
        = true) := by
      simp only [Bool.or_eq_true, Bool.not_eq_true', Bool.and_eq_false_imp, decide_eq_true_eq,
        decide_eq_false_iff_not]
      omega
    rw [if_neg hcond]
    simp only [Bool.not_eq_true', hr, hc, h1, h9, true_and]
    rw [← Bool.not_eq_true, g.hasConflict_iff r c v hr hc]
    constructor
    · intro hn r' c' hr' hc' hp hv
      exact hn ⟨r', c', hr', hc', hp, hv⟩
    · rintro hn ⟨r', c', hr', hc', hp, hv⟩
      exact hn r' c' hr' hc' hp hv
  · have hcond : (!(decide (r < 9) && decide (c < 9)) || decide (v < 1) || decide (v > 9))
        = true := by
      simp only [Bool.or_eq_true, Bool.not_eq_true', Bool.and_eq_false_imp, decide_eq_true_eq,
        decide_eq_false_iff_not]
      omega
    rw [if_pos hcond]
    simp only [Bool.false_eq_true, false_iff]
    intro hh
    exact h ⟨hh.1, hh.2.1, hh.2.2.1, hh.2.2.2.1⟩

/-! ## Theorems: placing a value -/

theorem Extends.refl (g : SudokuGrid) : Extends g g :=
  fun _ _ _ _ _ => rfl

theorem Extends.trans {g h k : SudokuGrid} (h1 : Extends g h) (h2 : Extends h k) :
    Extends g k := by
  intro r c hr hc h0
  have e1 := h1 r c hr hc h0
  have e2 := h2 r c hr hc (by rw [e1]; exact h0)
  rw [e2, e1]

/-- A grid without empty cells is its only extension. -/
theorem eq_of_extends_full {g h : SudokuGrid} (hfull : ∀ r c, r < 9 → c < 9 → g.cell r c ≠ 0)
    (hext : Extends g h) : h = g :=
  SudokuGrid.ext_cell fun r c hr hc => hext r c hr hc (hfull r c hr hc)

theorem extends_setValue (g : SudokuGrid) (r c v : Nat) (h0 : g.cell r c = 0) :
    Extends g (g.setValue r c v) := by
  by_cases h : r < 9 ∧ c < 9 ∧ v ≤ 9
  · intro r' c' _ _ hne
    rw [g.cell_setValue r c v h.1 h.2.1 h.2.2]
    have : ¬ (r' = r ∧ c' = c) := by
      rintro ⟨rfl, rfl⟩
      exact hne h0
    rw [if_neg this]
  · rw [g.setValue_out_of_range r c v h]
    exact Extends.refl g

/-- Placing in an empty cell the value a completion has there keeps the completion. -/
theorem completion_setValue {g h : SudokuGrid} (hc : Completion g h) (r c : Nat)
    (hr : r < 9) (hcol : c < 9) :
    Completion (g.setValue r c (h.cell r c)) h := by
  refine ⟨hc.1, ?_⟩
  intro r' c' hr' hc' hne
  rw [g.cell_setValue r c _ hr hcol (h.cell_le r c)] at hne ⊢
  by_cases hrc : r' = r ∧ c' = c
  · rw [if_pos hrc, hrc.1, hrc.2]
  · rw [if_neg hrc] at hne ⊢
    exact hc.2 r' c' hr' hc' hne

/-- The completions of a grid with one more cell filled are the completions of the grid
that have this value in this cell. -/
theorem completion_of_setValue {g h : SudokuGrid} (r c v : Nat) (hr : r < 9) (hcol : c < 9)
    (hv0 : v ≠ 0) (hv : v ≤ 9) (h0 : g.cell r c = 0) (hc : Completion (g.setValue r c v) h) :
    Completion g h ∧ h.cell r c = v := by
  refine ⟨⟨hc.1, (extends_setValue g r c v h0).trans hc.2⟩, ?_⟩
  have := hc.2 r c hr hcol
  rw [g.cell_setValue r c v hr hcol hv, if_pos ⟨rfl, rfl⟩] at this
  exact this hv0

/-- The undo step of the backtracking: clearing the cell just filled restores the grid. -/
theorem setValue_restore (g : SudokuGrid) (r c v : Nat) (h0 : g.cell r c = 0) :
    (g.setValue r c v).setValue r c 0 = g := by
  by_cases h : r < 9 ∧ c < 9
  · apply SudokuGrid.ext_cell
    intro r' c' _ _
    rw [SudokuGrid.cell_setValue _ r c 0 h.1 h.2 (by omega)]
    by_cases hrc : r' = r ∧ c' = c
    · rw [if_pos hrc, hrc.1, hrc.2, h0]
    · rw [if_neg hrc]
      by_cases hv : v ≤ 9
      · rw [g.cell_setValue r c v h.1 h.2 hv, if_neg hrc]
      · rw [g.setValue_out_of_range r c v (fun hh => hv hh.2.2)]
  · have h1 : g.setValue r c v = g := g.setValue_out_of_range r c v (fun hh => h ⟨hh.1, hh.2.1⟩)
    rw [h1]
    exact g.setValue_out_of_range r c 0 (fun hh => h ⟨hh.1, hh.2.1⟩)

/-- Placing a legal value in an empty cell of a grid without clash gives a grid without
clash. -/
theorem noClash_setValue {g : SudokuGrid} (hn : NoClash g) (r c v : Nat)
    (hvalid : g.isValidValue r c v = true) : NoClash (g.setValue r c v) := by
  obtain ⟨hr, hc, _, h9, hfree⟩ := (g.isValidValue_iff r c v).1 hvalid
  intro a b a' b' ha hb ha' hb' hp h0
  rw [g.cell_setValue r c v hr hc h9] at h0 ⊢
  rw [g.cell_setValue r c v hr hc h9]
  by_cases h1 : a = r ∧ b = c
  · obtain ⟨rfl, rfl⟩ := h1
    have h2 : ¬ (a' = a ∧ b' = b) := by
      rintro ⟨rfl, rfl⟩
      rcases hp.1 with h | h <;> exact h rfl
    rw [if_pos ⟨rfl, rfl⟩, if_neg h2]
    exact fun h => hfree a' b' ha' hb' hp h.symm
  · rw [if_neg h1] at h0 ⊢
    by_cases h2 : a' = r ∧ b' = c
    · obtain ⟨rfl, rfl⟩ := h2
      rw [if_pos ⟨rfl, rfl⟩]
      exact hfree a b ha hb hp.symm
    · rw [if_neg h2]
      exact hn a b a' b' ha hb ha' hb' hp h0

/-- In a completion, the value of a cell that is empty in the grid is legal for the grid. -/
theorem completion_isValidValue {g h : SudokuGrid} (hc : Completion g h) (r c : Nat)
    (hr : r < 9) (hcol : c < 9) : g.isValidValue r c (h.cell r c) = true := by
  obtain ⟨hn, hfull⟩ := (h.isSolved_iff).1 hc.1
  rw [g.isValidValue_iff]
  have h0 := hfull r c hr hcol
  refine ⟨hr, hcol, by omega, h.cell_le r c, ?_⟩
  intro r' c' hr' hc' hp hv
  have hne : g.cell r' c' ≠ 0 := by rw [hv]; exact h0
  have := hc.2 r' c' hr' hc' hne
  exact hn r c r' c' hr hcol hr' hc' hp h0 (by rw [this, hv])

theorem countP_update {α : Type} (l : List α) (hnd : l.Nodup) (a : α) (ha : a ∈ l)
    (P Q : α → Bool) (hPa : P a = true) (hQa : Q a = false) (hPQ : ∀ b ∈ l, b ≠ a → Q b = P b) :
    l.countP Q + 1 = l.countP P := by
  induction l with
  | nil => cases ha
  | cons x rest ih =>
    rw [List.nodup_cons] at hnd
    by_cases hxa : x = a
    · subst hxa
      have hrest : rest.countP Q = rest.countP P := by
        apply List.countP_congr
        intro b hb
        have hbx : b ≠ x := fun h => hnd.1 (h ▸ hb)
        rw [hPQ b (List.mem_cons_of_mem _ hb) hbx]
      rw [List.countP_cons_of_neg _ _ (by simp [hQa]), List.countP_cons_of_pos _ _ hPa, hrest]
    · have ha' : a ∈ rest := by
        rcases List.mem_cons.1 ha with h | h
        · exact absurd h.symm hxa
        · exact h
      have ih' := ih hnd.2 ha' (fun b hb => hPQ b (List.mem_cons_of_mem _ hb))
      have hx := hPQ x (List.mem_cons_self _ _) hxa
      rw [List.countP_cons, List.countP_cons, hx]
      omega

/-- Filling an empty cell with a value `1 .. 9` lowers the number of empty cells by one. -/
theorem emptyCount_setValue (g : SudokuGrid) (r c v : Nat) (hr : r < 9) (hc : c < 9)
    (hv0 : v ≠ 0) (hv : v ≤ 9) (h0 : g.cell r c = 0) :
    emptyCount (g.setValue r c v) + 1 = emptyCount g := by
  unfold emptyCount
  apply countP_update allCells allCells_nodup (r, c) ((mem_allCells _).2 ⟨hr, hc⟩)
  · simp [h0]
  · rw [g.cell_setValue r c v hr hc hv]
    simp [hv0]
  · intro b _ hb
    rw [g.cell_setValue r c v hr hc hv]
    have : ¬ (b.1 = r ∧ b.2 = c) := fun h => hb (Prod.ext h.1 h.2)
    rw [if_neg this]

theorem emptyCount_le (g : SudokuGrid) : emptyCount g ≤ 81 := by
  unfold emptyCount
  exact (List.countP_le_length _).trans (le_of_eq allCells_length)

theorem emptyCount_eq_zero {g : SudokuGrid} (h : emptyCount g = 0) :
    ∀ r c, r < 9 → c < 9 → g.cell r c ≠ 0 := by
  intro r c hr hc h0
  unfold emptyCount at h
  rw [List.countP_eq_zero] at h
  exact h (r, c) ((mem_allCells _).2 ⟨hr, hc⟩) (by simp [h0])

theorem filledBefore_setValue {g : SudokuGrid} (r c v : Nat) (hr : r < 9) (hc : c < 9)
    (hv : v ≤ 9) (hf : FilledBefore g r c) : FilledBefore (g.setValue r c v) r c := by
  intro r' c' hr' hc' hlt
  rw [g.cell_setValue r c v hr hc hv]
  have : ¬ (r' = r ∧ c' = c) := by
    rintro ⟨rfl, rfl⟩
    omega
  rw [if_neg this]
  exact hf r' c' hr' hc' hlt

/-! ## Theorems: the backtracking search -/

theorem findSome?_range'_eq_some {β : Type} (f : Nat → Option β) (s n : Nat) (b : β)
    (h : (List.range' s n).findSome? f = some b) :
    ∃ i, s ≤ i ∧ i < s + n ∧ f i = some b ∧ ∀ j, s ≤ j → j < i → f j = none := by
  induction n generalizing s with
  | zero => simp at h
  | succ n ih =>
    rw [List.range'_succ, List.findSome?_cons] at h
    cases hfs : f s with
    | some b' =>
      rw [hfs] at h
      simp only [Option.some.injEq] at h
      subst h
      exact ⟨s, le_refl _, by omega, hfs, fun j h1 h2 => by omega⟩
    | none =>
      rw [hfs] at h
      obtain ⟨i, h1, h2, h3, h4⟩ := ih (s + 1) h
      refine ⟨i, by omega, by omega, h3, fun j hj1 hj2 => ?_⟩
      by_cases hjs : j = s
      · rw [hjs]; exact hfs
      · exact h4 j (by omega) hj2

/-- When `findNextEmptyCell` finds nothing, every cell from the start position on is filled. -/
theorem findNextEmptyCell_none {g : SudokuGrid} {row col : Nat}
    (h : findNextEmptyCell g row col = none) :
    ∀ r c, r < 9 → c < 9 → (row < r ∨ (r = row ∧ col ≤ c)) → g.cell r c ≠ 0 := by
  intro r c hr hc hpos
  unfold findNextEmptyCell at h
  rw [List.findSome?_eq_none_iff] at h
  have hmem : r ∈ List.range' row (9 - row) := by
    rw [List.mem_range'_1]
    omega
  have h1 := h r hmem
  simp only [Option.map_eq_none'] at h1
  rw [List.find?_range'_eq_none] at h1
  have h2 := h1 c (by split_ifs <;> omega) (by split_ifs <;> omega)
  rw [SudokuGrid.getValue_eq_cell] at h2
  simpa using h2

/-- The cell found by `findNextEmptyCell` is in range and empty, and every cell between the
start position and it is filled. -/
theorem findNextEmptyCell_some {g : SudokuGrid} {row col r c : Nat}
    (h : findNextEmptyCell g row col = some (r, c)) :
    r < 9 ∧ c < 9 ∧ g.cell r c = 0 ∧
      ∀ r' c', r' < 9 → c' < 9 → (row < r' ∨ (r' = row ∧ col ≤ c')) →
        (r' < r ∨ (r' = r ∧ c' < c)) → g.cell r' c' ≠ 0 := by
  unfold findNextEmptyCell at h
  obtain ⟨i, hi1, hi2, hfi, hbefore⟩ := findSome?_range'_eq_some _ _ _ _ h
  simp only [Option.map_eq_some', Prod.mk.injEq] at hfi
  obtain ⟨c0, hfind, hir, hcc⟩ := hfi
  subst hir hcc
  rw [List.find?_range'_eq_some] at hfind
  obtain ⟨hp, hmem, hcols⟩ := hfind
  rw [List.mem_range'_1] at hmem
  rw [SudokuGrid.getValue_eq_cell] at hp
  have hc9 : c0 < 9 := by
    have := hmem.2
    split_ifs at this <;> omega
  refine ⟨by omega, hc9, by simpa using hp, ?_⟩
  intro r' c' hr' hc' hge hlt
  rcases hlt with hlt | ⟨hrr, hltc⟩
  · -- an earlier row: the inner search found nothing there
    have hnone := hbefore r' (by omega) hlt
    simp only [Option.map_eq_none'] at hnone
    rw [List.find?_range'_eq_none] at hnone
    have h2 := hnone c' (by split_ifs <;> omega) (by split_ifs <;> omega)
    rw [SudokuGrid.getValue_eq_cell] at h2
    simpa using h2
  · subst hrr
    have h2 := hcols c' (by split_ifs <;> omega) hltc
    rw [SudokuGrid.getValue_eq_cell] at h2
    simpa using h2

theorem filledBefore_of_findNextEmptyCell {g : SudokuGrid} {row col r c : Nat}
    (hf : FilledBefore g row col) (h : findNextEmptyCell g row col = some (r, c)) :
    FilledBefore g r c := by
  obtain ⟨_, _, _, hbetween⟩ := findNextEmptyCell_some h
  intro r' c' hr' hc' hlt
  by_cases hpos : row < r' ∨ (r' = row ∧ col ≤ c')
  · exact hbetween r' c' hr' hc' hpos hlt
  · exact hf r' c' hr' hc' (by omega)

theorem full_of_findNextEmptyCell_none {g : SudokuGrid} {row col : Nat}
    (hf : FilledBefore g row col) (h : findNextEmptyCell g row col = none) :
    ∀ r c, r < 9 → c < 9 → g.cell r c ≠ 0 := by
  intro r c hr hc
  by_cases hpos : row < r ∨ (r = row ∧ col ≤ c)
  · exact findNextEmptyCell_none h r c hr hc hpos
  · exact hf r c hr hc (by omega)

/-- The loop over the values of `backtrackSolve`, given that the recursive call is correct on
the grid with each value placed. -/
theorem tryValues_spec (recurse : SudokuGrid → Option (Bool × SudokuGrid)) (g : SudokuGrid)
    (r c : Nat) (hr : r < 9) (hc : c < 9) (h0 : g.cell r c = 0)
    (hrec : ∀ v, 1 ≤ v → v ≤ 9 → SearchOk (g.setValue r c v) (recurse (g.setValue r c v)))
    (vals : List Nat) :
    ∃ b g', tryValues recurse r c vals g = some (b, g') ∧
      (b = true → g'.isSolved = true ∧ Extends g g') ∧
      (b = false → g' = g ∧ ∀ h, Completion g h → h.cell r c ∉ vals) := by
  induction vals with
  | nil =>
    exact ⟨false, g, rfl, fun h => Bool.noConfusion h, fun _ => ⟨rfl, fun _ _ => List.not_mem_nil _⟩⟩
  | cons v rest ih =>
    unfold tryValues
    by_cases hv : g.isValidValue r c v = true
    · rw [if_pos hv]
      obtain ⟨_, _, hv1, hv9, _⟩ := (g.isValidValue_iff r c v).1 hv
      obtain ⟨b, g', hres, htrue, hfalse⟩ := hrec v hv1 hv9
      rw [hres]
      cases b with
      | true =>
        obtain ⟨hs, he⟩ := htrue rfl
        exact ⟨true, g', rfl, fun _ => ⟨hs, (extends_setValue g r c v h0).trans he⟩,
          fun h => Bool.noConfusion h⟩
      | false =>
        obtain ⟨hg', hnone⟩ := hfalse rfl
        simp only
        rw [hg', setValue_restore g r c v h0]
        obtain ⟨b2, g2, hres2, htrue2, hfalse2⟩ := ih
        refine ⟨b2, g2, hres2, htrue2, fun hb => ⟨(hfalse2 hb).1, fun h hcomp hmem => ?_⟩⟩
        rcases List.mem_cons.1 hmem with heq | hmem'
        · apply hnone h
          rw [← heq]
          exact completion_setValue hcomp r c hr hc
        · exact (hfalse2 hb).2 h hcomp hmem'
    · rw [if_neg hv]
      obtain ⟨b2, g2, hres2, htrue2, hfalse2⟩ := ih
      refine ⟨b2, g2, hres2, htrue2, fun hb => ⟨(hfalse2 hb).1, fun h hcomp hmem => ?_⟩⟩
      rcases List.mem_cons.1 hmem with heq | hmem'
      · apply hv
        rw [← heq]
        exact completion_isValidValue hcomp r c hr hc
      · exact (hfalse2 hb).2 h hcomp hmem'

/-- `backtrackSolve` is correct and complete: with fuel above the number of empty cells, on a
grid whose cells before the start position are filled, it returns `true` with a solved grid
extending the input, or `false` with the input grid unchanged when there is no completion. -/
theorem backtrackSolve_spec (fuel : Nat) (g : SudokuGrid) (row col : Nat)
    (hfuel : emptyCount g < fuel) (hf : FilledBefore g row col) :
    SearchOk g (backtrackSolve fuel g row col) := by
  induction fuel generalizing g row col with
  | zero => omega
  | succ fuel ih =>
    unfold backtrackSolve
    cases hfind : findNextEmptyCell g row col with
    | none =>
      simp only
      have hfull := full_of_findNextEmptyCell_none hf hfind
      refine ⟨g.isSolved, g, rfl, fun hs => ⟨hs, Extends.refl g⟩, fun hs => ⟨rfl, fun h hc => ?_⟩⟩
      have : h = g := eq_of_extends_full hfull hc.2
      rw [this] at hc
      rw [hc.1] at hs
      cases hs
    | some p =>
      obtain ⟨r, c⟩ := p
      simp only
      obtain ⟨hr, hc, h0, _⟩ := findNextEmptyCell_some hfind
      have hf' := filledBefore_of_findNextEmptyCell hf hfind
      have hrec : ∀ v, 1 ≤ v → v ≤ 9 →
          SearchOk (g.setValue r c v) (backtrackSolve fuel (g.setValue r c v) r c) := by
        intro v hv1 hv9
        apply ih
        · have := emptyCount_setValue g r c v hr hc (by omega) hv9 h0
          omega
        · exact filledBefore_setValue r c v hr hc hv9 hf'
      obtain ⟨b, g', hres, htrue, hfalse⟩ :=
        tryValues_spec (fun g => backtrackSolve fuel g r c) g r c hr hc h0 hrec (List.range' 1 9)
      refine ⟨b, g', hres, htrue, fun hb => ⟨(hfalse hb).1, fun h hcomp => ?_⟩⟩
      apply (hfalse hb).2 h hcomp
      have hfullh := ((h.isSolved_iff).1 hcomp.1).2 r c hr hc
      have := h.cell_le r c
      rw [List.mem_range'_1]
      omega

/-! ## Theorems: naked and hidden singles -/

theorem isUnit_rowCells (r : Nat) (hr : r < 9) : IsUnit (rowCells r) := by
  interval_cases r <;> decide

theorem isUnit_colCells (c : Nat) (hc : c < 9) : IsUnit (colCells c) := by
  interval_cases c <;> decide

theorem isUnit_blockLoop (br bc : Nat) (hbr : br < 3) (hbc : bc < 3) :
    IsUnit (blockLoop (br * 3) (bc * 3)) := by
  interval_cases br <;> interval_cases bc <;> decide

/-- In a solved grid every unit holds every value `1 .. 9`. -/
theorem unit_has_value {h : SudokuGrid} (hs : h.isSolved = true) {u : List (Nat × Nat)}
    (hu : IsUnit u) (v : Nat) (hv1 : 1 ≤ v) (hv9 : v ≤ 9) :
    ∃ p ∈ u, h.cell p.1 p.2 = v := by
  obtain ⟨hn, hfull⟩ := (h.isSolved_iff).1 hs
  obtain ⟨hnd, hlen, hrange, hpeer⟩ := hu
  have hinj : ∀ x ∈ u, ∀ y ∈ u, h.cell x.1 x.2 = h.cell y.1 y.2 → x = y := by
    intro x hx y hy hxy
    by_contra hne
    exact hn x.1 x.2 y.1 y.2 (hrange x hx).1 (hrange x hx).2 (hrange y hy).1 (hrange y hy).2
      (hpeer x hx y hy hne) (hfull _ _ (hrange x hx).1 (hrange x hx).2) hxy
  have hnd' : (u.map fun p => h.cell p.1 p.2).Nodup := List.Nodup.map_on hinj hnd
  have hsub : (u.map fun p => h.cell p.1 p.2) ⊆ List.range' 1 9 := by
    intro w hw
    obtain ⟨p, hp, rfl⟩ := List.mem_map.1 hw
    have h1 := hfull _ _ (hrange p hp).1 (hrange p hp).2
    have h2 := h.cell_le p.1 p.2
    rw [List.mem_range'_1]
    omega
  have hperm := (List.subperm_of_subset hnd' hsub).perm_of_length_le
    (by rw [List.length_map, hlen, List.length_range'])
  have hv : v ∈ List.range' 1 9 := by
    rw [List.mem_range'_1]
    omega
  obtain ⟨p, hp, hpv⟩ := List.mem_map.1 (hperm.mem_iff.2 hv)
  exact ⟨p, hp, hpv⟩

theorem StepInv.start (g : SudokuGrid) (steps : List SolutionStep) :
    StepInv g (false, g, steps) :=
  ⟨Extends.refl g, fun _ h => h, fun h => Bool.noConfusion h, fun _ => rfl⟩

theorem StepInv.count_le {g : SudokuGrid} {acc : Bool × SudokuGrid × List SolutionStep}
    (hinv : StepInv g acc) : emptyCount acc.2.1 ≤ emptyCount g := by
  obtain ⟨_, _, ht, hf⟩ := hinv
  cases hacc : acc.1 with
  | true => exact Nat.le_of_lt (ht hacc)
  | false => rw [hf hacc]

/-- Placing a forced value in an empty cell keeps the invariant and reports progress. -/
theorem StepInv.place {g : SudokuGrid} {acc : Bool × SudokuGrid × List SolutionStep}
    (hinv : StepInv g acc) (r c v : Nat) (hr : r < 9) (hc : c < 9) (hv1 : 1 ≤ v) (hv9 : v ≤ 9)
    (h0 : acc.2.1.cell r c = 0) (hforced : ∀ h, Completion acc.2.1 h → h.cell r c = v)
    (steps : List SolutionStep) :
    StepInv g (true, acc.2.1.setValue r c v, steps) := by
  have hle := hinv.count_le
  obtain ⟨hext, hcomp, _, _⟩ := hinv
  refine ⟨hext.trans (extends_setValue _ r c v h0), fun h hh => ?_, fun _ => ?_,
    fun h => Bool.noConfusion h⟩
  · have hw := hcomp h hh
    have := completion_setValue hw r c hr hc
    rwa [hforced h hw] at this
  · have := emptyCount_setValue acc.2.1 r c v hr hc (by omega) hv9 h0
    show emptyCount (acc.2.1.setValue r c v) < emptyCount g
    omega

/-- One cell of `applyNakedSingles` keeps the invariant. -/
theorem nakedSingleStep_inv {g : SudokuGrid} {acc : Bool × SudokuGrid × List SolutionStep}
    (hinv : StepInv g acc) (p : Nat × Nat) (hp : p ∈ allCells) :
    StepInv g (nakedSingleStep acc p) := by
  obtain ⟨hr, hc⟩ := (mem_allCells p).1 hp
  unfold nakedSingleStep
  simp only
  by_cases h0 : (acc.2.1.getValue p.1 p.2 == 0) = true
  · rw [if_pos h0]
    rw [SudokuGrid.getValue_eq_cell] at h0
    have h0' : acc.2.1.cell p.1 p.2 = 0 := by simpa using h0
    by_cases h1 : ((getCandidates acc.2.1 p.1 p.2).length == 1) = true
    · rw [if_pos h1]
      obtain ⟨v, hv⟩ := List.length_eq_one.1 (by simpa using h1)
      have hcand : getCandidates acc.2.1 p.1 p.2
          = (List.range' 1 9).filter fun value => acc.2.1.isValidValue p.1 p.2 value := by
        unfold getCandidates SudokuGrid.getValidValues isValidPosition GRID_SIZE
        simp [hr, hc, h0']
      have hvmem : v ∈ (List.range' 1 9).filter fun value =>
          acc.2.1.isValidValue p.1 p.2 value := by
        rw [← hcand, hv]
        exact List.mem_singleton_self v
      obtain ⟨hvr, _⟩ := List.mem_filter.1 hvmem
      rw [List.mem_range'_1] at hvr
      rw [hv]
      apply hinv.place p.1 p.2 v hr hc hvr.1 (by omega) h0'
      intro h hh
      have hmem : h.cell p.1 p.2 ∈ getCandidates acc.2.1 p.1 p.2 := by
        rw [hcand, List.mem_filter]
        have h1 := ((h.isSolved_iff).1 hh.1).2 p.1 p.2 hr hc
        have h2 := h.cell_le p.1 p.2
        refine ⟨by rw [List.mem_range'_1]; omega, completion_isValidValue hh p.1 p.2 hr hc⟩
      rw [hv] at hmem
      exact List.mem_singleton.1 hmem
    · rw [if_neg h1]
      exact hinv
  · rw [if_neg h0]
    exact hinv

/-- One unit and value of `applyHiddenSingles` keep the invariant. -/
theorem hiddenSingleStep_inv {g : SudokuGrid} {acc : Bool × SudokuGrid × List SolutionStep}
    (hinv : StepInv g acc) (unit : String) (uv : List (Nat × Nat) × Nat) (hu : IsUnit uv.1)
    (hv1 : 1 ≤ uv.2) (hv9 : uv.2 ≤ 9) :
    StepInv g (hiddenSingleStep unit acc uv) := by
  unfold hiddenSingleStep
  simp only
  by_cases h1 : ((uv.1.filter fun p =>
      acc.2.1.getValue p.1 p.2 == 0 && acc.2.1.isValidValue p.1 p.2 uv.2).length == 1) = true
  · rw [if_pos h1]
    obtain ⟨cell, hcell⟩ := List.length_eq_one.1 (by simpa using h1)
    rw [hcell]
    have hmem : cell ∈ uv.1.filter fun p =>
        acc.2.1.getValue p.1 p.2 == 0 && acc.2.1.isValidValue p.1 p.2 uv.2 := by
      rw [hcell]
      exact List.mem_singleton_self cell
    obtain ⟨hcu, hcond⟩ := List.mem_filter.1 hmem
    rw [Bool.and_eq_true, SudokuGrid.getValue_eq_cell] at hcond
    have h0 : acc.2.1.cell cell.1 cell.2 = 0 := by simpa using hcond.1
    obtain ⟨hr, hc, _, _, hfree⟩ := (acc.2.1.isValidValue_iff _ _ _).1 hcond.2
    apply hinv.place cell.1 cell.2 uv.2 hr hc hv1 hv9 h0
    intro h hh
    obtain ⟨p, hpu, hpv⟩ := unit_has_value hh.1 hu uv.2 hv1 hv9
    have hpr := hu.2.2.1 p hpu
    have hp0 : acc.2.1.cell p.1 p.2 = 0 := by
      by_contra hne
      have hw : acc.2.1.cell p.1 p.2 = uv.2 := by
        rw [← hh.2 p.1 p.2 hpr.1 hpr.2 hne, hpv]
      have hpc : cell ≠ p := by
        intro heq
        rw [heq] at h0
        exact hne h0
      exact hfree p.1 p.2 hpr.1 hpr.2 (hu.2.2.2 cell hcu p hpu hpc) hw
    have hpmem : p ∈ uv.1.filter fun p =>
        acc.2.1.getValue p.1 p.2 == 0 && acc.2.1.isValidValue p.1 p.2 uv.2 := by
      rw [List.mem_filter, Bool.and_eq_true, SudokuGrid.getValue_eq_cell]
      refine ⟨hpu, by simpa using hp0, ?_⟩
      rw [← hpv]
      exact completion_isValidValue hh p.1 p.2 hpr.1 hpr.2
    rw [hcell] at hpmem
    rw [← List.mem_singleton.1 hpmem]
    exact hpv
  · rw [if_neg h1]
    exact hinv

theorem foldl_inv {α β : Type} (P : β → Prop) (Q : α → Prop) (f : β → α → β)
    (hstep : ∀ b a, P b → Q a → P (f b a)) (l : List α) (hl : ∀ a ∈ l, Q a) (b : β) (hb : P b) :
    P (l.foldl f b) := by
  induction l generalizing b with
  | nil => exact hb
  | cons a rest ih =>
    exact ih (fun x hx => hl x (List.mem_cons_of_mem _ hx)) _
      (hstep b a hb (hl a (List.mem_cons_self _ _)))

theorem applyNakedSingles_inv (g : SudokuGrid) (steps : List SolutionStep) :
    StepInv g (applyNakedSingles g steps) :=
  foldl_inv (StepInv g) (fun p => p ∈ allCells) nakedSingleStep
    (fun _ p hb hp => nakedSingleStep_inv hb p hp) allCells (fun _ h => h) _
    (StepInv.start g steps)

theorem mem_unitValuePairs {units : List (List (Nat × Nat))} {uv : List (Nat × Nat) × Nat}
    (h : uv ∈ unitValuePairs units) : uv.1 ∈ units ∧ 1 ≤ uv.2 ∧ uv.2 ≤ 9 := by
  unfold unitValuePairs at h
  obtain ⟨u, hu, hmem⟩ := List.mem_flatMap.1 h
  obtain ⟨v, hv, rfl⟩ := List.mem_map.1 hmem
  rw [List.mem_range'_1] at hv
  exact ⟨hu, hv.1, by omega⟩

theorem hiddenSingles_fold_inv (g : SudokuGrid) (unit : String)
    (units : List (List (Nat × Nat))) (hunits : ∀ u ∈ units, IsUnit u)
    (acc : Bool × SudokuGrid × List SolutionStep) (hacc : StepInv g acc) :
    StepInv g ((unitValuePairs units).foldl (hiddenSingleStep unit) acc) :=
  foldl_inv (StepInv g) (fun uv => IsUnit uv.1 ∧ 1 ≤ uv.2 ∧ uv.2 ≤ 9) (hiddenSingleStep unit)
    (fun _ uv hb huv => hiddenSingleStep_inv hb unit uv huv.1 huv.2.1 huv.2.2) _
    (fun _ huv => ⟨hunits _ (mem_unitValuePairs huv).1, (mem_unitValuePairs huv).2⟩) acc hacc

theorem applyHiddenSingles_inv (g : SudokuGrid) (steps : List SolutionStep) :
    StepInv g (applyHiddenSingles g steps) := by
  unfold applyHiddenSingles
  simp only
  apply hiddenSingles_fold_inv
  · intro u hu
    obtain ⟨br, hbr, hmem⟩ := List.mem_flatMap.1 hu
    obtain ⟨bc, hbc, rfl⟩ := List.mem_map.1 hmem
    exact isUnit_blockLoop br bc (List.mem_range.1 hbr) (List.mem_range.1 hbc)
  apply hiddenSingles_fold_inv
  · intro u hu
    obtain ⟨c, hc, rfl⟩ := List.mem_map.1 hu
    exact isUnit_colCells c (List.mem_range.1 hc)
  apply hiddenSingles_fold_inv
  · intro u hu
    obtain ⟨r, hr, rfl⟩ := List.mem_map.1 hu
    exact isUnit_rowCells r (List.mem_range.1 hr)
  exact StepInv.start g steps

theorem techniqueLoop_inv (techniques : List String) (g : SudokuGrid)
    (steps : List SolutionStep) : StepInv g (techniqueLoop techniques g steps) := by
  induction techniques generalizing steps with
  | nil => exact StepInv.start g steps
  | cons t rest ih =>
    unfold techniqueLoop
    simp only
    have hr : StepInv g
        (if t = "naked_singles" then applyNakedSingles g steps
        else if t = "hidden_singles" then applyHiddenSingles g steps
        else if t = "naked_pairs" then applyNakedPairs g steps
        else if t = "pointing_pairs" then applyPointingPairs g steps
        else if t = "box_line_reduction" then applyBoxLineReduction g steps
        else (false, g, steps)) := by
      split_ifs
      · exact applyNakedSingles_inv g steps
      · exact applyHiddenSingles_inv g steps
      · exact StepInv.start g steps
      · exact StepInv.start g steps
      · exact StepInv.start g steps
      · exact StepInv.start g steps
    generalize (if t = "naked_singles" then applyNakedSingles g steps
        else if t = "hidden_singles" then applyHiddenSingles g steps
        else if t = "naked_pairs" then applyNakedPairs g steps
        else if t = "pointing_pairs" then applyPointingPairs g steps
        else if t = "box_line_reduction" then applyBoxLineReduction g steps
        else (false, g, steps)) = r at hr
    cases h1 : r.1 with
    | true => simpa using hr
    | false =>
      simp only [Bool.false_eq_true, if_false]
      rw [hr.2.2.2 h1]
      exact ih _

theorem applySolvingTechniques_inv (g : SudokuGrid) (steps : List SolutionStep) :
    StepInv g (applySolvingTechniques g steps) :=
  techniqueLoop_inv m_techniqueOrder g steps

theorem solveLoop_succ (fuel : Nat) (w : SudokuGrid) (steps : List SolutionStep) :
    solveLoop (fuel + 1) w steps =
      if (applySolvingTechniques w steps).1 then
        if (applySolvingTechniques w steps).2.1.isSolved then
          some (true, (applySolvingTechniques w steps).2.1, (applySolvingTechniques w steps).2.2)
        else solveLoop fuel (applySolvingTechniques w steps).2.1
          (applySolvingTechniques w steps).2.2
      else some (false, (applySolvingTechniques w steps).2.1,
        (applySolvingTechniques w steps).2.2) :=
  rfl

/-- The `while` loop of `solve` ends with fuel above the number of empty cells; its grid
extends the input and keeps every completion, and is solved when the loop reports so. -/
theorem solveLoop_spec (fuel : Nat) (w : SudokuGrid) (steps : List SolutionStep)
    (hfuel : emptyCount w < fuel) :
    ∃ b w' st, solveLoop fuel w steps = some (b, w', st) ∧ Extends w w' ∧
      (∀ h, Completion w h → Completion w' h) ∧ (b = true → w'.isSolved = true) := by
  induction fuel generalizing w steps with
  | zero => omega
  | succ fuel ih =>
    rw [solveLoop_succ]
    have hinv := applySolvingTechniques_inv w steps
    generalize applySolvingTechniques w steps = r at hinv
    cases h1 : r.1 with
    | false =>
      simp only [Bool.false_eq_true, if_false]
      exact ⟨false, r.2.1, r.2.2, rfl, hinv.1, hinv.2.1, fun h => Bool.noConfusion h⟩
    | true =>
      simp only [if_true]
      by_cases hs : r.2.1.isSolved = true
      · rw [if_pos hs]
        exact ⟨true, r.2.1, r.2.2, rfl, hinv.1, hinv.2.1, fun _ => hs⟩
      · rw [if_neg hs]
        have hlt := hinv.2.2.1 h1
        obtain ⟨b, w', st, hres, hext, hcomp, hb⟩ := ih r.2.1 r.2.2 (by omega)
        exact ⟨b, w', st, hres, hinv.1.trans hext, fun h hh => hcomp h (hinv.2.1 h hh), hb⟩

/-! ## Theorems: SudokuSolver.solve -/

theorem copyFold_cell (src : SudokuGrid) (l : List (Nat × Nat))
    (hl : ∀ p ∈ l, p.1 < 9 ∧ p.2 < 9) (init : SudokuGrid) (r c : Nat) :
    (l.foldl (fun acc p => acc.setValue p.1 p.2 (src.getValue p.1 p.2)) init).cell r c
      = if (r, c) ∈ l then src.cell r c else init.cell r c := by
  induction l generalizing init with
  | nil => simp
  | cons p rest ih =>
    rw [List.foldl_cons, ih (fun q hq => hl q (List.mem_cons_of_mem _ hq))]
    obtain ⟨hp1, hp2⟩ := hl p (List.mem_cons_self _ _)
    rw [SudokuGrid.getValue_eq_cell,
      SudokuGrid.cell_setValue _ _ _ _ hp1 hp2 (src.cell_le _ _)]
    by_cases h1 : (r, c) ∈ rest
    · simp [h1]
    · by_cases h2 : r = p.1 ∧ c = p.2
      · have : (r, c) = p := Prod.ext h2.1 h2.2
        simp [h1, h2, this]
      · have : ¬ (r, c) = p := fun h => h2 ⟨congrArg Prod.fst h, congrArg Prod.snd h⟩
        simp [h1, h2, this]

/-- `copyGrid` returns a grid equal to the original. -/
theorem copyGrid_eq (g : SudokuGrid) : copyGrid g = g := by
  apply SudokuGrid.ext_cell
  intro r c hr hc
  unfold copyGrid
  rw [copyFold_cell g allCells (fun p hp => (mem_allCells p).1 hp),
    if_pos ((mem_allCells (r, c)).2 ⟨hr, hc⟩)]

/-- Copying the working grid back cell by cell makes the caller's grid equal to it. -/
theorem copyBack_eq (grid w : SudokuGrid) : copyBack grid w = w := by
  apply SudokuGrid.ext_cell
  intro r c hr hc
  unfold copyBack
  rw [copyFold_cell w allCells (fun p hp => (mem_allCells p).1 hp),
    if_pos ((mem_allCells (r, c)).2 ⟨hr, hc⟩)]

theorem filledBefore_zero (g : SudokuGrid) : FilledBefore g 0 0 := by
  intro r c _ _ h
  omega

/-- `solve` with enough fuel: it returns; `true` comes with a solved grid that extends the
input, `false` leaves the grid as it was; on a valid grid the answer is `true` exactly when
the grid has a completion. -/
theorem solve_spec (fuel : Nat) (g : SudokuGrid) (hfuel : 82 ≤ fuel) :
    ∃ b g', SudokuSolver.solve fuel g = some (b, g') ∧
      (b = true → g'.isSolved = true ∧ Extends g g') ∧
      (b = false → g' = g) ∧
      (g.isValid = true → (b = true ↔ ∃ h, Completion g h)) := by
  unfold SudokuSolver.solve
  by_cases hv : g.isValid = true
  swap
  · have hv' : (!g.isValid) = true := by simpa using hv
    rw [if_pos hv']
    exact ⟨false, g, rfl, fun h => Bool.noConfusion h, fun _ => rfl, fun h => absurd h hv⟩
  have hv' : ¬ ((!g.isValid) = true) := by simp [hv]
  rw [if_neg hv']
  by_cases hs : g.isSolved = true
  · rw [if_pos hs]
    exact ⟨true, g, rfl, fun _ => ⟨hs, Extends.refl g⟩, fun h => Bool.noConfusion h,
      fun _ => ⟨fun _ => ⟨g, hs, Extends.refl g⟩, fun _ => rfl⟩⟩
  rw [if_neg hs]
  simp only [m_useLogicalTechniques, if_true, copyGrid_eq]
  have hcount := emptyCount_le g
  obtain ⟨b1, w, st, hloop, hext, hcomp, hb1⟩ := solveLoop_spec fuel g [] (by omega)
  rw [hloop]
  cases b1 with
  | true =>
    simp only [copyBack_eq]
    have hsw := hb1 rfl
    exact ⟨true, w, rfl, fun _ => ⟨hsw, hext⟩, fun h => Bool.noConfusion h,
      fun _ => ⟨fun _ => ⟨w, hsw, hext⟩, fun _ => rfl⟩⟩
  | false =>
    simp only
    have hcw := emptyCount_le w
    obtain ⟨b2, w', hres, htrue, hfalse⟩ :=
      backtrackSolve_spec fuel w 0 0 (by omega) (filledBefore_zero w)
    rw [hres]
    cases b2 with
    | true =>
      simp only [copyBack_eq]
      obtain ⟨hsw, hext'⟩ := htrue rfl
      exact ⟨true, w', rfl, fun _ => ⟨hsw, hext.trans hext'⟩, fun h => Bool.noConfusion h,
        fun _ => ⟨fun _ => ⟨w', hsw, hext.trans hext'⟩, fun _ => rfl⟩⟩
    | false =>
      simp only
      obtain ⟨_, hnone⟩ := hfalse rfl
      refine ⟨false, g, rfl, fun h => Bool.noConfusion h, fun _ => rfl, fun _ => ⟨fun h => Bool.noConfusion h, ?_⟩⟩
      rintro ⟨h, hh⟩
      exact absurd (hcomp h hh) (hnone h)

/-- C5: whenever `solve` returns `true` the grid it leaves is solved (`isSolved` and `isValid`
hold and no cell is `0`) and every cell that was non-zero before the call holds the same
value; with fuel 82 or more the call does return. -/
theorem solve_true_solved (fuel : Nat) (g : SudokuGrid) (hfuel : 82 ≤ fuel) :
    ∃ b g', SudokuSolver.solve fuel g = some (b, g') ∧
      (b = true →
        g'.isSolved = true ∧ g'.isValid = true ∧
        (∀ r c, r < 9 → c < 9 → g'.cell r c ≠ 0) ∧
        (∀ r c, r < 9 → c < 9 → g.cell r c ≠ 0 → g'.cell r c = g.cell r c)) := by
  obtain ⟨b, g', hres, htrue, _, _⟩ := solve_spec fuel g hfuel
  refine ⟨b, g', hres, fun hb => ?_⟩
  obtain ⟨hs, hext⟩ := htrue hb
  obtain ⟨hn, hfull⟩ := (g'.isSolved_iff).1 hs
  exact ⟨hs, (g'.isValid_iff).2 hn, hfull, hext⟩

/-- Witness of C5: the sample grid with fuel 82. -/
theorem solve_true_solved_witness :
    82 ≤ 82 ∧
    ∃ b g', SudokuSolver.solve 82 sampleGrid = some (b, g') ∧
      (b = true →
        g'.isSolved = true ∧ g'.isValid = true ∧
        (∀ r c, r < 9 → c < 9 → g'.cell r c ≠ 0) ∧
        (∀ r c, r < 9 → c < 9 → sampleGrid.cell r c ≠ 0 → g'.cell r c = sampleGrid.cell r c)) :=
  ⟨by decide, solve_true_solved 82 sampleGrid (by decide)⟩

/-- C6: on a valid grid `solve` returns `true` if and only if the grid has a completion, and
when it has none `solve` returns `false` and leaves every cell unchanged; with fuel 82 or
more the call does return. -/
theorem solve_iff_completion (fuel : Nat) (g : SudokuGrid) (hfuel : 82 ≤ fuel)
    (hvalid : g.isValid = true) :
    ∃ b g', SudokuSolver.solve fuel g = some (b, g') ∧
      (b = true ↔ ∃ h, Completion g h) ∧
      ((¬ ∃ h, Completion g h) →
        b = false ∧ ∀ r c, r < 9 → c < 9 → g'.cell r c = g.cell r c) := by
  obtain ⟨b, g', hres, _, hfalse, hiff⟩ := solve_spec fuel g hfuel
  refine ⟨b, g', hres, hiff hvalid, fun hno => ?_⟩
  have hb : b = false := by
    cases b with
    | false => rfl
    | true => exact absurd ((hiff hvalid).1 rfl) hno
  refine ⟨hb, fun r c _ _ => ?_⟩
  rw [hfalse hb]

/-- Witness of C6: the sample grid with fuel 82. -/
theorem solve_iff_completion_witness :
    (82 ≤ 82 ∧ sampleGrid.isValid = true) ∧
    ∃ b g', SudokuSolver.solve 82 sampleGrid = some (b, g') ∧
      (b = true ↔ ∃ h, Completion sampleGrid h) ∧
      ((¬ ∃ h, Completion sampleGrid h) →
        b = false ∧ ∀ r c, r < 9 → c < 9 → g'.cell r c = sampleGrid.cell r c) :=
  ⟨⟨by decide, by decide⟩, solve_iff_completion 82 sampleGrid (by decide) (by decide)⟩

/-! ## Theorems: counting solutions -/

theorem CountOk.congr {C C' : SudokuGrid → Prop} (hC : ∀ h, C h ↔ C' h) {g : SudokuGrid}
    {n : Nat} {result : Option (SudokuGrid × Nat)} (hok : CountOk C g n result) :
    CountOk C' g n result := by
  obtain ⟨n', hres, h1, h2, ha, hb, hc, hd⟩ := hok
  refine ⟨n', hres, h1, h2, fun h => ha fun x hx => h x ((hC x).1 hx), ?_, ?_, ?_⟩
  · rintro ⟨x, hx⟩
    exact hb ⟨x, (hC x).2 hx⟩
  · rintro ⟨x, y, hx, hy, hxy⟩
    exact hc ⟨x, y, (hC x).2 hx, (hC y).2 hy, hxy⟩
  · intro h
    exact hd fun x y hx hy => h x y ((hC x).1 hx) ((hC y).1 hy)

theorem completion_setValue_iff (g h : SudokuGrid) (r c v : Nat) (hr : r < 9) (hc : c < 9)
    (hv0 : v ≠ 0) (hv : v ≤ 9) (h0 : g.cell r c = 0) :
    Completion (g.setValue r c v) h ↔ Completion g h ∧ h.cell r c = v := by
  constructor
  · exact completion_of_setValue r c v hr hc hv0 hv h0
  · rintro ⟨hh, heq⟩
    have := completion_setValue hh r c hr hc
    rwa [heq] at this

/-- The loop over the values of `countSolutions`, given that the recursive call is correct on
the grid with each legal value placed. -/
theorem countValues_spec (recurse : SudokuGrid → Nat → Option (SudokuGrid × Nat))
    (g : SudokuGrid) (r c : Nat) (hr : r < 9) (hc : c < 9) (h0 : g.cell r c = 0)
    (hrec : ∀ v m, g.isValidValue r c v = true → m ≤ 2 →
      CountOk (Completion (g.setValue r c v)) (g.setValue r c v) m
        (recurse (g.setValue r c v) m))
    (vals : List Nat) (hnd : vals.Nodup) (n : Nat) (hn : n < 2) :
    CountOk (fun h => Completion g h ∧ h.cell r c ∈ vals) g n
      (countValues recurse r c vals g n) := by
  induction vals generalizing n with
  | nil =>
    refine ⟨n, rfl, le_refl _, by omega, fun _ => rfl, ?_, ?_, fun _ => by omega⟩
    · rintro ⟨h, _, hm⟩
      exact absurd hm (List.not_mem_nil _)
    · rintro ⟨h, _, ⟨_, hm⟩, _⟩
      exact absurd hm (List.not_mem_nil _)
  | cons v rest ih =>
    rw [List.nodup_cons] at hnd
    unfold countValues
    by_cases hv : g.isValidValue r c v = true
    · rw [if_pos hv]
      obtain ⟨_, _, hv1, hv9, _⟩ := (g.isValidValue_iff r c v).1 hv
      have hiff : ∀ h, Completion (g.setValue r c v) h ↔ Completion g h ∧ h.cell r c = v :=
        fun h => completion_setValue_iff g h r c v hr hc (by omega) hv9 h0
      obtain ⟨n1, hres, hle1, hle2, ha, hb, hc', hd⟩ := hrec v n hv (by omega)
      rw [hres]
      simp only
      rw [setValue_restore g r c v h0]
      by_cases h2 : n1 ≥ m_maxSolutions
      · rw [if_pos h2]
        have h2' : 2 ≤ n1 := h2
        refine ⟨n1, rfl, hle1, hle2, fun hno => ?_, fun _ => by omega, fun _ => h2', fun hall => ?_⟩
        · have := ha fun h hh => hno h ⟨((hiff h).1 hh).1, by
            rw [((hiff h).1 hh).2]; exact List.mem_cons_self _ _⟩
          omega
        · apply hd
          intro x y hx hy
          exact hall x y ⟨((hiff x).1 hx).1, by rw [((hiff x).1 hx).2]; exact List.mem_cons_self _ _⟩
            ⟨((hiff y).1 hy).1, by rw [((hiff y).1 hy).2]; exact List.mem_cons_self _ _⟩
      · rw [if_neg h2]
        have h2' : n1 < 2 := Nat.lt_of_not_le h2
        obtain ⟨n2, hres2, hle3, hle4, ha2, hb2, hc2, hd2⟩ := ih hnd.2 n1 h2'
        refine ⟨n2, hres2, by omega, hle4, fun hno => ?_, ?_, ?_, fun hall => ?_⟩
        · have e1 := ha fun h hh => hno h ⟨((hiff h).1 hh).1, by
            rw [((hiff h).1 hh).2]; exact List.mem_cons_self _ _⟩
          have e2 := ha2 fun h hh => hno h ⟨hh.1, List.mem_cons_of_mem _ hh.2⟩
          omega
        · rintro ⟨h, hh, hm⟩
          rcases List.mem_cons.1 hm with heq | hm'
          · have := hb ⟨h, (hiff h).2 ⟨hh, heq⟩⟩
            omega
          · have := hb2 ⟨h, hh, hm'⟩
            omega
        · rintro ⟨x, y, ⟨hx, hxm⟩, ⟨hy, hym⟩, hxy⟩
          rcases List.mem_cons.1 hxm with hxe | hxr
          · rcases List.mem_cons.1 hym with hye | hyr
            · have := hc' ⟨x, y, (hiff x).2 ⟨hx, hxe⟩, (hiff y).2 ⟨hy, hye⟩, hxy⟩
              omega
            · have e1 := hb ⟨x, (hiff x).2 ⟨hx, hxe⟩⟩
              have e2 := hb2 ⟨y, hy, hyr⟩
              omega
          · rcases List.mem_cons.1 hym with hye | hyr
            · have e1 := hb ⟨y, (hiff y).2 ⟨hy, hye⟩⟩
              have e2 := hb2 ⟨x, hx, hxr⟩
              omega
            · exact hc2 ⟨x, y, ⟨hx, hxr⟩, ⟨hy, hyr⟩, hxy⟩
        · have hd' : n1 ≤ n + 1 := by
            apply hd
            intro x y hx hy
            exact hall x y
              ⟨((hiff x).1 hx).1, by rw [((hiff x).1 hx).2]; exact List.mem_cons_self _ _⟩
              ⟨((hiff y).1 hy).1, by rw [((hiff y).1 hy).2]; exact List.mem_cons_self _ _⟩
          by_cases hex : ∃ h, Completion (g.setValue r c v) h
          · obtain ⟨h, hh⟩ := hex
            have e2 := ha2 fun h' hh' => by
              have heq := hall h' h ⟨hh'.1, List.mem_cons_of_mem _ hh'.2⟩
                ⟨((hiff h).1 hh).1, by rw [((hiff h).1 hh).2]; exact List.mem_cons_self _ _⟩
              apply hnd.1
              rw [← ((hiff h).1 hh).2, ← heq]
              exact hh'.2
            omega
          · have e1 := ha fun h hh => hex ⟨h, hh⟩
            have e2 := hd2 fun x y hx hy => hall x y ⟨hx.1, List.mem_cons_of_mem _ hx.2⟩
              ⟨hy.1, List.mem_cons_of_mem _ hy.2⟩
            omega
    · rw [if_neg hv]
      apply CountOk.congr _ (ih hnd.2 n hn)
      intro h
      constructor
      · rintro ⟨hh, hm⟩
        exact ⟨hh, List.mem_cons_of_mem _ hm⟩
      · rintro ⟨hh, hm⟩
        refine ⟨hh, ?_⟩
        rcases List.mem_cons.1 hm with heq | hm'
        · exfalso
          apply hv
          rw [← heq]
          exact completion_isValidValue hh r c hr hc
        · exact hm'

/-- `countSolutions` counts the completions of a grid without clash, up to two, and restores
the grid. -/
theorem countSolutions_spec (fuel : Nat) (g : SudokuGrid) (n row col : Nat)
    (hfuel : emptyCount g < fuel) (hf : FilledBefore g row col) (hcl : NoClash g)
    (hn : n ≤ 2) :
    CountOk (Completion g) g n (countSolutions fuel g n row col) := by
  induction fuel generalizing g n row col with
  | zero => omega
  | succ fuel ih =>
    unfold countSolutions
    by_cases h2 : n ≥ m_maxSolutions
    · rw [if_pos h2]
      have h2' : 2 ≤ n := h2
      exact ⟨n, rfl, le_refl _, hn, fun _ => rfl, fun _ => by omega, fun _ => h2',
        fun _ => by omega⟩
    · rw [if_neg h2]
      have h2' : n < 2 := Nat.lt_of_not_le h2
      cases hfind : findNextEmptyCell g row col with
      | none =>
        simp only
        have hfull := full_of_findNextEmptyCell_none hf hfind
        have hsolved : g.isSolved = true := (g.isSolved_iff).2 ⟨hcl, hfull⟩
        have hself : Completion g g := ⟨hsolved, Extends.refl g⟩
        have huniq : ∀ h, Completion g h → h = g := fun h hh => eq_of_extends_full hfull hh.2
        refine ⟨n + 1, rfl, by omega, by omega, fun hno => absurd hself (hno g),
          fun _ => by omega, ?_, fun _ => le_refl _⟩
        rintro ⟨x, y, hx, hy, hxy⟩
        exact absurd ((huniq x hx).trans (huniq y hy).symm) hxy
      | some p =>
        obtain ⟨r, c⟩ := p
        simp only
        obtain ⟨hr, hc, h0, _⟩ := findNextEmptyCell_some hfind
        have hf' := filledBefore_of_findNextEmptyCell hf hfind
        have hrec : ∀ v m, g.isValidValue r c v = true → m ≤ 2 →
            CountOk (Completion (g.setValue r c v)) (g.setValue r c v) m
              (countSolutions fuel (g.setValue r c v) m r c) := by
          intro v m hv hm
          obtain ⟨_, _, hv1, hv9, _⟩ := (g.isValidValue_iff r c v).1 hv
          apply ih
          · have := emptyCount_setValue g r c v hr hc (by omega) hv9 h0
            omega
          · exact filledBefore_setValue r c v hr hc hv9 hf'
          · exact noClash_setValue hcl r c v hv
          · exact hm
        apply CountOk.congr _ (countValues_spec (fun g n => countSolutions fuel g n r c)
          g r c hr hc h0 hrec (List.range' 1 9) (List.nodup_range' 1 9) n h2')
        intro h
        constructor
        · exact fun hh => hh.1
        · intro hh
          refine ⟨hh, ?_⟩
          have h1 := ((h.isSolved_iff).1 hh.1).2 r c hr hc
          have h9 := h.cell_le r c
          rw [List.mem_range'_1]
          omega

/-- `isUniqueSolution` with enough fuel, on a valid grid: it returns, and the answer is
`true` exactly when the grid has one and only one completion. -/
theorem isUniqueSolution_spec (fuel : Nat) (g : SudokuGrid) (hfuel : 82 ≤ fuel)
    (hvalid : g.isValid = true) :
    ∃ b, isUniqueSolution fuel g = some b ∧ (b = true ↔ ∃! h, Completion g h) := by
  have hcount := emptyCount_le g
  obtain ⟨n', hres, _, _, ha, hb, hc, hd⟩ :=
    countSolutions_spec fuel g 0 0 0 (by omega) (filledBefore_zero g) ((g.isValid_iff).1 hvalid)
      (by omega)
  unfold isUniqueSolution
  simp only [copyGrid_eq, hres, Option.map_some']
  refine ⟨n' == 1, rfl, ?_⟩
  rw [beq_iff_eq]
  constructor
  · intro h1
    have hex : ∃ h, Completion g h := by
      by_contra hno
      have := ha fun h hh => hno ⟨h, hh⟩
      omega
    obtain ⟨h, hh⟩ := hex
    refine ⟨h, hh, fun y hy => ?_⟩
    by_contra hne
    have := hc ⟨y, h, hy, hh, hne⟩
    omega
  · rintro ⟨h, hh, huniq⟩
    have e1 := hb ⟨h, hh⟩
    have e2 := hd fun x y hx hy => (huniq x hx).trans (huniq y hy).symm
    omega

/-! ## Theorems: the sample puzzle -/

theorem SudokuGrid.ext_m_grid {g h : SudokuGrid} (hm : g.m_grid = h.m_grid) : g = h := by
  cases g
  cases h
  simp only at hm
  subst hm
  rfl

/-- On the sample grid the `while` loop of `solve` alone reaches the solved grid. -/
theorem sample_solveLoop :
    (solveLoop 82 sampleGrid []).map (fun r => (r.1, r.2.1.m_grid))
      = some (true, sampleSolutionRows) := by
  decide!

/-- The sample grid has a completion, with rows `sampleSolutionRows`, and no other. -/
theorem sample_completion :
    ∃ w, Completion sampleGrid w ∧ w.m_grid = sampleSolutionRows ∧
      ∀ h, Completion sampleGrid h → h = w := by
  have hcount := emptyCount_le sampleGrid
  obtain ⟨b, w, st, hloop, hext, hcomp, hb⟩ := solveLoop_spec 82 sampleGrid [] (by omega)
  have heval := sample_solveLoop
  rw [hloop] at heval
  simp only [Option.map_some', Option.some.injEq, Prod.mk.injEq] at heval
  obtain ⟨hbt, hrows⟩ := heval
  have hfull : ∀ r c, r < 9 → c < 9 → w.cell r c ≠ 0 := by
    intro r c hr hc
    unfold SudokuGrid.cell
    rw [hrows]
    interval_cases r <;> interval_cases c <;> decide
  exact ⟨w, ⟨hb hbt, hext⟩, hrows, fun h hh => eq_of_extends_full hfull (hcomp h hh).2⟩

/-- C7: on a valid grid `isUniqueSolution` returns `true` if and only if the grid has exactly
one completion, hence `false` when the grid has two different completions; on the sample grid
it returns `true`. With fuel 82 or more the call does return. -/
theorem isUniqueSolution_iff (fuel : Nat) (g : SudokuGrid) (hfuel : 82 ≤ fuel)
    (hvalid : g.isValid = true) :
    (∃ b, isUniqueSolution fuel g = some b ∧
      (b = true ↔ ∃! h, Completion g h) ∧
      ((∃ h1 h2, Completion g h1 ∧ Completion g h2 ∧ h1 ≠ h2) → b = false)) ∧
    isUniqueSolution fuel sampleGrid = some true := by
  constructor
  · obtain ⟨b, hres, hiff⟩ := isUniqueSolution_spec fuel g hfuel hvalid
    refine ⟨b, hres, hiff, ?_⟩
    rintro ⟨h1, h2, hc1, hc2, hne⟩
    cases b with
    | false => rfl
    | true =>
      obtain ⟨h, _, huniq⟩ := hiff.1 rfl
      exact absurd ((huniq h1 hc1).trans (huniq h2 hc2).symm) hne
  · obtain ⟨b, hres, hiff⟩ := isUniqueSolution_spec fuel sampleGrid hfuel (by decide)
    obtain ⟨w, hw, _, huniq⟩ := sample_completion
    have hb : b = true := hiff.2 ⟨w, hw, huniq⟩
    rw [hres, hb]

/-- Witness of C7: the sample grid with fuel 82. -/
theorem isUniqueSolution_iff_witness :
    (82 ≤ 82 ∧ sampleGrid.isValid = true) ∧
    ((∃ b, isUniqueSolution 82 sampleGrid = some b ∧
      (b = true ↔ ∃! h, Completion sampleGrid h) ∧
      ((∃ h1 h2, Completion sampleGrid h1 ∧ Completion sampleGrid h2 ∧ h1 ≠ h2) → b = false)) ∧
    isUniqueSolution 82 sampleGrid = some true) :=
  ⟨⟨by decide, by decide⟩, isUniqueSolution_iff 82 sampleGrid (by decide) (by decide)⟩

/-- C8: on the sample grid `solve` returns `true` and the first row of the resulting grid is
5, 3, 4, 6, 7, 8, 9, 1, 2 (the whole grid is the unique completion); with fuel 82 or more the
call does return. -/
theorem solve_sample (fuel : Nat) (hfuel : 82 ≤ fuel) :
    sampleGrid.m_grid = samplePuzzle ∧
    ∃ g', SudokuSolver.solve fuel sampleGrid = some (true, g') ∧
      (List.range 9).map (fun col => g'.getValue 0 col) = [5, 3, 4, 6, 7, 8, 9, 1, 2] ∧
      g'.m_grid = sampleSolutionRows := by
  refine ⟨by decide, ?_⟩
  obtain ⟨b, g', hres, htrue, _, hiff⟩ := solve_spec fuel sampleGrid hfuel
  obtain ⟨w, hw, hrows, huniq⟩ := sample_completion
  have hb : b = true := (hiff (by decide)).2 ⟨w, hw⟩
  subst hb
  obtain ⟨hs, hext⟩ := htrue rfl
  have hg' : g' = w := huniq g' ⟨hs, hext⟩
  subst hg'
  refine ⟨g', hres, ?_, hrows⟩
  simp only [SudokuGrid.getValue_eq_cell]
  unfold SudokuGrid.cell
  rw [hrows]
  decide

/-- Witness of C8: fuel 82. -/
theorem solve_sample_witness :
    82 ≤ 82 ∧
    (sampleGrid.m_grid = samplePuzzle ∧
    ∃ g', SudokuSolver.solve 82 sampleGrid = some (true, g') ∧
      (List.range 9).map (fun col => g'.getValue 0 col) = [5, 3, 4, 6, 7, 8, 9, 1, 2] ∧
      g'.m_grid = sampleSolutionRows) :=
  ⟨by decide, solve_sample 82 (by decide)⟩

/-! ## Theorems: `solveWithSteps` -/

theorem replay_append (g : SudokuGrid) (a b : List SolutionStep) :
    replay g (a ++ b) = replay (replay g a) b := by
  unfold replay
  rw [List.foldl_append]

theorem traceOk_append (g : SudokuGrid) (a b : List SolutionStep) :
    TraceOk g (a ++ b) ↔ TraceOk g a ∧ TraceOk (replay g a) b := by
  induction a generalizing g with
  | nil => simp [TraceOk, replay]
  | cons s rest ih =>
    show StepOk g s ∧ TraceOk (applyStep g s) (rest ++ b) ↔ _
    rw [ih]
    show _ ↔ (StepOk g s ∧ TraceOk (applyStep g s) rest) ∧ TraceOk (replay (applyStep g s) rest) b
    tauto

/-- Replaying a step at a cell given by natural numbers writes the value there. -/
theorem applyStep_mk (g : SudokuGrid) (r c v : Nat) (reason technique : String) :
    applyStep g ⟨r, c, v, reason, technique⟩ = g.setValue r c v := by
  unfold applyStep
  simp

theorem applyStep_of_emptyCellOf {w : SudokuGrid} {s : SolutionStep} {r c : Nat}
    (h : EmptyCellOf w s r c) : applyStep w s = w.setValue r c s.value := by
  obtain ⟨_, _, hr, hc, _⟩ := h
  unfold applyStep
  rw [hr, hc]
  simp

theorem Run.initial (w : SudokuGrid) (steps : List SolutionStep) : Run w steps (false, w, steps) :=
  ⟨[], by simp, rfl, trivial, by simp⟩

/-- A state that reports no progress is the state the run started from. -/
theorem Run.of_no_progress {w : SudokuGrid} {steps : List SolutionStep}
    {acc : Bool × SudokuGrid × List SolutionStep} (h : Run w steps acc) (hp : acc.1 = false) :
    acc = (false, w, steps) := by
  obtain ⟨new, h1, h2, _, h4⟩ := h
  have hnew : new = [] := by
    by_contra hne
    rw [h4.2 hne] at hp
    exact Bool.noConfusion hp
  subst hnew
  obtain ⟨b, g, l⟩ := acc
  simp only at hp h1 h2
  rw [hp, h2, h1]
  simp [replay]

/-- Recording a justified step and writing its value keeps the invariant. -/
theorem Run.record {w : SudokuGrid} {steps : List SolutionStep}
    {acc : Bool × SudokuGrid × List SolutionStep} (h : Run w steps acc) (s : SolutionStep)
    (hs : StepOk acc.2.1 s) : Run w steps (true, applyStep acc.2.1 s, acc.2.2 ++ [s]) := by
  obtain ⟨new, h1, h2, h3, _⟩ := h
  refine ⟨new ++ [s], ?_, ?_, ?_, by simp⟩
  · show acc.2.2 ++ [s] = steps ++ (new ++ [s])
    rw [h1, List.append_assoc]
  · show applyStep acc.2.1 s = replay w (new ++ [s])
    rw [replay_append, ← h2]
    rfl
  · rw [traceOk_append, ← h2]
    exact ⟨h3, hs, trivial⟩

/-- One cell of `applyNakedSingles` keeps the trace invariant. -/
theorem nakedSingleStep_run {w : SudokuGrid} {steps : List SolutionStep}
    {acc : Bool × SudokuGrid × List SolutionStep} (hrun : Run w steps acc) (p : Nat × Nat)
    (hp : p ∈ allCells) : Run w steps (nakedSingleStep acc p) := by
  obtain ⟨hr, hc⟩ := (mem_allCells p).1 hp
  unfold nakedSingleStep
  simp only
  by_cases h0 : (acc.2.1.getValue p.1 p.2 == 0) = true
  · rw [if_pos h0]
    by_cases h1 : ((getCandidates acc.2.1 p.1 p.2).length == 1) = true
    · rw [if_pos h1]
      obtain ⟨v, hv⟩ := List.length_eq_one.1 (by simpa using h1)
      rw [hv]
      have hok : StepOk acc.2.1 ⟨p.1, p.2, v, explainNakedSingle p.1 p.2 v, "naked_single"⟩ :=
        Or.inl ⟨rfl, p.1, p.2, ⟨hr, hc, rfl, rfl, by simpa using h0⟩, hv⟩
      have := hrun.record _ hok
      rw [applyStep_mk] at this
      exact this
    · rw [if_neg h1]
      exact hrun
  · rw [if_neg h0]
    exact hrun

/-- One unit and value of `applyHiddenSingles` keep the trace invariant. -/
theorem hiddenSingleStep_run {w : SudokuGrid} {steps : List SolutionStep}
    {acc : Bool × SudokuGrid × List SolutionStep} (hrun : Run w steps acc) (unit : String)
    (uv : List (Nat × Nat) × Nat) (hu : IsUnit uv.1) (hcells : UnitOfCells uv.1) :
    Run w steps (hiddenSingleStep unit acc uv) := by
  unfold hiddenSingleStep
  simp only
  by_cases h1 : ((uv.1.filter fun p =>
      acc.2.1.getValue p.1 p.2 == 0 && acc.2.1.isValidValue p.1 p.2 uv.2).length == 1) = true
  · rw [if_pos h1]
    obtain ⟨cell, hcell⟩ := List.length_eq_one.1 (by simpa using h1)
    rw [hcell]
    have hmem : ∀ p, p ∈ uv.1 ∧ (acc.2.1.getValue p.1 p.2 = 0 ∧
        acc.2.1.isValidValue p.1 p.2 uv.2 = true) ↔ p = cell := by
      intro p
      have : p ∈ uv.1.filter (fun p =>
          acc.2.1.getValue p.1 p.2 == 0 && acc.2.1.isValidValue p.1 p.2 uv.2) ↔ _ :=
        List.mem_filter
      rw [hcell, List.mem_singleton] at this
      rw [this]
      simp
    obtain ⟨hcu, hc0, _⟩ := (hmem cell).2 rfl
    have hrange := hu.2.2.1 cell hcu
    have hok : StepOk acc.2.1
        ⟨cell.1, cell.2, uv.2, explainHiddenSingle cell.1 cell.2 uv.2 unit, "hidden_single"⟩ := by
      refine Or.inr (Or.inl ⟨rfl, cell.1, cell.2, ⟨hrange.1, hrange.2, rfl, rfl, hc0⟩,
        uv.1, hcells cell hcu, hcu, fun p hp => ?_⟩)
      constructor
      · intro h
        exact (hmem p).1 ⟨hp, h⟩
      · intro h
        exact ((hmem p).2 h).2
    have := hrun.record _ hok
    rw [applyStep_mk] at this
    exact this
  · rw [if_neg h1]
    exact hrun

theorem applyNakedSingles_run (w : SudokuGrid) (steps : List SolutionStep) :
    Run w steps (applyNakedSingles w steps) :=
  foldl_inv (Run w steps) (fun p => p ∈ allCells) nakedSingleStep
    (fun _ p hb hp => nakedSingleStep_run hb p hp) allCells (fun _ h => h) _
    (Run.initial w steps)

theorem unitOfCells_rowCells (r : Nat) (hr : r < 9) : UnitOfCells (rowCells r) := by
  interval_cases r <;> decide

theorem unitOfCells_colCells (c : Nat) (hc : c < 9) : UnitOfCells (colCells c) := by
  interval_cases c <;> decide

theorem unitOfCells_blockLoop (br bc : Nat) (hbr : br < 3) (hbc : bc < 3) :
    UnitOfCells (blockLoop (br * 3) (bc * 3)) := by
  interval_cases br <;> interval_cases bc <;> decide

theorem hiddenSingles_fold_run (w : SudokuGrid) (steps : List SolutionStep) (unit : String)
    (units : List (List (Nat × Nat))) (hunits : ∀ u ∈ units, IsUnit u ∧ UnitOfCells u)
    (acc : Bool × SudokuGrid × List SolutionStep) (hacc : Run w steps acc) :
    Run w steps ((unitValuePairs units).foldl (hiddenSingleStep unit) acc) :=
  foldl_inv (Run w steps) (fun uv => IsUnit uv.1 ∧ UnitOfCells uv.1) (hiddenSingleStep unit)
    (fun _ uv hb huv => hiddenSingleStep_run hb unit uv huv.1 huv.2) _
    (fun _ huv => hunits _ (mem_unitValuePairs huv).1) acc hacc

theorem applyHiddenSingles_run (w : SudokuGrid) (steps : List SolutionStep) :
    Run w steps (applyHiddenSingles w steps) := by
  unfold applyHiddenSingles
  simp only
  apply hiddenSingles_fold_run
  · intro u hu
    obtain ⟨br, hbr, hmem⟩ := List.mem_flatMap.1 hu
    obtain ⟨bc, hbc, rfl⟩ := List.mem_map.1 hmem
    exact ⟨isUnit_blockLoop br bc (List.mem_range.1 hbr) (List.mem_range.1 hbc),
      unitOfCells_blockLoop br bc (List.mem_range.1 hbr) (List.mem_range.1 hbc)⟩
  apply hiddenSingles_fold_run
  · intro u hu
    obtain ⟨c, hc, rfl⟩ := List.mem_map.1 hu
    exact ⟨isUnit_colCells c (List.mem_range.1 hc), unitOfCells_colCells c (List.mem_range.1 hc)⟩
  apply hiddenSingles_fold_run
  · intro u hu
    obtain ⟨r, hr, rfl⟩ := List.mem_map.1 hu
    exact ⟨isUnit_rowCells r (List.mem_range.1 hr), unitOfCells_rowCells r (List.mem_range.1 hr)⟩
  exact Run.initial w steps

/-- The chain of one round with any first result and any second technique: the three last
techniques never report progress. -/
theorem techniqueChain_generic (n : Bool × SudokuGrid × List SolutionStep)
    (hid : SudokuGrid → List SolutionStep → Bool × SudokuGrid × List SolutionStep) :
    (let r := n
     if r.1 then r
     else
      let r := hid r.2.1 r.2.2
      if r.1 then r
      else
        let r := applyNakedPairs r.2.1 r.2.2
        if r.1 then r
        else
          let r := applyPointingPairs r.2.1 r.2.2
          if r.1 then r
          else applyBoxLineReduction r.2.1 r.2.2) =
      if n.1 = true then n
      else if (hid n.2.1 n.2.2).1 = true then hid n.2.1 n.2.2
      else (false, (hid n.2.1 n.2.2).2.1, (hid n.2.1 n.2.2).2.2) := by
  dsimp only
  generalize hid n.2.1 n.2.2 = r
  obtain ⟨b, g, l⟩ := n
  obtain ⟨b2, g2, l2⟩ := r
  cases b
  · cases b2
    · rfl
    · rfl
  · rfl

theorem techniqueChain_eq (w : SudokuGrid) (steps : List SolutionStep) :
    techniqueChain w steps =
      if (applyNakedSingles w steps).1 = true then applyNakedSingles w steps
      else if (applyHiddenSingles (applyNakedSingles w steps).2.1
          (applyNakedSingles w steps).2.2).1 = true then
        applyHiddenSingles (applyNakedSingles w steps).2.1 (applyNakedSingles w steps).2.2
      else (false,
        (applyHiddenSingles (applyNakedSingles w steps).2.1
          (applyNakedSingles w steps).2.2).2.1,
        (applyHiddenSingles (applyNakedSingles w steps).2.1
          (applyNakedSingles w steps).2.2).2.2) :=
  techniqueChain_generic (applyNakedSingles w steps) applyHiddenSingles
/-- One round of the loop of `solveWithSteps` keeps the trace invariant; it reports no progress
exactly when neither `applyNakedSingles` nor `applyHiddenSingles` does. -/
theorem techniqueChain_run (w : SudokuGrid) (steps : List SolutionStep) :
    Run w steps (techniqueChain w steps) ∧
    ((techniqueChain w steps).1 = false ↔
      (applyNakedSingles w steps).1 = false ∧ (applyHiddenSingles w steps).1 = false) := by
  have hn := applyNakedSingles_run w steps
  have hh := applyHiddenSingles_run w steps
  rw [techniqueChain_eq]
  cases h1 : (applyNakedSingles w steps).1 with
  | true =>
    rw [if_pos rfl, h1]
    exact ⟨hn, by simp⟩
  | false =>
    have e1 := hn.of_no_progress h1
    rw [if_neg (by simp), e1]
    dsimp only
    cases h2 : (applyHiddenSingles w steps).1 with
    | true =>
      rw [if_pos rfl]
      exact ⟨hh, by simp [h2]⟩
    | false =>
      have e2 := hh.of_no_progress h2
      rw [if_neg (by simp), e2]
      exact ⟨Run.initial w steps, by simp⟩

theorem stepsLoop_succ (n : Nat) (p : Bool) (w : SudokuGrid) (steps : List SolutionStep) :
    stepsLoop (n + 1) p w steps =
      if (p && !w.isSolved) = true then
        stepsLoop n
          (if ((techniqueChain w steps).2.2.length == steps.length) = true then false
            else (techniqueChain w steps).1)
          (techniqueChain w steps).2.1 (techniqueChain w steps).2.2
      else (w, steps) :=
  rfl

/-- The loop of `solveWithSteps` appends justified steps and leaves their replay in the
working grid. -/
theorem stepsLoop_trace (n : Nat) (p : Bool) (w : SudokuGrid) (steps : List SolutionStep) :
    ∃ new, stepsLoop n p w steps = (replay w new, steps ++ new) ∧ TraceOk w new := by
  induction n generalizing p w steps with
  | zero => exact ⟨[], by simp [stepsLoop, replay], trivial⟩
  | succ n ih =>
    rw [stepsLoop_succ]
    by_cases hc : (p && !w.isSolved) = true
    · rw [if_pos hc]
      obtain ⟨new1, h1, h2, h3, _⟩ := (techniqueChain_run w steps).1
      obtain ⟨new2, h5, h6⟩ := ih
        (if ((techniqueChain w steps).2.2.length == steps.length) = true then false
          else (techniqueChain w steps).1)
        (techniqueChain w steps).2.1 (techniqueChain w steps).2.2
      refine ⟨new1 ++ new2, ?_, ?_⟩
      · rw [h5, h1, h2, replay_append, List.append_assoc]
      · rw [traceOk_append, ← h2]
        exact ⟨h3, h6⟩
    · rw [if_neg hc]
      exact ⟨[], by simp [replay], trivial⟩

/-- When the first round reports no progress the loop ends with the grid and the steps it
started with. -/
theorem stepsLoop_of_no_progress (n : Nat) (w : SudokuGrid) (steps : List SolutionStep)
    (h : (techniqueChain w steps).1 = false) : stepsLoop (n + 1) true w steps = (w, steps) := by
  have e := (techniqueChain_run w steps).1.of_no_progress h
  rw [stepsLoop_succ]
  by_cases hc : (true && !w.isSolved) = true
  · rw [if_pos hc, e]
    simp only [beq_self_eq_true, if_true]
    cases n with
    | zero => rfl
    | succ m =>
      rw [stepsLoop_succ]
      simp
  · rw [if_neg hc]

/-- When the first round reports progress on an unsolved grid the loop records a step. -/
theorem stepsLoop_of_progress (n : Nat) (w : SudokuGrid) (steps : List SolutionStep)
    (hs : w.isSolved = false) (h : (techniqueChain w steps).1 = true) :
    (stepsLoop (n + 1) true w steps).2 ≠ steps := by
  obtain ⟨new1, h1, _, _, h4⟩ := (techniqueChain_run w steps).1
  have hne := h4.1 h
  rw [stepsLoop_succ, if_pos (by simp [hs])]
  obtain ⟨new2, h5, _⟩ := stepsLoop_trace n
    (if ((techniqueChain w steps).2.2.length == steps.length) = true then false
      else (techniqueChain w steps).1)
    (techniqueChain w steps).2.1 (techniqueChain w steps).2.2
  rw [h5, h1]
  intro heq
  have hlen := congrArg List.length heq
  simp only [List.length_append] at hlen
  have : new1.length ≠ 0 := fun h0 => hne (List.length_eq_zero.1 h0)
  omega

theorem mem_getValidValues {w : SudokuGrid} {r c v : Nat} (h : v ∈ w.getValidValues r c) :
    w.isValidValue r c v = true := by
  unfold SudokuGrid.getValidValues at h
  split_ifs at h
  · simp at h
  · exact (List.mem_filter.1 h).2

/-- A justified step is the notice of a solved grid or writes a legal value into an empty
cell. -/
theorem StepOk.placement {w : SudokuGrid} {s : SolutionStep} (h : StepOk w s) :
    (s = solvedStep ∧ w.isSolved = true) ∨
      ∃ r c, EmptyCellOf w s r c ∧ w.isValidValue r c s.value = true := by
  rcases h with ⟨_, r, c, hcell, hv⟩ | ⟨_, r, c, hcell, u, _, hmem, hu⟩ | ⟨_, r, c, hcell, _, hv⟩ | h
  · right
    exact ⟨r, c, hcell, mem_getValidValues (by rw [hv]; exact List.mem_singleton_self _)⟩
  · right
    exact ⟨r, c, hcell, ((hu (r, c) hmem).2 rfl).2⟩
  · right
    refine ⟨r, c, hcell, mem_getValidValues ?_⟩
    unfold getCandidates at hv
    exact List.mem_of_mem_head? hv
  · left
    exact h

theorem applyStep_solvedStep (w : SudokuGrid) : applyStep w solvedStep = w := by
  unfold applyStep solvedStep
  simp

/-- Replaying a justified step does not add an empty cell, and removes one unless the step is
the notice of a solved grid. -/
theorem StepOk.emptyCount_applyStep {w : SudokuGrid} {s : SolutionStep} (h : StepOk w s) :
    emptyCount (applyStep w s) ≤ emptyCount w ∧
      (s ≠ solvedStep → emptyCount (applyStep w s) + 1 = emptyCount w) := by
  rcases h.placement with ⟨rfl, _⟩ | ⟨r, c, hcell, hv⟩
  · rw [applyStep_solvedStep]
    exact ⟨le_refl _, fun hne => absurd rfl hne⟩
  · rw [applyStep_of_emptyCellOf hcell]
    obtain ⟨hr, hc, _, _, h0⟩ := hcell
    rw [SudokuGrid.getValue_eq_cell] at h0
    obtain ⟨_, _, hv1, hv9, _⟩ := (w.isValidValue_iff r c s.value).1 hv
    have := emptyCount_setValue w r c s.value hr hc (by omega) hv9 h0
    exact ⟨by omega, fun _ => this⟩

theorem TraceOk.emptyCount_replay {w : SudokuGrid} {steps : List SolutionStep}
    (h : TraceOk w steps) : emptyCount (replay w steps) ≤ emptyCount w := by
  induction steps generalizing w with
  | nil => exact le_refl _
  | cons s rest ih =>
    obtain ⟨hs, hrest⟩ := h
    exact (ih hrest).trans hs.emptyCount_applyStep.1

theorem solveWithSteps_zero (g : SudokuGrid) :
    solveWithSteps 0 g = solveWithStepsBody (fun _ => none) g :=
  rfl

theorem solveWithSteps_succ (fuel : Nat) (g : SudokuGrid) :
    solveWithSteps (fuel + 1) g = solveWithStepsBody (solveWithSteps fuel) g :=
  rfl

/-- The body of `solveWithSteps` on a valid grid that is not solved, in terms of the result
`(w, steps)` of the loop. -/
theorem solveWithStepsBody_unsolved (recurse : SudokuGrid → Option (List SolutionStep))
    (g : SudokuGrid) (hv : g.isValid = true) (hs : g.isSolved = false) :
    solveWithStepsBody recurse g =
      if (stepsLoop 100 true g []).1.isSolved = true then some (stepsLoop 100 true g []).2
      else
        match findNextEmptyCell (stepsLoop 100 true g []).1 0 0 with
        | none => some (stepsLoop 100 true g []).2
        | some nextCell =>
          if getCandidates (stepsLoop 100 true g []).1 nextCell.1 nextCell.2 = [] then
            some (stepsLoop 100 true g []).2
          else
            (recurse ((stepsLoop 100 true g []).1.setValue nextCell.1 nextCell.2
              ((getCandidates (stepsLoop 100 true g []).1 nextCell.1 nextCell.2).headD 0))).map
              fun remainingSteps => (stepsLoop 100 true g []).2 ++
                [guessStep nextCell.1 nextCell.2
                  ((getCandidates (stepsLoop 100 true g []).1 nextCell.1 nextCell.2).headD 0)] ++
                remainingSteps := by
  unfold solveWithStepsBody
  simp only [hv, hs, Bool.not_true, Bool.false_eq_true, if_false]
  rw [copyGrid_eq]
  generalize stepsLoop 100 true g [] = r
  cases hsol : r.1.isSolved with
  | true => simp
  | false =>
    simp only [Bool.not_false, if_true, Bool.false_eq_true, if_false]
    cases hf : findNextEmptyCell r.1 0 0 with
    | none => rfl
    | some nextCell =>
      simp only
      cases hcand : getCandidates r.1 nextCell.1 nextCell.2 with
      | nil => simp
      | cons v rest =>
        simp only [List.isEmpty_cons, Bool.not_false, if_true, List.headD_cons]
        rw [if_neg (by simp)]
        cases recurse (r.1.setValue nextCell.1 nextCell.2 v) with
        | none => rfl
        | some l => rfl

theorem applyStep_guessStep (w : SudokuGrid) (r c v : Nat) :
    applyStep w (guessStep r c v) = w.setValue r c v :=
  applyStep_mk w r c v _ _

/-- The body of `solveWithSteps` returns justified steps when the recursive call does so on
every grid with fewer empty cells. -/
theorem solveWithStepsBody_trace (recurse : SudokuGrid → Option (List SolutionStep))
    (g : SudokuGrid)
    (hrec : ∀ w, emptyCount w + 1 ≤ emptyCount g →
      ∃ steps, recurse w = some steps ∧ TraceOk w steps) :
    ∃ steps, solveWithStepsBody recurse g = some steps ∧ TraceOk g steps := by
  cases hv : g.isValid with
  | false =>
    refine ⟨[], ?_, trivial⟩
    unfold solveWithStepsBody
    simp [hv]
  | true =>
    cases hs : g.isSolved with
    | true =>
      refine ⟨[solvedStep], ?_, Or.inr (Or.inr (Or.inr ⟨rfl, hs⟩)), trivial⟩
      unfold solveWithStepsBody
      simp [hv, hs]
    | false =>
      rw [solveWithStepsBody_unsolved recurse g hv hs]
      obtain ⟨new, hloop, htr⟩ := stepsLoop_trace 100 true g []
      rw [hloop]
      simp only [List.nil_append]
      by_cases hsol : (replay g new).isSolved = true
      · rw [if_pos hsol]
        exact ⟨new, rfl, htr⟩
      rw [if_neg hsol]
      cases hf : findNextEmptyCell (replay g new) 0 0 with
      | none => exact ⟨new, rfl, htr⟩
      | some nextCell =>
        obtain ⟨r, c⟩ := nextCell
        simp only
        by_cases hcand : getCandidates (replay g new) r c = []
        · rw [if_pos hcand]
          exact ⟨new, rfl, htr⟩
        rw [if_neg hcand]
        obtain ⟨v, rest, hvr⟩ := List.exists_cons_of_ne_nil hcand
        rw [hvr, List.headD_cons]
        obtain ⟨hr, hc, h0, _⟩ := findNextEmptyCell_some hf
        have hcell : EmptyCellOf (replay g new) (guessStep r c v) r c :=
          ⟨hr, hc, rfl, rfl, by rw [SudokuGrid.getValue_eq_cell]; exact h0⟩
        have hok : StepOk (replay g new) (guessStep r c v) :=
          Or.inr (Or.inr (Or.inl ⟨rfl, r, c, hcell, hf, by rw [hvr]; rfl⟩))
        have hne : guessStep r c v ≠ solvedStep := fun heq =>
          absurd (congrArg SolutionStep.technique heq)
            (show "backtrack_guess" ≠ "validation" by decide)
        have hcount := hok.emptyCount_applyStep.2 hne
        rw [applyStep_guessStep] at hcount
        have hle := htr.emptyCount_replay
        obtain ⟨steps, hsteps, htrace⟩ := hrec ((replay g new).setValue r c v) (by omega)
        rw [hsteps]
        refine ⟨new ++ [guessStep r c v] ++ steps, rfl, ?_⟩
        rw [traceOk_append, traceOk_append, replay_append]
        refine ⟨⟨htr, hok, trivial⟩, ?_⟩
        show TraceOk (applyStep (replay g new) (guessStep r c v)) steps
        rw [applyStep_guessStep]
        exact htrace

/-- With enough fuel `solveWithSteps` returns, and each of its steps is justified in the grid
obtained by replaying the steps before it. -/
theorem solveWithSteps_trace (fuel : Nat) (g : SudokuGrid) (hfuel : emptyCount g ≤ fuel) :
    ∃ steps, solveWithSteps fuel g = some steps ∧ TraceOk g steps := by
  induction fuel generalizing g with
  | zero =>
    rw [solveWithSteps_zero]
    exact solveWithStepsBody_trace _ g fun w hw => by omega
  | succ fuel ih =>
    rw [solveWithSteps_succ]
    exact solveWithStepsBody_trace _ g fun w hw => ih w (by omega)

theorem traceOk_get {g : SudokuGrid} {steps : List SolutionStep} (h : TraceOk g steps)
    (i : Nat) (hi : i < steps.length) :
    StepOk (replay g (steps.take i)) (steps.get ⟨i, hi⟩) := by
  induction steps generalizing g i with
  | nil => exact absurd hi (Nat.not_lt_zero _)
  | cons s rest ih =>
    obtain ⟨hs, hrest⟩ := h
    cases i with
    | zero => exact hs
    | succ j => exact ih hrest j (Nat.lt_of_succ_lt_succ hi)

theorem isValid_false_iff (g : SudokuGrid) : g.isValid = false ↔ ¬ NoClash g := by
  rw [← g.isValid_iff, Bool.not_eq_true]

/-- C16: for a grid that is not valid, that is, one in which a non-zero value is repeated in
some row, column or box, `SudokuSolver.solve` returns `false` and leaves the grid as it is, and
`solveWithSteps` returns the empty step list. -/
theorem invalid_grid_rejected (fuel : Nat) (g : SudokuGrid) (h : ¬ NoClash g) :
    g.isValid = false ∧ SudokuSolver.solve fuel g = some (false, g) ∧
    solveWithSteps fuel g = some [] := by
  have hv := (isValid_false_iff g).2 h
  refine ⟨hv, ?_, ?_⟩
  · unfold SudokuSolver.solve
    simp [hv]
  · have hbody : ∀ recurse, solveWithStepsBody recurse g = some [] := by
      intro recurse
      unfold solveWithStepsBody
      simp [hv]
    cases fuel with
    | zero => exact hbody _
    | succ n => exact hbody _

theorem invalidFullGrid_noClash : ¬ NoClash invalidFullGrid := by
  rw [← isValid_false_iff]
  decide

/-- Witness of C16: the solved sample puzzle with a second 3 in its first row. -/
theorem invalid_grid_rejected_witness :
    ¬ NoClash invalidFullGrid ∧
    (invalidFullGrid.isValid = false ∧
      SudokuSolver.solve 0 invalidFullGrid = some (false, invalidFullGrid) ∧
      solveWithSteps 0 invalidFullGrid = some []) :=
  ⟨invalidFullGrid_noClash, invalid_grid_rejected 0 invalidFullGrid invalidFullGrid_noClash⟩

/-- On a grid without empty cell the counting search counts one solution without looking at
the values. -/
theorem isUniqueSolution_of_full (fuel : Nat) (g : SudokuGrid)
    (hfull : ∀ r c, r < 9 → c < 9 → g.cell r c ≠ 0) :
    isUniqueSolution (fuel + 1) g = some true := by
  have hnone : findNextEmptyCell g 0 0 = none := by
    cases hf : findNextEmptyCell g 0 0 with
    | none => rfl
    | some cell =>
      obtain ⟨r, c⟩ := cell
      obtain ⟨hr, hc, h0, _⟩ := findNextEmptyCell_some hf
      exact absurd h0 (hfull r c hr hc)
  unfold isUniqueSolution
  simp only
  rw [copyGrid_eq]
  unfold countSolutions
  simp [m_maxSolutions, hnone]

/-- C17 (code bug): `isUniqueSolution` never tests the validity of its grid. For the solved
sample puzzle with a second 3 in its first row, which is not valid, it returns `true` with any
positive fuel, where the claim requires `false`. -/
theorem isUniqueSolution_accepts_invalid (fuel : Nat) :
    invalidFullGrid.isValid = false ∧ ¬ NoClash invalidFullGrid ∧
    isUniqueSolution (fuel + 1) invalidFullGrid = some true :=
  ⟨by decide, invalidFullGrid_noClash,
    isUniqueSolution_of_full fuel invalidFullGrid (emptyCount_eq_zero (by decide))⟩

theorem deadEndGrid_no_completion : ∀ h, ¬ Completion deadEndGrid h := by
  intro h hc
  have hvalid := completion_isValidValue hc 0 0 (by decide) (by decide)
  have hle := h.cell_le 0 0
  have hnone : ∀ v < 10, deadEndGrid.isValidValue 0 0 v = false := by decide
  rw [hnone (h.cell 0 0) (by omega)] at hvalid
  exact Bool.noConfusion hvalid

theorem solveWithSteps_deadEndGrid :
    solveWithSteps 82 deadEndGrid = some [⟨8, 8, 9, explainNakedSingle 8 8 9, "naked_single"⟩] := by
  decide!

/-- Counterexample to C18: the grid `deadEndGrid` is valid and has no completion, since no
value is legal at its empty cell `(0, 0)`; yet `solveWithSteps` returns the naked single that
it placed at `(8, 8)`. -/
theorem solveWithSteps_dead_end_keeps_steps :
    deadEndGrid.isValid = true ∧ (∀ h, ¬ Completion deadEndGrid h) ∧
    solveWithSteps 82 deadEndGrid = some [⟨8, 8, 9, explainNakedSingle 8 8 9, "naked_single"⟩] ∧
    solveWithSteps 82 deadEndGrid ≠ some [] :=
  ⟨by decide, deadEndGrid_no_completion, solveWithSteps_deadEndGrid,
    by rw [solveWithSteps_deadEndGrid]; decide⟩

/-- A valid grid that is not solved has an empty cell, which `findNextEmptyCell` finds. -/
theorem findNextEmptyCell_of_unsolved (g : SudokuGrid) (hv : g.isValid = true)
    (hs : g.isSolved = false) : ∃ cell, findNextEmptyCell g 0 0 = some cell := by
  cases hf : findNextEmptyCell g 0 0 with
  | some cell => exact ⟨cell, rfl⟩
  | none =>
    have hfull := full_of_findNextEmptyCell_none (filledBefore_zero g) hf
    have : g.isSolved = true := (g.isSolved_iff).2 ⟨(g.isValid_iff).1 hv, hfull⟩
    rw [hs] at this
    exact Bool.noConfusion this

/-- The steps returned by the body of `solveWithSteps` on a valid grid that is not solved start
with the steps of the loop. -/
theorem solveWithStepsBody_prefix (recurse : SudokuGrid → Option (List SolutionStep))
    (g : SudokuGrid) (hv : g.isValid = true) (hs : g.isSolved = false)
    (steps : List SolutionStep) (h : solveWithStepsBody recurse g = some steps) :
    ∃ rest, steps = (stepsLoop 100 true g []).2 ++ rest := by
  rw [solveWithStepsBody_unsolved recurse g hv hs] at h
  generalize stepsLoop 100 true g [] = r at h ⊢
  by_cases hsol : r.1.isSolved = true
  · rw [if_pos hsol] at h
    exact ⟨[], by rw [← Option.some.inj h, List.append_nil]⟩
  rw [if_neg hsol] at h
  cases hf : findNextEmptyCell r.1 0 0 with
  | none =>
    rw [hf] at h
    exact ⟨[], by rw [← Option.some.inj h, List.append_nil]⟩
  | some cell =>
    rw [hf] at h
    simp only at h
    by_cases hcand : getCandidates r.1 cell.1 cell.2 = []
    · rw [if_pos hcand] at h
      exact ⟨[], by rw [← Option.some.inj h, List.append_nil]⟩
    · rw [if_neg hcand] at h
      obtain ⟨rem, _, hrem⟩ := Option.map_eq_some'.1 h
      exact ⟨guessStep cell.1 cell.2 ((getCandidates r.1 cell.1 cell.2).headD 0) :: rem,
        by rw [← hrem, List.append_assoc]; rfl⟩

/-- The body of `solveWithSteps` on a valid grid that is not solved and on which the first
round of the loop makes no progress. -/
theorem solveWithStepsBody_of_no_progress (recurse : SudokuGrid → Option (List SolutionStep))
    (g : SudokuGrid) (hv : g.isValid = true) (hs : g.isSolved = false)
    (hp : (techniqueChain g []).1 = false) (cell : Nat × Nat)
    (hcell : findNextEmptyCell g 0 0 = some cell) :
    solveWithStepsBody recurse g =
      if getCandidates g cell.1 cell.2 = [] then some []
      else (recurse (g.setValue cell.1 cell.2 ((getCandidates g cell.1 cell.2).headD 0))).map
        fun remainingSteps =>
          [guessStep cell.1 cell.2 ((getCandidates g cell.1 cell.2).headD 0)] ++ remainingSteps := by
  rw [solveWithStepsBody_unsolved recurse g hv hs, stepsLoop_of_no_progress 99 g [] hp]
  simp only [hs, Bool.false_eq_true, if_false, hcell, List.nil_append]

/-- C18 (amended): for a valid grid that has no completion, `solveWithSteps` returns with
fuel 81 or more, and the returned step list is empty exactly when neither `applyNakedSingles`
nor `applyHiddenSingles` places a value in the grid and the first empty cell in row-major
order has no candidate; steps recorded before a dead end is reached are kept. -/
theorem solveWithSteps_empty_iff (fuel : Nat) (g : SudokuGrid) (hv : g.isValid = true)
    (hno : ∀ h, ¬ Completion g h) (hfuel : 81 ≤ fuel) :
    ∃ steps, solveWithSteps fuel g = some steps ∧
      (steps = [] ↔
        (applyNakedSingles g []).1 = false ∧ (applyHiddenSingles g []).1 = false ∧
        ∃ cell, findNextEmptyCell g 0 0 = some cell ∧ getCandidates g cell.1 cell.2 = []) := by
  have hs : g.isSolved = false := by
    cases hsol : g.isSolved with
    | false => rfl
    | true => exact absurd ⟨hsol, Extends.refl g⟩ (hno g)
  obtain ⟨steps, hsteps, _⟩ := solveWithSteps_trace fuel g ((emptyCount_le g).trans hfuel)
  refine ⟨steps, hsteps, ?_⟩
  obtain ⟨recurse, hrec⟩ : ∃ recurse, solveWithSteps fuel g = solveWithStepsBody recurse g := by
    cases fuel with
    | zero => exact ⟨_, rfl⟩
    | succ n => exact ⟨_, rfl⟩
  rw [hrec] at hsteps
  obtain ⟨cell, hcell⟩ := findNextEmptyCell_of_unsolved g hv hs
  rw [← and_assoc, ← (techniqueChain_run g []).2]
  cases hp : (techniqueChain g []).1 with
  | false =>
    rw [solveWithStepsBody_of_no_progress recurse g hv hs hp cell hcell] at hsteps
    by_cases hcand : getCandidates g cell.1 cell.2 = []
    · rw [if_pos hcand] at hsteps
      rw [← Option.some.inj hsteps]
      simp only [true_iff]
      exact ⟨trivial, cell, hcell, hcand⟩
    · rw [if_neg hcand] at hsteps
      obtain ⟨rem, _, hrem⟩ := Option.map_eq_some'.1 hsteps
      rw [← hrem]
      constructor
      · intro h
        simp at h
      · rintro ⟨_, cell', hcell', hcand'⟩
        rw [hcell] at hcell'
        rw [Option.some.inj hcell'] at hcand
        exact absurd hcand' hcand
  | true =>
    obtain ⟨rest, hrest⟩ := solveWithStepsBody_prefix recurse g hv hs steps hsteps
    have hne := stepsLoop_of_progress 99 g [] hs hp
    constructor
    · intro h
      rw [h] at hrest
      exact absurd (List.append_eq_nil.1 hrest.symm).1 hne
    · rintro ⟨h, _⟩
      exact Bool.noConfusion h

/-- Witness of C18 (amended): the grid `deadEndGrid`. -/
theorem solveWithSteps_empty_iff_witness :
    deadEndGrid.isValid = true ∧ (∀ h, ¬ Completion deadEndGrid h) ∧ 81 ≤ 82 ∧
    ∃ steps, solveWithSteps 82 deadEndGrid = some steps ∧
      (steps = [] ↔
        (applyNakedSingles deadEndGrid []).1 = false ∧
        (applyHiddenSingles deadEndGrid []).1 = false ∧
        ∃ cell, findNextEmptyCell deadEndGrid 0 0 = some cell ∧
          getCandidates deadEndGrid cell.1 cell.2 = []) :=
  ⟨by decide, deadEndGrid_no_completion, by decide,
    solveWithSteps_empty_iff 82 deadEndGrid (by decide) deadEndGrid_no_completion (by decide)⟩

/-- C19: with fuel 81 or more `solveWithSteps` returns on every grid, and for every returned
step, in the grid obtained by replaying all earlier steps on the input: if the technique is
`naked_single`, the step's cell is empty and `getValidValues` of the cell is the one-element
list of the step's value; if the technique is `hidden_single`, the step's cell is empty and is
the only empty cell of its row, of its column or of its box in which the value is legal. -/
theorem solveWithSteps_logical_steps (fuel : Nat) (g : SudokuGrid) (hfuel : 81 ≤ fuel) :
    ∃ steps, solveWithSteps fuel g = some steps ∧
      ∀ (i : Nat) (hi : i < steps.length),
        ((steps.get ⟨i, hi⟩).technique = "naked_single" →
          NakedSingleAt (replay g (steps.take i)) (steps.get ⟨i, hi⟩)) ∧
        ((steps.get ⟨i, hi⟩).technique = "hidden_single" →
          HiddenSingleAt (replay g (steps.take i)) (steps.get ⟨i, hi⟩)) := by
  obtain ⟨steps, hsteps, htrace⟩ := solveWithSteps_trace fuel g ((emptyCount_le g).trans hfuel)
  refine ⟨steps, hsteps, fun i hi => ?_⟩
  have hok := traceOk_get htrace i hi
  generalize steps.get ⟨i, hi⟩ = s at hok
  generalize replay g (steps.take i) = w at hok
  constructor
  · intro ht
    rcases hok with ⟨_, h⟩ | ⟨ht', _⟩ | ⟨ht', _⟩ | ⟨rfl, _⟩
    · exact h
    · rw [ht] at ht'
      exact absurd ht' (by decide)
    · rw [ht] at ht'
      exact absurd ht' (by decide)
    · exact absurd ht (by decide)
  · intro ht
    rcases hok with ⟨ht', _⟩ | ⟨_, h⟩ | ⟨ht', _⟩ | ⟨rfl, _⟩
    · rw [ht] at ht'
      exact absurd ht' (by decide)
    · exact h
    · rw [ht] at ht'
      exact absurd ht' (by decide)
    · exact absurd ht (by decide)

/-- Witness of C19: the sample puzzle with fuel 81. -/
theorem solveWithSteps_logical_steps_witness :
    81 ≤ 81 ∧
    ∃ steps, solveWithSteps 81 sampleGrid = some steps ∧
      ∀ (i : Nat) (hi : i < steps.length),
        ((steps.get ⟨i, hi⟩).technique = "naked_single" →
          NakedSingleAt (replay sampleGrid (steps.take i)) (steps.get ⟨i, hi⟩)) ∧
        ((steps.get ⟨i, hi⟩).technique = "hidden_single" →
          HiddenSingleAt (replay sampleGrid (steps.take i)) (steps.get ⟨i, hi⟩)) :=
  ⟨by decide, solveWithSteps_logical_steps 81 sampleGrid (by decide)⟩

/-! ## Theorems: the caller's object -/

theorem Heap.read_snoc_new {α : Type} (objs : List α) (x d : α) :
    (Heap.mk (objs ++ [x])).read objs.length d = x := by
  unfold Heap.read
  exact getD_append_length objs [] x d

theorem Heap.read_snoc_old {α : Type} (objs : List α) (x d : α) (a : Nat)
    (ha : a < objs.length) : (Heap.mk (objs ++ [x])).read a d = (Heap.mk objs).read a d := by
  unfold Heap.read
  exact List.getD_append _ _ _ _ ha

theorem Heap.write_snoc {α : Type} (objs : List α) (x y : α) :
    (Heap.mk (objs ++ [x])).write objs.length y = Heap.mk (objs ++ [y]) := by
  unfold Heap.write
  simp

/-- Writing back what was read changes nothing. -/
theorem Heap.write_read {α : Type} (h : Heap α) (a : Nat) (d : α) :
    h.write a (h.read a d) = h := by
  obtain ⟨objs⟩ := h
  unfold Heap.write Heap.read
  congr 1
  apply List.ext_getElem?
  intro i
  by_cases hi : i = a
  · subst hi
    by_cases hlt : i < objs.length
    · rw [List.getElem?_set_self hlt, List.getD_eq_getElem _ _ hlt, List.getElem?_eq_getElem hlt]
    · rw [List.set_eq_of_length_le (Nat.le_of_not_lt hlt)]
  · rw [List.getElem?_set_ne (fun h => hi h.symm)]

theorem Heap.write_write {α : Type} (h : Heap α) (a : Nat) (x y : α) :
    (h.write a x).write a y = h.write a y := by
  unfold Heap.write
  simp

theorem Heap.read_write_same {α : Type} (h : Heap α) (a : Nat) (x d : α)
    (ha : a < h.objects.length) : (h.write a x).read a d = x := by
  unfold Heap.write Heap.read
  rw [List.getD_eq_getElem _ _ (by rw [List.length_set]; exact ha)]
  simp

/-- The loop of calls `state->applyMove(move)` replaces the cube behind `state` by the result
of `applyMoves`. -/
theorem applyMovesAt_eq (h : Heap CubeState) (state : Nat) (moves : List String) :
    applyMovesAt h state moves = h.write state (applyMoves (cubeAt h state) moves) := by
  by_cases hlt : state < h.objects.length
  · induction moves generalizing h with
    | nil => exact (h.write_read state initializeSolvedState).symm
    | cons m rest ih =>
      show applyMovesAt (h.write state (applyMove (cubeAt h state) m)) state rest = _
      rw [ih _ (by unfold Heap.write; rw [List.length_set]; exact hlt), Heap.write_write]
      unfold cubeAt
      rw [Heap.read_write_same h state _ _ hlt]
      rfl
  · have hw : ∀ x, h.write state x = h := by
      intro x
      unfold Heap.write
      rw [List.set_eq_of_length_le (Nat.le_of_not_lt hlt)]
    rw [hw]
    induction moves with
    | nil => rfl
    | cons m rest ih =>
      show applyMovesAt (h.write state (applyMove (cubeAt h state) m)) state rest = h
      rw [hw]
      exact ih

/-- Through a pointer to an object, `beginnerMethodSolve` returns what it returns on the value
of the object, and writes behind that pointer only. -/
theorem beginnerMethodSolveAt_eq (h : Heap CubeState) (state : Nat) (rng : Rng)
    (hlt : state < h.objects.length) :
    (beginnerMethodSolveAt h state rng).1 = beginnerMethodSolve (cubeAt h state) rng ∧
    ∃ x, (beginnerMethodSolveAt h state rng).2 = h.write state x := by
  have hread : ∀ x, cubeAt (h.write state x) state = x := fun x =>
    Heap.read_write_same h state x _ hlt
  unfold beginnerMethodSolveAt beginnerMethodSolve
  simp only [applyMovesAt_eq, Heap.write_write, hread, true_and]
  exact ⟨_, rfl⟩

/-- Through a pointer to an object, `CubeSolver.solve` returns what it returns on the value of
the object, and every object that existed before the call is the same after it. -/
theorem solveAt_frame (h : Heap CubeState) (cubeState : Nat) (rng : Rng)
    (hlt : cubeState < h.objects.length) :
    (CubeSolver.solveAt h cubeState rng).1 = CubeSolver.solve (cubeAt h cubeState) rng ∧
    ∀ a, a < h.objects.length →
      cubeAt (CubeSolver.solveAt h cubeState rng).2 a = cubeAt h a := by
  obtain ⟨objs⟩ := h
  unfold CubeSolver.solveAt CubeSolver.solve
  cases hv : (cubeAt ⟨objs⟩ cubeState).isValid with
  | false => exact ⟨rfl, fun _ _ => rfl⟩
  | true =>
    cases hs : (cubeAt ⟨objs⟩ cubeState).isSolved with
    | true => exact ⟨rfl, fun _ _ => rfl⟩
    | false =>
      simp only [Bool.not_true, Bool.false_eq_true, if_false, copyAt, Heap.alloc]
      obtain ⟨h1, x, h2⟩ := beginnerMethodSolveAt_eq
        ⟨objs ++ [⟨(cubeAt ⟨objs⟩ cubeState).m_faces⟩]⟩ objs.length rng (by simp)
      have hcopy : cubeAt ⟨objs ++ [⟨(cubeAt ⟨objs⟩ cubeState).m_faces⟩]⟩ objs.length
          = (cubeAt ⟨objs⟩ cubeState).copy := Heap.read_snoc_new _ _ _
      rw [hcopy] at h1
      rw [h1, h2, Heap.write_snoc]
      have hframe : ∀ a, a < objs.length → cubeAt ⟨objs ++ [x]⟩ a = cubeAt ⟨objs⟩ a :=
        fun a ha => Heap.read_snoc_old objs x _ a ha
      split_ifs
      · exact ⟨rfl, hframe⟩
      · exact ⟨rfl, hframe⟩

/-- `copyGrid` through a pointer to an object puts the copy of the object at a new address. -/
theorem copyGridAt_eq (objs : List SudokuGrid) (original : Nat) (hlt : original < objs.length) :
    copyGridAt ⟨objs⟩ original = (⟨objs ++ [copyGrid (gridAt ⟨objs⟩ original)]⟩, objs.length) := by
  have hfold : ∀ (l : List (Nat × Nat)) (x : SudokuGrid),
      l.foldl (fun (h : Heap SudokuGrid) p => h.write objs.length
        ((gridAt h objs.length).setValue p.1 p.2 ((gridAt h original).getValue p.1 p.2)))
        ⟨objs ++ [x]⟩
      = ⟨objs ++ [l.foldl (fun copy p =>
          copy.setValue p.1 p.2 ((gridAt ⟨objs⟩ original).getValue p.1 p.2)) x]⟩ := by
    intro l
    induction l with
    | nil => intro x; rfl
    | cons p rest ih =>
      intro x
      rw [List.foldl_cons, List.foldl_cons]
      have h1 : gridAt ⟨objs ++ [x]⟩ objs.length = x := Heap.read_snoc_new objs x _
      have h2 : gridAt ⟨objs ++ [x]⟩ original = gridAt ⟨objs⟩ original :=
        Heap.read_snoc_old objs x _ original hlt
      rw [h1, h2, Heap.write_snoc, ih]
  unfold copyGridAt copyGrid
  simp only [Heap.alloc]
  rw [hfold]

/-- The body of `solveWithSteps` through a pointer to a valid grid that is not solved, in terms
of the result of the loop: the working grid is a new object, and nothing else is written. -/
theorem solveWithStepsBodyAt_unsolved
    (recurseAt : Heap SudokuGrid → Nat → Option (List SolutionStep × Heap SudokuGrid))
    (objs : List SudokuGrid) (grid : Nat) (hlt : grid < objs.length)
    (hv : (gridAt ⟨objs⟩ grid).isValid = true) (hs : (gridAt ⟨objs⟩ grid).isSolved = false) :
    solveWithStepsBodyAt recurseAt ⟨objs⟩ grid =
      if (stepsLoop 100 true (gridAt ⟨objs⟩ grid) []).1.isSolved = true then
        some ((stepsLoop 100 true (gridAt ⟨objs⟩ grid) []).2,
          ⟨objs ++ [(stepsLoop 100 true (gridAt ⟨objs⟩ grid) []).1]⟩)
      else
        match findNextEmptyCell (stepsLoop 100 true (gridAt ⟨objs⟩ grid) []).1 0 0 with
        | none => some ((stepsLoop 100 true (gridAt ⟨objs⟩ grid) []).2,
            ⟨objs ++ [(stepsLoop 100 true (gridAt ⟨objs⟩ grid) []).1]⟩)
        | some nextCell =>
          if getCandidates (stepsLoop 100 true (gridAt ⟨objs⟩ grid) []).1
              nextCell.1 nextCell.2 = [] then
            some ((stepsLoop 100 true (gridAt ⟨objs⟩ grid) []).2,
              ⟨objs ++ [(stepsLoop 100 true (gridAt ⟨objs⟩ grid) []).1]⟩)
          else
            (recurseAt
              ⟨objs ++ [(stepsLoop 100 true (gridAt ⟨objs⟩ grid) []).1.setValue
                nextCell.1 nextCell.2
                ((getCandidates (stepsLoop 100 true (gridAt ⟨objs⟩ grid) []).1
                  nextCell.1 nextCell.2).headD 0)]⟩ objs.length).map
              fun res => ((stepsLoop 100 true (gridAt ⟨objs⟩ grid) []).2 ++
                [guessStep nextCell.1 nextCell.2
                  ((getCandidates (stepsLoop 100 true (gridAt ⟨objs⟩ grid) []).1
                    nextCell.1 nextCell.2).headD 0)] ++ res.1, res.2) := by
  have hnew : ∀ x : SudokuGrid, gridAt ⟨objs ++ [x]⟩ objs.length = x :=
    fun x => Heap.read_snoc_new objs x _
  unfold solveWithStepsBodyAt
  rw [if_neg (by rw [hv]; simp), if_neg (by rw [hs]; simp), copyGridAt_eq objs grid hlt,
    copyGrid_eq]
  unfold stepsLoopAt
  dsimp only
  rw [hnew]
  generalize stepsLoop 100 true (gridAt ⟨objs⟩ grid) [] = r
  simp only [hnew, Heap.write_snoc]
  cases hsol : r.1.isSolved with
  | true => simp
  | false =>
    simp only [Bool.not_false, if_true, Bool.false_eq_true, if_false]
    cases hf : findNextEmptyCell r.1 0 0 with
    | none => rfl
    | some nextCell =>
      simp only
      cases hcand : getCandidates r.1 nextCell.1 nextCell.2 with
      | nil => simp
      | cons v rest =>
        simp only [List.isEmpty_cons, Bool.not_false, if_true, List.headD_cons]
        rw [if_neg (by simp)]
        cases recurseAt ⟨objs ++ [r.1.setValue nextCell.1 nextCell.2 v]⟩ objs.length with
        | none => rfl
        | some l => rfl

/-- The body of `solveWithSteps` through a pointer agrees with the body on values and leaves
every object that existed before the call as it was, when the recursive call does so. -/
theorem solveWithStepsBodyAt_frame
    (recurseAt : Heap SudokuGrid → Nat → Option (List SolutionStep × Heap SudokuGrid))
    (recurse : SudokuGrid → Option (List SolutionStep))
    (hrec : ∀ (h : Heap SudokuGrid) (a : Nat), a < h.objects.length →
      (recurseAt h a).map Prod.fst = recurse (gridAt h a) ∧
      ∀ res, recurseAt h a = some res →
        ∀ b, b < h.objects.length → gridAt res.2 b = gridAt h b)
    (h : Heap SudokuGrid) (grid : Nat) (hlt : grid < h.objects.length) :
    (solveWithStepsBodyAt recurseAt h grid).map Prod.fst
      = solveWithStepsBody recurse (gridAt h grid) ∧
    ∀ res, solveWithStepsBodyAt recurseAt h grid = some res →
      ∀ b, b < h.objects.length → gridAt res.2 b = gridAt h b := by
  obtain ⟨objs⟩ := h
  have hold : ∀ (x : SudokuGrid) (b : Nat), b < objs.length →
      gridAt ⟨objs ++ [x]⟩ b = gridAt ⟨objs⟩ b := fun x b hb => Heap.read_snoc_old objs x _ b hb
  have hnew : ∀ x : SudokuGrid, gridAt ⟨objs ++ [x]⟩ objs.length = x :=
    fun x => Heap.read_snoc_new objs x _
  have hsame : ∀ (steps : List SolutionStep) (res : List SolutionStep × Heap SudokuGrid),
      some (steps, (⟨objs⟩ : Heap SudokuGrid)) = some res →
      ∀ b, b < objs.length → gridAt res.2 b = gridAt ⟨objs⟩ b := by
    intro steps res hres b _
    rw [← Option.some.inj hres]
  have hsnoc : ∀ (steps : List SolutionStep) (x : SudokuGrid)
      (res : List SolutionStep × Heap SudokuGrid),
      some (steps, (⟨objs ++ [x]⟩ : Heap SudokuGrid)) = some res →
      ∀ b, b < objs.length → gridAt res.2 b = gridAt ⟨objs⟩ b := by
    intro steps x res hres b hb
    rw [← Option.some.inj hres]
    exact hold x b hb
  cases hv : (gridAt ⟨objs⟩ grid).isValid with
  | false =>
    have e1 : solveWithStepsBodyAt recurseAt ⟨objs⟩ grid = some ([], ⟨objs⟩) := by
      unfold solveWithStepsBodyAt
      rw [if_pos (by rw [hv]; rfl)]
    have e2 : solveWithStepsBody recurse (gridAt ⟨objs⟩ grid) = some [] := by
      unfold solveWithStepsBody
      rw [if_pos (by rw [hv]; rfl)]
    rw [e1, e2]
    exact ⟨rfl, hsame _⟩
  | true =>
    cases hs : (gridAt ⟨objs⟩ grid).isSolved with
    | true =>
      have e1 : solveWithStepsBodyAt recurseAt ⟨objs⟩ grid = some ([solvedStep], ⟨objs⟩) := by
        unfold solveWithStepsBodyAt
        rw [if_neg (by rw [hv]; simp), if_pos hs]
      have e2 : solveWithStepsBody recurse (gridAt ⟨objs⟩ grid) = some [solvedStep] := by
        unfold solveWithStepsBody
        rw [if_neg (by rw [hv]; simp), if_pos hs]
      rw [e1, e2]
      exact ⟨rfl, hsame _⟩
    | false =>
      rw [solveWithStepsBodyAt_unsolved recurseAt objs grid hlt hv hs,
        solveWithStepsBody_unsolved recurse _ hv hs]
      generalize stepsLoop 100 true (gridAt ⟨objs⟩ grid) [] = r
      by_cases hsol : r.1.isSolved = true
      · rw [if_pos hsol, if_pos hsol]
        exact ⟨rfl, hsnoc _ _⟩
      rw [if_neg hsol, if_neg hsol]
      cases hf : findNextEmptyCell r.1 0 0 with
      | none => exact ⟨rfl, hsnoc _ _⟩
      | some nextCell =>
        simp only
        by_cases hcand : getCandidates r.1 nextCell.1 nextCell.2 = []
        · rw [if_pos hcand, if_pos hcand]
          exact ⟨rfl, hsnoc _ _⟩
        rw [if_neg hcand, if_neg hcand]
        obtain ⟨hfst, hframe⟩ := hrec
          ⟨objs ++ [r.1.setValue nextCell.1 nextCell.2
            ((getCandidates r.1 nextCell.1 nextCell.2).headD 0)]⟩ objs.length (by simp)
        rw [hnew] at hfst
        rw [← hfst]
        cases hcall : recurseAt
          ⟨objs ++ [r.1.setValue nextCell.1 nextCell.2
            ((getCandidates r.1 nextCell.1 nextCell.2).headD 0)]⟩ objs.length with
        | none =>
          refine ⟨rfl, ?_⟩
          intro res hres
          exact Option.noConfusion hres
        | some out =>
          refine ⟨rfl, ?_⟩
          intro res hres b hb
          rw [← Option.some.inj hres]
          show gridAt out.2 b = _
          rw [hframe out hcall b (by simp; omega)]
          exact hold _ b hb

/-- Through a pointer to an object, `solveWithSteps` returns what it returns on the value of
the object, and every object that existed before the call is the same after it. -/
theorem solveWithStepsAt_frame (fuel : Nat) :
    ∀ (h : Heap SudokuGrid) (grid : Nat), grid < h.objects.length →
      (solveWithStepsAt fuel h grid).map Prod.fst = solveWithSteps fuel (gridAt h grid) ∧
      ∀ res, solveWithStepsAt fuel h grid = some res →
        ∀ b, b < h.objects.length → gridAt res.2 b = gridAt h b := by
  induction fuel with
  | zero =>
    intro h grid hlt
    exact solveWithStepsBodyAt_frame (fun _ _ => none) (fun _ => none)
      (fun _ _ _ => ⟨rfl, fun _ hres => Option.noConfusion hres⟩) h grid hlt
  | succ n ih =>
    intro h grid hlt
    exact solveWithStepsBodyAt_frame (solveWithStepsAt n) (solveWithSteps n) ih h grid hlt

/-- C20: neither `CubeSolver.solve` nor `solveWithSteps` changes the object passed by the
caller. Called through a pointer to an object of the heap, each returns what it returns on the
value of that object, works on a new object, and leaves every object that existed before the
call, the caller's among them, as it was: all 54 stickers, respectively all 81 cells, are the
same. `solveWithSteps` returns with fuel 81 or more. -/
theorem solvers_keep_caller_state (hc : Heap CubeState) (cubeState : Nat) (rng : Rng)
    (hg : Heap SudokuGrid) (grid : Nat) (fuel : Nat) (h1 : cubeState < hc.objects.length)
    (h2 : grid < hg.objects.length) (h3 : 81 ≤ fuel) :
    ((CubeSolver.solveAt hc cubeState rng).1 = CubeSolver.solve (cubeAt hc cubeState) rng ∧
      cubeAt (CubeSolver.solveAt hc cubeState rng).2 cubeState = cubeAt hc cubeState ∧
      ∀ a, a < hc.objects.length →
        cubeAt (CubeSolver.solveAt hc cubeState rng).2 a = cubeAt hc a) ∧
    ∃ steps hg', solveWithStepsAt fuel hg grid = some (steps, hg') ∧
      solveWithSteps fuel (gridAt hg grid) = some steps ∧
      gridAt hg' grid = gridAt hg grid ∧
      ∀ a, a < hg.objects.length → gridAt hg' a = gridAt hg a := by
  obtain ⟨hc1, hc2⟩ := solveAt_frame hc cubeState rng h1
  refine ⟨⟨hc1, hc2 cubeState h1, hc2⟩, ?_⟩
  obtain ⟨hfst, hframe⟩ := solveWithStepsAt_frame fuel hg grid h2
  obtain ⟨steps, hsteps, _⟩ :=
    solveWithSteps_trace fuel (gridAt hg grid) ((emptyCount_le _).trans h3)
  rw [hsteps] at hfst
  obtain ⟨res, hres, hres1⟩ := Option.map_eq_some'.1 hfst
  refine ⟨steps, res.2, ?_, hsteps, hframe res hres grid h2, hframe res hres⟩
  rw [hres, ← hres1]

/-- Witness of C20: the solved cube turned by `U` and the sample puzzle, each the only object
of its heap. -/
theorem solvers_keep_caller_state_witness :
    0 < (Heap.mk [afterU]).objects.length ∧ 0 < (Heap.mk [sampleGrid]).objects.length ∧
    81 ≤ 81 ∧
    (((CubeSolver.solveAt ⟨[afterU]⟩ 0 zeroRng).1
        = CubeSolver.solve (cubeAt ⟨[afterU]⟩ 0) zeroRng ∧
      cubeAt (CubeSolver.solveAt ⟨[afterU]⟩ 0 zeroRng).2 0 = cubeAt ⟨[afterU]⟩ 0 ∧
      ∀ a, a < (Heap.mk [afterU]).objects.length →
        cubeAt (CubeSolver.solveAt ⟨[afterU]⟩ 0 zeroRng).2 a = cubeAt ⟨[afterU]⟩ a) ∧
    ∃ steps hg', solveWithStepsAt 81 ⟨[sampleGrid]⟩ 0 = some (steps, hg') ∧
      solveWithSteps 81 (gridAt ⟨[sampleGrid]⟩ 0) = some steps ∧
      gridAt hg' 0 = gridAt ⟨[sampleGrid]⟩ 0 ∧
      ∀ a, a < (Heap.mk [sampleGrid]).objects.length → gridAt hg' a = gridAt ⟨[sampleGrid]⟩ a) :=
  ⟨by decide, by decide, by decide,
    solvers_keep_caller_state ⟨[afterU]⟩ 0 zeroRng ⟨[sampleGrid]⟩ 0 81 (by decide) (by decide)
      (by decide)⟩

/-! ## Theorems: rejected input and the validity predicates -/

/-- C21: `CubeState.fromString` called with a string whose length is not 54 returns the cube
as it was, and `SudokuGrid.fromString` called with a string whose length is not 81 returns the
grid as it was: every sticker and every cell is unchanged. -/
theorem fromString_wrong_length (s : CubeState) (g : SudokuGrid) (state gridString : String)
    (h54 : state.length ≠ 54) (h81 : gridString.length ≠ 81) :
    (s.fromString state = s ∧ ∀ p ∈ stickerOrder, (s.fromString state).at p = s.at p) ∧
    (g.fromString gridString = g ∧
      ∀ r c, r < 9 → c < 9 → (g.fromString gridString).cell r c = g.cell r c) := by
  have hs : s.fromString state = s := by
    unfold CubeState.fromString
    rw [if_pos h54]
  have hg : g.fromString gridString = g := by
    unfold SudokuGrid.fromString
    rw [if_pos h81]
  rw [hs, hg]
  exact ⟨⟨rfl, fun _ _ => rfl⟩, rfl, fun _ _ _ _ => rfl⟩

/-- Witness of C21: the solved cube turned by `R` and the sample puzzle, with the empty string
and a string of 80 characters. -/
theorem fromString_wrong_length_witness :
    "".length ≠ 54 ∧ (String.mk (List.replicate 80 '1')).length ≠ 81 ∧
    ((afterR.fromString "" = afterR ∧
      ∀ p ∈ stickerOrder, (afterR.fromString "").at p = afterR.at p) ∧
    (sampleGrid.fromString (String.mk (List.replicate 80 '1')) = sampleGrid ∧
      ∀ r c, r < 9 → c < 9 →
        (sampleGrid.fromString (String.mk (List.replicate 80 '1'))).cell r c
          = sampleGrid.cell r c)) :=
  ⟨by decide, by decide,
    fromString_wrong_length afterR sampleGrid "" (String.mk (List.replicate 80 '1'))
      (by decide) (by decide)⟩

/-- C23: `CubeState.isValid` returns `true` if and only if no sticker is `Unknown` and each of
the six colours White, Red, Blue, Orange, Green, Yellow appears on exactly 9 of the 54
stickers. -/
theorem isValid_iff_counts (s : CubeState) :
    (stickers s).length = 54 ∧
    (s.isValid = true ↔
      (∀ p ∈ stickerOrder, s.at p ≠ CubeColor.Unknown) ∧
      ∀ c ∈ [CubeColor.White, CubeColor.Red, CubeColor.Blue, CubeColor.Orange,
        CubeColor.Green, CubeColor.Yellow], (stickers s).count c = 9) := by
  refine ⟨by simp [stickers, stickerOrder, allFaces, idx3], ?_⟩
  unfold CubeState.isValid
  rw [validateCube_iff]
  constructor
  · rintro ⟨hU, hc⟩
    refine ⟨fun p _ hp => hU ?_, fun c hc' => hc c ?_⟩
    · rw [← hp]
      exact mem_stickers s p.1 p.2.1 p.2.2
    · intro h
      rw [h] at hc'
      exact absurd hc' (by decide)
  · rintro ⟨hU, hc⟩
    refine ⟨fun hmem => ?_, fun c hne => hc c ?_⟩
    · obtain ⟨p, hp, hpU⟩ := List.mem_map.1 hmem
      exact hU p hp hpU
    · cases c
      all_goals first | exact absurd rfl hne | decide

/-- C25: `SudokuGrid.isValid` returns `true` if and only if no row, no column and no 3 x 3 box
contains the same non-zero value in two different cells. -/
theorem isValid_iff_no_repeat (g : SudokuGrid) :
    g.isValid = true ↔
      (∀ r c c', r < 9 → c < 9 → c' < 9 → c ≠ c' →
        g.cell r c ≠ 0 → g.cell r c ≠ g.cell r c') ∧
      (∀ r r' c, r < 9 → r' < 9 → c < 9 → r ≠ r' →
        g.cell r c ≠ 0 → g.cell r c ≠ g.cell r' c) ∧
      (∀ r c r' c', r < 9 → c < 9 → r' < 9 → c' < 9 → (r ≠ r' ∨ c ≠ c') →
        r / 3 = r' / 3 → c / 3 = c' / 3 →
        g.cell r c ≠ 0 → g.cell r c ≠ g.cell r' c') := by
  rw [g.isValid_iff]
  constructor
  · intro hn
    refine ⟨fun r c c' hr hc hc' hne => hn r c r c' hr hc hr hc' ⟨Or.inr hne, Or.inl rfl⟩,
      fun r r' c hr hr' hc hne => hn r c r' c hr hc hr' hc ⟨Or.inl hne, Or.inr (Or.inl rfl)⟩,
      fun r c r' c' hr hc hr' hc' hne h1 h2 =>
        hn r c r' c' hr hc hr' hc' ⟨hne, Or.inr (Or.inr ⟨h1, h2⟩)⟩⟩
  · rintro ⟨hrow, hcol, hbox⟩ r c r' c' hr hc hr' hc' ⟨hne, hp⟩
    rcases hp with h | h | ⟨h1, h2⟩
    · subst h
      exact hrow r c c' hr hc hc' (by omega)
    · subst h
      exact hcol r r' c hr hr' hc (by omega)
    · exact hbox r c r' c' hr hc hr' hc' hne h1 h2

/-- C27: for an in-range empty cell `(r, c)`, `getValidValues` is the list, in ascending order
and without repetition, of the values `v` in `1 .. 9` that occur in no other cell of row `r`,
of column `c` or of the box of `(r, c)`; for a non-empty cell or a position out of range it is
the empty list. -/
theorem getValidValues_eq (g : SudokuGrid) (r c : Nat) :
    g.getValidValues r c =
      (if r < 9 ∧ c < 9 ∧ g.cell r c = 0 then
        (List.range' 1 9).filter fun (v : Nat) =>
          decide (∀ r' : Nat, r' < 9 → ∀ c' : Nat, c' < 9 →
            Peer r c r' c' → g.cell r' c' ≠ v)
      else []) ∧
    (g.getValidValues r c).Pairwise (fun a b => a < b) ∧
    (r < 9 ∧ c < 9 ∧ g.cell r c = 0 →
      ∀ v, v ∈ g.getValidValues r c ↔
        1 ≤ v ∧ v ≤ 9 ∧ ∀ r' c', r' < 9 → c' < 9 →
          (r' = r ∧ c' ≠ c ∨ r' ≠ r ∧ c' = c ∨
            (r' ≠ r ∨ c' ≠ c) ∧ r' / 3 = r / 3 ∧ c' / 3 = c / 3) →
          g.cell r' c' ≠ v) := by
  have hfilter : ∀ (P : Nat → Bool),
      ((List.range' 1 9).filter P).Pairwise (fun a b => a < b) := fun P =>
    List.Pairwise.sublist (List.filter_sublist _) (by decide)
  have hmem : r < 9 → c < 9 → g.cell r c = 0 →
      g.getValidValues r c = (List.range' 1 9).filter fun v => g.isValidValue r c v := by
    intro hr hc h0
    unfold SudokuGrid.getValidValues isValidPosition GRID_SIZE
    simp [hr, hc, h0]
  by_cases h : r < 9 ∧ c < 9 ∧ g.cell r c = 0
  · obtain ⟨hr, hc, h0⟩ := h
    rw [hmem hr hc h0, if_pos ⟨hr, hc, h0⟩]
    refine ⟨?_, hfilter _, fun _ v => ?_⟩
    · apply List.filter_congr
      intro v hv
      rw [List.mem_range'_1] at hv
      rw [Bool.eq_iff_iff, g.isValidValue_iff, decide_eq_true_iff]
      constructor
      · rintro ⟨_, _, _, _, hfree⟩ r' hr' c' hc' hp
        exact hfree r' c' hr' hc' hp
      · intro hfree
        exact ⟨hr, hc, hv.1, by omega, fun r' c' hr' hc' hp => hfree r' hr' c' hc' hp⟩
    · rw [List.mem_filter, List.mem_range'_1, g.isValidValue_iff]
      constructor
      · rintro ⟨hv, _, _, _, _, hfree⟩
        refine ⟨hv.1, by omega, fun r' c' hr' hc' hp => hfree r' c' hr' hc' ?_⟩
        unfold Peer
        rcases hp with ⟨h1, h2⟩ | ⟨h1, h2⟩ | ⟨h1, h2, h3⟩
        · exact ⟨Or.inr (fun e => h2 e.symm), Or.inl h1.symm⟩
        · exact ⟨Or.inl (fun e => h1 e.symm), Or.inr (Or.inl h2.symm)⟩
        · refine ⟨?_, Or.inr (Or.inr ⟨h2.symm, h3.symm⟩)⟩
          rcases h1 with h1 | h1
          · exact Or.inl fun e => h1 e.symm
          · exact Or.inr fun e => h1 e.symm
      · rintro ⟨h1, h9, hfree⟩
        refine ⟨⟨h1, by omega⟩, hr, hc, h1, h9, fun r' c' hr' hc' hp => hfree r' c' hr' hc' ?_⟩
        obtain ⟨hne, hp⟩ := hp
        rcases hp with h | h | ⟨h2, h3⟩
        · left
          exact ⟨h.symm, by omega⟩
        · right
          left
          exact ⟨by omega, h.symm⟩
        · right
          right
          exact ⟨by omega, h2.symm, h3.symm⟩
  · rw [if_neg h]
    have hnil : g.getValidValues r c = [] := by
      unfold SudokuGrid.getValidValues isValidPosition GRID_SIZE
      by_cases hr : r < 9
      · by_cases hc : c < 9
        · have h0 : g.cell r c ≠ 0 := fun h0 => h ⟨hr, hc, h0⟩
          simp [hr, hc, h0]
        · simp [hc]
      · simp [hr]
    rw [hnil]
    exact ⟨rfl, List.Pairwise.nil, fun hh => absurd hh h⟩

/-- White space in the sense of `QChar::isSpace` is trimmed whether it is ASCII or not: a
no-break space, the letter `r` and an em space make the move `R`. -/
theorem applyMove_paddedR (s : CubeState) :
    trimmed paddedR = "r" ∧ toUpper (trimmed paddedR) = "R" ∧
    applyMove s paddedR = rotateR s :=
  ⟨by decide, by decide, rfl⟩

/-- C29: for every cube and every string that, after trimming surrounding white space and
upper-casing, is not one of the twelve move symbols, `applyMove` returns the cube as it was,
so all 54 stickers are unchanged; this is the case for `"R2"`, `"U2"`, `"B2"` and
`"Cube is already solved!"`. -/
theorem applyMove_ignores_other_strings (s : CubeState) (move : String)
    (h : toUpper (trimmed move) ∉ moveAlphabet) :
    applyMove s move = s ∧ (∀ p ∈ stickerOrder, (applyMove s move).at p = s.at p) ∧
    applyMove s "R2" = s ∧ applyMove s "U2" = s ∧ applyMove s "B2" = s ∧
    applyMove s "Cube is already solved!" = s := by
  have hs := applyMove_of_not_mem s move h
  rw [hs]
  exact ⟨rfl, fun _ _ => rfl, applyMove_of_not_mem s _ (by decide),
    applyMove_of_not_mem s _ (by decide), applyMove_of_not_mem s _ (by decide),
    applyMove_of_not_mem s _ (by decide)⟩

/-- Witness of C29: the string `" r2 "` on the solved cube turned by `R`. -/
theorem applyMove_ignores_other_strings_witness :
    toUpper (trimmed " r2 ") ∉ moveAlphabet ∧
    (applyMove afterR " r2 " = afterR ∧
    (∀ p ∈ stickerOrder, (applyMove afterR " r2 ").at p = afterR.at p) ∧
    applyMove afterR "R2" = afterR ∧ applyMove afterR "U2" = afterR ∧
    applyMove afterR "B2" = afterR ∧ applyMove afterR "Cube is already solved!" = afterR) :=
  ⟨by decide, applyMove_ignores_other_strings afterR " r2 " (by decide)⟩

/-- C24: a freshly constructed cube is solved and valid, and for every move of the twelve-move
alphabet, applying it once, twice or three times to the fresh cube gives a cube that is not
solved. -/
theorem fresh_cube_solved :
    initializeSolvedState.isSolved = true ∧ initializeSolvedState.isValid = true ∧
    ∀ m ∈ moveAlphabet, ∀ k ∈ [1, 2, 3],
      (applyMoves initializeSolvedState (List.replicate k m)).isSolved = false := by
  decide!

/-! ## Theorems: the random source of `CubeSolver.solve` -/

/-- For a layer other than `"top"`, `detectPattern` returns the name selected by the next draw
modulo six and uses up that draw. -/
theorem detectPattern_other (state : CubeState) (layer : String) (rng : Rng)
    (h : layer ≠ "top") :
    detectPattern state layer rng
      = (patternNames.getD (rng.draws rng.pos % 6) "", ⟨rng.draws, rng.pos + 1⟩) := by
  unfold detectPattern
  rw [if_neg h]
  rfl

/-- For the layer `"top"`, `detectPattern` leaves the random source as it is, and its result
does not depend on it. -/
theorem detectPattern_top (state : CubeState) (rng rng' : Rng) :
    (detectPattern state "top" rng).2 = rng ∧
    (detectPattern state "top" rng).1 = (detectPattern state "top" rng').1 := by
  unfold detectPattern
  simp only [if_true]
  split_ifs
  all_goals exact ⟨rfl, rfl⟩

theorem solveTopCross_rng (state : CubeState) (rng rng' : Rng) :
    (solveTopCross state rng).2 = rng ∧
    (solveTopCross state rng).1 = (solveTopCross state rng').1 := by
  obtain ⟨h1, h2⟩ := detectPattern_top state rng rng'
  obtain ⟨h1', _⟩ := detectPattern_top state rng' rng
  unfold solveTopCross
  by_cases hs : (!isTopCrossSolved state) = true
  · rw [if_pos hs, if_pos hs]
    dsimp only
    rw [← h2]
    split_ifs
    all_goals exact ⟨h1, rfl⟩
  · rw [if_neg hs, if_neg hs]
    exact ⟨rfl, rfl⟩

/-- The moves of `orientLastLayer` depend on the random source through the next draw modulo
six only, and the source is left as it was or advanced by one draw, depending on the state. -/
theorem orientLastLayer_rng (state : CubeState) (rng rng' : Rng)
    (h : rng.draws rng.pos % 6 = rng'.draws rng'.pos % 6) :
    (orientLastLayer state rng).1 = (orientLastLayer state rng').1 ∧
    (((orientLastLayer state rng).2 = rng ∧ (orientLastLayer state rng').2 = rng') ∨
      ((orientLastLayer state rng).2 = ⟨rng.draws, rng.pos + 1⟩ ∧
        (orientLastLayer state rng').2 = ⟨rng'.draws, rng'.pos + 1⟩)) := by
  unfold orientLastLayer
  by_cases hs : (!isLastLayerOriented state) = true
  · rw [if_pos hs, if_pos hs, detectPattern_other state "oll" rng (by decide),
      detectPattern_other state "oll" rng' (by decide), h]
    dsimp only
    split_ifs
    all_goals exact ⟨rfl, Or.inr ⟨rfl, rfl⟩⟩
  · rw [if_neg hs, if_neg hs]
    exact ⟨rfl, Or.inl ⟨rfl, rfl⟩⟩

/-- The moves of `permuteLastLayer` depend on the random source through the next draw modulo
six only. -/
theorem permuteLastLayer_rng (state : CubeState) (rng rng' : Rng)
    (h : rng.draws rng.pos % 6 = rng'.draws rng'.pos % 6) :
    (permuteLastLayer state rng).1 = (permuteLastLayer state rng').1 := by
  unfold permuteLastLayer
  by_cases hs : (!state.isSolved) = true
  · rw [if_pos hs, if_pos hs, detectPattern_other state "pll" rng (by decide),
      detectPattern_other state "pll" rng' (by decide), h]
    dsimp only
    split_ifs
    all_goals rfl
  · rw [if_neg hs, if_neg hs]

theorem beginnerMethodSolve_rng (state : CubeState) (rng rng' : Rng)
    (h0 : rng.draws rng.pos % 6 = rng'.draws rng'.pos % 6)
    (h1 : rng.draws (rng.pos + 1) % 6 = rng'.draws (rng'.pos + 1) % 6) :
    (beginnerMethodSolve state rng).1 = (beginnerMethodSolve state rng').1 := by
  unfold beginnerMethodSolve
  dsimp only
  generalize applyMoves (applyMoves (applyMoves state (solveCross state))
    (solveFirstLayerCorners (applyMoves state (solveCross state))))
    (solveMiddleLayer (applyMoves (applyMoves state (solveCross state))
      (solveFirstLayerCorners (applyMoves state (solveCross state))))) = s3
  obtain ⟨ht, ht1⟩ := solveTopCross_rng s3 rng rng'
  obtain ⟨ht', _⟩ := solveTopCross_rng s3 rng' rng
  rw [ht, ht', ht1]
  generalize applyMoves s3 (solveTopCross s3 rng').1 = s4
  obtain ⟨ho, hrng⟩ := orientLastLayer_rng s4 rng rng' h0
  rw [ho]
  generalize applyMoves s4 (orientLastLayer s4 rng').1 = s5
  have hp : (permuteLastLayer s5 (orientLastLayer s4 rng).2).1
      = (permuteLastLayer s5 (orientLastLayer s4 rng').2).1 := by
    rcases hrng with ⟨e, e'⟩ | ⟨e, e'⟩
    · rw [e, e']
      exact permuteLastLayer_rng s5 rng rng' h0
    · rw [e, e']
      exact permuteLastLayer_rng s5 _ _ h1
  rw [hp]

/-- Counterexample to C22: on the solved cube turned by `U`, which is valid, `solve` returns
different lists for a random source that always draws 0 and one that always draws 1. -/
theorem solve_depends_on_draws :
    afterU.isValid = true ∧
    (CubeSolver.solve afterU (constRng 0)).1 ≠ (CubeSolver.solve afterU (constRng 1)).1 := by
  decide

/-- C22 (amended): the list returned by `CubeSolver.solve` is a function of the cube and of
the next two draws of the random source modulo six: two calls on the same cube with random
sources whose next two draws agree modulo six return equal lists. -/
theorem solve_determined_by_two_draws (cubeState : CubeState) (rng rng' : Rng)
    (h0 : rng.draws rng.pos % 6 = rng'.draws rng'.pos % 6)
    (h1 : rng.draws (rng.pos + 1) % 6 = rng'.draws (rng'.pos + 1) % 6) :
    (CubeSolver.solve cubeState rng).1 = (CubeSolver.solve cubeState rng').1 := by
  unfold CubeSolver.solve
  by_cases hv : (!cubeState.isValid) = true
  · rw [if_pos hv, if_pos hv]
  rw [if_neg hv, if_neg hv]
  by_cases hs : cubeState.isSolved = true
  · rw [if_pos hs, if_pos hs]
  rw [if_neg hs, if_neg hs]
  dsimp only
  rw [beginnerMethodSolve_rng cubeState.copy rng rng' h0 h1]
  split_ifs
  all_goals rfl

/-- Witness of C22 (amended): the solved cube turned by `U` with a random source that always
draws 0 and one that always draws 6. -/
theorem solve_determined_by_two_draws_witness :
    (constRng 0).draws (constRng 0).pos % 6 = (constRng 6).draws (constRng 6).pos % 6 ∧
    (constRng 0).draws ((constRng 0).pos + 1) % 6
      = (constRng 6).draws ((constRng 6).pos + 1) % 6 ∧
    (CubeSolver.solve afterU (constRng 0)).1 = (CubeSolver.solve afterU (constRng 6)).1 :=
  ⟨by decide, by decide,
    solve_determined_by_two_draws afterU (constRng 0) (constRng 6) (by decide) (by decide)⟩

/-! ## Theorems: the effect of optimised moves -/

/-- On the twelve move symbols `applyMove` is the rotation it names. -/
theorem applyMove_symbol (s : CubeState) :
    (applyMove s "F" = rotateF s ∧ applyMove s "F'" = rotateFPrime s ∧
      applyMove s "R" = rotateR s ∧ applyMove s "R'" = rotateRPrime s) ∧
    (applyMove s "U" = rotateU s ∧ applyMove s "U'" = rotateUPrime s ∧
      applyMove s "L" = rotateL s ∧ applyMove s "L'" = rotateLPrime s) ∧
    (applyMove s "B" = rotateB s ∧ applyMove s "B'" = rotateBPrime s ∧
      applyMove s "D" = rotateD s ∧ applyMove s "D'" = rotateDPrime s) :=
  ⟨⟨rfl, rfl, rfl, rfl⟩, ⟨rfl, rfl, rfl, rfl⟩, ⟨rfl, rfl, rfl, rfl⟩⟩

/-- A move other than `B` and `B'` followed by its inverse restores the cube. -/
theorem applyMove_inverse_pair (s : CubeState) (m : String) (hm : m ∈ moveAlphabet)
    (hB : m ≠ "B") (hB' : m ≠ "B'") : applyMove (applyMove s m) (inverseMove m) = s := by
  obtain ⟨⟨hF, hF', hR, hR'⟩, ⟨hU, hU', hL, hL'⟩, ⟨_, _, hD, hD'⟩⟩ := applyMove_symbol s
  simp only [moveAlphabet, List.mem_cons, List.mem_singleton, List.not_mem_nil, or_false] at hm
  rcases hm with rfl | rfl | rfl | rfl | rfl | rfl | rfl | rfl | rfl | rfl | rfl | rfl
  · rw [hF, show inverseMove "F" = "F'" by decide, (applyMove_symbol _).1.2.1]
    exact (rotate_four_times_except_B s).1
  · rw [hF', show inverseMove "F'" = "F" by decide, (applyMove_symbol _).1.1]
    exact (rotate_four_times_except_B s).1
  · rw [hR, show inverseMove "R" = "R'" by decide, (applyMove_symbol _).1.2.2.2]
    exact (rotate_four_times_except_B s).2.1
  · rw [hR', show inverseMove "R'" = "R" by decide, (applyMove_symbol _).1.2.2.1]
    exact (rotate_four_times_except_B s).2.1
  · rw [hU, show inverseMove "U" = "U'" by decide, (applyMove_symbol _).2.1.2.1]
    exact (rotate_four_times_except_B s).2.2.1
  · rw [hU', show inverseMove "U'" = "U" by decide, (applyMove_symbol _).2.1.1]
    exact (rotate_four_times_except_B s).2.2.1
  · rw [hL, show inverseMove "L" = "L'" by decide, (applyMove_symbol _).2.1.2.2.2]
    exact (rotate_four_times_except_B s).2.2.2.1
  · rw [hL', show inverseMove "L'" = "L" by decide, (applyMove_symbol _).2.1.2.2.1]
    exact (rotate_four_times_except_B s).2.2.2.1
  · exact absurd rfl hB
  · exact absurd rfl hB'
  · rw [hD, show inverseMove "D" = "D'" by decide, (applyMove_symbol _).2.2.2.2.2]
    exact (rotate_four_times_except_B s).2.2.2.2
  · rw [hD', show inverseMove "D'" = "D" by decide, (applyMove_symbol _).2.2.2.2.1]
    exact (rotate_four_times_except_B s).2.2.2.2

theorem applyMoves_append (s : CubeState) (a b : List String) :
    applyMoves s (a ++ b) = applyMoves (applyMoves s a) b := by
  unfold applyMoves
  rw [List.foldl_append]

/-- The moves left on the stack of `cancelMoves` have the effect of the moves read so far, as
long as none of the moves is `B` or `B'`. -/
theorem foldl_cancelStep_effect (s : CubeState) (moves stack : List String)
    (h : ∀ m ∈ moves, m ∈ moveAlphabet ∧ m ≠ "B" ∧ m ≠ "B'") :
    applyMoves s (moves.foldl cancelStep stack).reverse
      = applyMoves (applyMoves s stack.reverse) moves := by
  induction moves generalizing stack with
  | nil => rfl
  | cons m rest ih =>
    rw [List.foldl_cons, ih _ fun x hx => h x (List.mem_cons_of_mem _ hx)]
    obtain ⟨hm, hB, hB'⟩ := h m (List.mem_cons_self _ _)
    have hstep : applyMoves s (cancelStep stack m).reverse
        = applyMove (applyMoves s stack.reverse) m := by
      cases stack with
      | nil => rfl
      | cons t init =>
        show applyMoves s (if cancels m t = true then init else m :: t :: init).reverse = _
        by_cases hc : cancels m t = true
        · rw [if_pos hc]
          obtain ⟨_, ht⟩ := (cancels_iff m t).1 hc
          have htm : t ∈ moveAlphabet := by rw [ht]; exact inverseMove_mem hm
          have hinv : inverseMove t = m := by rw [ht]; exact inverseMove_inverseMove hm
          have htB : t ≠ "B" := by
            intro e
            rw [e] at hinv
            exact hB' hinv.symm
          have htB' : t ≠ "B'" := by
            intro e
            rw [e] at hinv
            exact hB hinv.symm
          rw [List.reverse_cons, applyMoves_append]
          show _ = applyMove (applyMove (applyMoves s init.reverse) t) m
          rw [← hinv, applyMove_inverse_pair _ t htm htB htB']
        · rw [if_neg hc, List.reverse_cons, applyMoves_append]
          rfl
    rw [hstep]
    rfl

/-- For a list of moves of the alphabet without `B` and `B'`, the optimised list has the same
effect on every cube as the list itself. -/
theorem optimizeMoves_effect_without_B (s : CubeState) (moves : List String)
    (h : ∀ m ∈ moves, m ∈ moveAlphabet ∧ m ≠ "B" ∧ m ≠ "B'") :
    applyMoves s (optimizeMoves moves) = applyMoves s moves := by
  unfold optimizeMoves
  split_ifs
  · rfl
  · unfold cancelMoves
    rw [foldl_cancelStep_effect s moves [] h]
    rfl

theorem RawGrid.row_mem {g : RawGrid} (r : Nat) (hr : r < g.m_grid.length) :
    g.m_grid.getD r [] ∈ g.m_grid := by
  rw [List.getD_eq_getElem _ _ hr]
  exact List.getElem_mem _

/-- In a grid that satisfies the class invariant every cell read is in `0 .. 9`. -/
theorem RawGrid.cell_inRange {g : RawGrid} (h : g.InRange) (r c : Nat) :
    0 ≤ g.cell r c ∧ g.cell r c ≤ 9 := by
  obtain ⟨_, hrows⟩ := h
  unfold RawGrid.cell
  by_cases hr : r < g.m_grid.length
  · by_cases hc : c < (g.m_grid.getD r []).length
    · rw [List.getD_eq_getElem _ _ hc]
      exact (hrows _ (RawGrid.row_mem r hr)).2 _ (List.getElem_mem _)
    · rw [List.getD_eq_default _ _ (Nat.le_of_not_lt hc)]
      exact ⟨le_refl _, by decide⟩
  · rw [List.getD_eq_default _ _ (Nat.le_of_not_lt hr)]
    show (0 : Int) ≤ 0 ∧ (0 : Int) ≤ 9
    exact ⟨le_refl _, by decide⟩

/-- Storing a value in `0 .. 9` keeps the class invariant. -/
theorem RawGrid.store_inRange {g : RawGrid} (h : g.InRange) (r c : Nat) (v : Int)
    (h0 : 0 ≤ v) (h9 : v ≤ 9) : (g.store r c v).InRange := by
  obtain ⟨hlen, hrows⟩ := h
  unfold RawGrid.store
  refine ⟨by rw [List.length_set]; exact hlen, ?_⟩
  intro row hrow
  rcases List.mem_or_eq_of_mem_set hrow with hmem | heq
  · exact hrows row hmem
  · by_cases hr : r < g.m_grid.length
    · obtain ⟨h9', hle⟩ := hrows _ (RawGrid.row_mem r hr)
      rw [heq]
      refine ⟨by rw [List.length_set]; exact h9', ?_⟩
      intro x hx
      rcases List.mem_or_eq_of_mem_set hx with hx' | hx'
      · exact hle x hx'
      · rw [hx']
        exact ⟨h0, h9⟩
    · rw [List.set_eq_of_length_le (Nat.le_of_not_lt hr)] at hrow
      exact hrows row hrow

/-- Reading a cell after storing at an in-range position. -/
theorem RawGrid.cell_store {g : RawGrid} (h : g.InRange) (r c : Nat) (hr : r < 9) (hc : c < 9)
    (v : Int) (r' c' : Nat) :
    (g.store r c v).cell r' c' = if r' = r ∧ c' = c then v else g.cell r' c' := by
  obtain ⟨hlen, hrows⟩ := h
  have hrow := (hrows _ (RawGrid.row_mem r (by omega))).1
  unfold RawGrid.store RawGrid.cell
  by_cases h1 : r' = r
  · subst h1
    rw [getD_set_self _ _ _ _ (by omega)]
    by_cases h2 : c' = c
    · subst h2
      rw [getD_set_self _ _ _ _ (by omega), if_pos ⟨rfl, rfl⟩]
    · rw [getD_set_ne _ _ _ _ _ (fun e => h2 e.symm), if_neg (fun e => h2 e.2)]
  · rw [getD_set_ne _ _ _ _ _ (fun e => h1 e.symm), if_neg (fun e => h1 e.1)]

theorem RawGrid.fold_store_zero_inRange (l : List (Nat × Nat)) (g : RawGrid) (h : g.InRange) :
    (l.foldl (fun g p => g.store p.1 p.2 0) g).InRange := by
  induction l generalizing g with
  | nil => exact h
  | cons p rest ih => exact ih _ (RawGrid.store_inRange h p.1 p.2 0 (le_refl _) (by decide))

theorem RawGrid.fold_store_zero_cell (l : List (Nat × Nat)) (hl : ∀ p ∈ l, p.1 < 9 ∧ p.2 < 9)
    (g : RawGrid) (h : g.InRange) (r c : Nat) :
    (l.foldl (fun g p => g.store p.1 p.2 0) g).cell r c
      = if (r, c) ∈ l then 0 else g.cell r c := by
  induction l generalizing g with
  | nil => simp
  | cons p rest ih =>
    obtain ⟨hp1, hp2⟩ := hl p (List.mem_cons_self _ _)
    rw [List.foldl_cons, ih (fun q hq => hl q (List.mem_cons_of_mem _ hq)) _
      (RawGrid.store_inRange h p.1 p.2 0 (le_refl _) (by decide)),
      RawGrid.cell_store h p.1 p.2 hp1 hp2]
    by_cases h1 : (r, c) ∈ rest
    · rw [if_pos h1, if_pos (List.mem_cons_of_mem _ h1)]
    · rw [if_neg h1]
      by_cases h2 : r = p.1 ∧ c = p.2
      · have hp : (r, c) = p := Prod.ext h2.1 h2.2
        rw [if_pos h2, if_pos (by rw [hp]; exact List.mem_cons_self _ _)]
      · have hp : (r, c) ≠ p := fun e => h2 ⟨congrArg Prod.fst e, congrArg Prod.snd e⟩
        rw [if_neg h2, if_neg (fun hm => (List.mem_cons.1 hm).elim hp h1)]

theorem RawGrid.fromStringStep_inRange (gridString : String) (acc : RawGrid × Nat)
    (p : Nat × Nat) (h : acc.1.InRange) :
    (RawGrid.fromStringStep gridString acc p).1.InRange := by
  unfold RawGrid.fromStringStep
  dsimp only
  split_ifs with hv
  · exact RawGrid.store_inRange h _ _ _ hv.1 hv.2
  · exact RawGrid.store_inRange h _ _ _ (le_refl _) (by decide)

theorem RawGrid.fromString_inRange {g : RawGrid} (h : g.InRange) (gridString : String) :
    (g.fromString gridString).InRange := by
  unfold RawGrid.fromString
  split_ifs
  · exact h
  · exact foldl_inv (fun acc : RawGrid × Nat => acc.1.InRange) (fun _ => True)
      (RawGrid.fromStringStep gridString)
      (fun acc p hacc _ => RawGrid.fromStringStep_inRange gridString acc p hacc)
      allCells (fun _ _ => trivial) (g, 0) h

theorem RawGrid.setValue_eq (g : RawGrid) (row col value : Int) :
    g.setValue row col value =
      if 0 ≤ row ∧ row < 9 ∧ 0 ≤ col ∧ col < 9 ∧ 0 ≤ value ∧ value ≤ 9 then
        g.store row.toNat col.toNat value
      else g := by
  unfold RawGrid.setValue RawGrid.isValidPosition
  by_cases hp : 0 ≤ row ∧ row < 9 ∧ 0 ≤ col ∧ col < 9
  · obtain ⟨h1, h2, h3, h4⟩ := hp
    by_cases hv : 0 ≤ value ∧ value ≤ 9
    · have hv' : ¬ (value < 0 ∨ value > 9) := by omega
      simp [h1, h2, h3, h4, hv.1, hv.2, hv']
    · have hv' : value < 0 ∨ value > 9 := by omega
      have hv'' : ¬ (0 ≤ value ∧ value ≤ 9) := hv
      simp only [ge_iff_le, h1, h2, h3, h4, decide_True, Bool.and_self, Bool.not_true,
        Bool.false_eq_true, if_false, hv', if_true, true_and]
      rw [if_neg hv'']
  · have hcond : (!(decide (row ≥ 0) && decide (row < 9) && decide (col ≥ 0)
        && decide (col < 9))) = true := by
      simp only [Bool.not_eq_true', Bool.and_eq_false_iff, decide_eq_false_iff_not]
      by_contra hh
      apply hp
      push_neg at hh
      obtain ⟨⟨⟨a, b⟩, c⟩, d⟩ := hh
      exact ⟨a, b, c, d⟩
    rw [if_pos hcond, if_neg (fun hh => hp ⟨hh.1, hh.2.1, hh.2.2.1, hh.2.2.2.1⟩)]

theorem RawGrid.setValue_inRange {g : RawGrid} (h : g.InRange) (row col value : Int) :
    (g.setValue row col value).InRange := by
  rw [RawGrid.setValue_eq]
  split_ifs with hc
  · exact RawGrid.store_inRange h _ _ _ hc.2.2.2.2.1 hc.2.2.2.2.2
  · exact h

theorem RawGrid.initial_inRange :
    (RawGrid.mk (List.replicate 9 (List.replicate 9 0))).InRange := by
  decide

theorem RawGrid.initial_cell (r c : Nat) :
    (RawGrid.mk (List.replicate 9 (List.replicate 9 0))).cell r c = 0 := by
  unfold RawGrid.cell
  simp only [List.getD_eq_getElem?_getD, List.getElem?_replicate]
  split_ifs
  · simp only [Option.getD_some, List.getElem?_replicate]
    split_ifs
    · rfl
    · rfl
  · rfl

/-- The grid behind a `SudokuGrid` satisfies the class invariant. -/
theorem SudokuGrid.toRaw_inRange (g : SudokuGrid) : g.toRaw.InRange := by
  obtain ⟨hlen, hrows⟩ := g.inv
  unfold SudokuGrid.toRaw
  refine ⟨by rw [List.length_map]; exact hlen, ?_⟩
  intro row hrow
  obtain ⟨row0, hrow0, rfl⟩ := List.mem_map.1 hrow
  obtain ⟨h9, hle⟩ := hrows row0 hrow0
  refine ⟨by rw [List.length_map]; exact h9, ?_⟩
  intro v hv
  obtain ⟨n, hn, rfl⟩ := List.mem_map.1 hv
  have := hle n hn
  refine ⟨Int.ofNat_nonneg n, ?_⟩
  show (n : Int) ≤ 9
  omega

theorem SudokuGrid.toRaw_cell (g : SudokuGrid) (r c : Nat) :
    g.toRaw.cell r c = (g.cell r c : Int) := by
  unfold SudokuGrid.toRaw RawGrid.cell SudokuGrid.cell
  simp only [List.getD_eq_getElem?_getD, List.getElem?_map]
  cases g.m_grid[r]? with
  | none => rfl
  | some row =>
    simp only [Option.map_some', Option.getD_some, List.getElem?_map]
    cases row[c]? with
    | none => rfl
    | some v => rfl

/-- The method `setValue` on natural numbers is `SudokuGrid::setValue` on `int` arguments,
cell by cell. -/
theorem SudokuGrid.toRaw_setValue (g : SudokuGrid) (row col value : Nat) (r c : Nat) :
    (g.setValue row col value).toRaw.cell r c
      = (g.toRaw.setValue row col value).cell r c := by
  rw [SudokuGrid.toRaw_cell, RawGrid.setValue_eq]
  by_cases h : row < 9 ∧ col < 9 ∧ value ≤ 9
  · obtain ⟨hr, hc, hv⟩ := h
    rw [if_pos ⟨by omega, by omega, by omega, by omega, by omega, by omega⟩,
      g.cell_setValue row col value hr hc hv,
      RawGrid.cell_store g.toRaw_inRange _ _ (by simpa using hr) (by simpa using hc),
      SudokuGrid.toRaw_cell]
    simp only [Int.toNat_ofNat]
    split_ifs
    · rfl
    · rfl
  · rw [g.setValue_out_of_range row col value h, if_neg (by omega), SudokuGrid.toRaw_cell]

/-- C26: every cell of a grid is always an integer in `0 .. 9`. The class invariant (9 x 9
cells, each in `0 .. 9`) holds for a newly constructed grid, whose cells are all 0, and is
preserved by `setValue`, `clearCell`, `reset`, `clearAll` and `fromString` with arbitrary
arguments; `setValue` with a row or column outside `0 .. 8` or a value outside `0 .. 9` changes
nothing, and otherwise changes the addressed cell only. -/
theorem grid_cells_in_range (g : RawGrid) (row col value : Int) (gridString : String)
    (h : g.InRange) :
    (RawGrid.initializeGrid.InRange ∧ ∀ r c, RawGrid.initializeGrid.cell r c = 0) ∧
    (∀ r c, 0 ≤ g.cell r c ∧ g.cell r c ≤ 9) ∧
    ((g.setValue row col value).InRange ∧ (g.clearCell row col).InRange ∧ g.reset.InRange ∧
      g.clearAll.InRange ∧ (g.fromString gridString).InRange) ∧
    (¬ (0 ≤ row ∧ row < 9 ∧ 0 ≤ col ∧ col < 9 ∧ 0 ≤ value ∧ value ≤ 9) →
      g.setValue row col value = g) ∧
    (0 ≤ row ∧ row < 9 ∧ 0 ≤ col ∧ col < 9 ∧ 0 ≤ value ∧ value ≤ 9 →
      ∀ r c : Nat, (g.setValue row col value).cell r c
        = if (r : Int) = row ∧ (c : Int) = col then value else g.cell r c) := by
  refine ⟨⟨RawGrid.fold_store_zero_inRange _ _ RawGrid.initial_inRange, fun r c => ?_⟩,
    RawGrid.cell_inRange h,
    ⟨RawGrid.setValue_inRange h _ _ _, RawGrid.setValue_inRange h _ _ _,
      RawGrid.fold_store_zero_inRange _ _ h, RawGrid.fold_store_zero_inRange _ _ h,
      RawGrid.fromString_inRange h _⟩, fun hn => ?_, fun hy r c => ?_⟩
  · unfold RawGrid.initializeGrid
    rw [RawGrid.fold_store_zero_cell allCells (fun p hp => (mem_allCells p).1 hp) _
      RawGrid.initial_inRange]
    split_ifs with hmem
    · rfl
    · exact RawGrid.initial_cell r c
  · rw [RawGrid.setValue_eq, if_neg hn]
  · rw [RawGrid.setValue_eq, if_pos hy]
    obtain ⟨h1, h2, h3, h4, _, _⟩ := hy
    rw [
      RawGrid.cell_store h _ _ (by omega) (by omega)]
    have e1 : (r = row.toNat) ↔ ((r : Int) = row) := by omega
    have e2 : (c = col.toNat) ↔ ((c : Int) = col) := by omega
    simp only [e1, e2]

/-- Witness of C26: the newly constructed grid, with the call `setValue(-1, 3, 12)` and the
string `"x"`. -/
theorem grid_cells_in_range_witness :
    RawGrid.initializeGrid.InRange ∧
    ((RawGrid.initializeGrid.InRange ∧ ∀ r c, RawGrid.initializeGrid.cell r c = 0) ∧
    (∀ r c, 0 ≤ RawGrid.initializeGrid.cell r c ∧ RawGrid.initializeGrid.cell r c ≤ 9) ∧
    ((RawGrid.initializeGrid.setValue (-1) 3 12).InRange ∧
      (RawGrid.initializeGrid.clearCell (-1) 3).InRange ∧ RawGrid.initializeGrid.reset.InRange ∧
      RawGrid.initializeGrid.clearAll.InRange ∧
      (RawGrid.initializeGrid.fromString "x").InRange) ∧
    (¬ (0 ≤ (-1 : Int) ∧ (-1 : Int) < 9 ∧ 0 ≤ (3 : Int) ∧ (3 : Int) < 9 ∧
        0 ≤ (12 : Int) ∧ (12 : Int) ≤ 9) →
      RawGrid.initializeGrid.setValue (-1) 3 12 = RawGrid.initializeGrid) ∧
    (0 ≤ (-1 : Int) ∧ (-1 : Int) < 9 ∧ 0 ≤ (3 : Int) ∧ (3 : Int) < 9 ∧
        0 ≤ (12 : Int) ∧ (12 : Int) ≤ 9 →
      ∀ r c : Nat, (RawGrid.initializeGrid.setValue (-1) 3 12).cell r c
        = if (r : Int) = -1 ∧ (c : Int) = 3 then 12 else RawGrid.initializeGrid.cell r c)) :=
  ⟨by decide, grid_cells_in_range RawGrid.initializeGrid (-1) 3 12 "x" (by decide)⟩

/-! ## Theorems: replaying the steps of `solveWithSteps` -/

theorem techniqueChain_inv (w : SudokuGrid) (steps : List SolutionStep) :
    StepInv w (techniqueChain w steps) := by
  have hn := applyNakedSingles_inv w steps
  have hn' := applyNakedSingles_run w steps
  have hh := applyHiddenSingles_inv w steps
  have hh' := applyHiddenSingles_run w steps
  rw [techniqueChain_eq]
  cases h1 : (applyNakedSingles w steps).1 with
  | true =>
    rw [if_pos rfl]
    exact hn
  | false =>
    have e1 := hn'.of_no_progress h1
    rw [if_neg (by simp), e1]
    dsimp only
    cases h2 : (applyHiddenSingles w steps).1 with
    | true =>
      rw [if_pos rfl]
      exact hh
    | false =>
      have e2 := hh'.of_no_progress h2
      rw [if_neg (by simp), e2]
      exact StepInv.start w steps

/-- The loop of `solveWithSteps` keeps every completion of the working grid. -/
theorem stepsLoop_completion (n : Nat) (p : Bool) (w : SudokuGrid) (steps : List SolutionStep)
    (h : SudokuGrid) (hc : Completion w h) : Completion (stepsLoop n p w steps).1 h := by
  induction n generalizing p w steps with
  | zero => exact hc
  | succ n ih =>
    rw [stepsLoop_succ]
    by_cases hcond : (p && !w.isSolved) = true
    · rw [if_pos hcond]
      exact ih _ _ _ ((techniqueChain_inv w steps).2.1 h hc)
    · rw [if_neg hcond]
      exact hc

/-- Replaying justified steps only fills empty cells. -/
theorem TraceOk.extends_replay {w : SudokuGrid} {steps : List SolutionStep}
    (h : TraceOk w steps) : Extends w (replay w steps) := by
  induction steps generalizing w with
  | nil => exact Extends.refl w
  | cons s rest ih =>
    obtain ⟨hs, hrest⟩ := h
    refine Extends.trans ?_ (ih hrest)
    rcases hs.placement with ⟨rfl, _⟩ | ⟨r, c, hcell, _⟩
    · rw [applyStep_solvedStep]
      exact Extends.refl w
    · rw [applyStep_of_emptyCellOf hcell]
      obtain ⟨_, _, _, _, h0⟩ := hcell
      rw [SudokuGrid.getValue_eq_cell] at h0
      exact extends_setValue w r c _ h0

/-- Replaying justified steps on a valid grid gives a valid grid. -/
theorem TraceOk.noClash_replay {w : SudokuGrid} {steps : List SolutionStep}
    (h : TraceOk w steps) (hn : NoClash w) : NoClash (replay w steps) := by
  induction steps generalizing w with
  | nil => exact hn
  | cons s rest ih =>
    obtain ⟨hs, hrest⟩ := h
    refine ih hrest ?_
    rcases hs.placement with ⟨rfl, _⟩ | ⟨r, c, hcell, hv⟩
    · rw [applyStep_solvedStep]
      exact hn
    · rw [applyStep_of_emptyCellOf hcell]
      exact noClash_setValue hn r c _ hv

/-- A value that is legal at an empty in-range cell is one of its candidates. -/
theorem mem_getCandidates {g : SudokuGrid} {r c v : Nat} (hr : r < 9) (hc : c < 9)
    (h0 : g.cell r c = 0) (hv : g.isValidValue r c v = true) : v ∈ getCandidates g r c := by
  obtain ⟨_, _, h1, h9, _⟩ := (g.isValidValue_iff r c v).1 hv
  unfold getCandidates SudokuGrid.getValidValues isValidPosition GRID_SIZE
  simp only [hr, hc, h0, decide_True, Bool.and_self, Bool.not_true, bne_self_eq_false,
    Bool.or_self, Bool.false_eq_true, if_false, List.mem_filter, List.mem_range'_1, hv, and_true]
  omega

theorem trapGrid_completion : Completion trapGrid sampleSolved := by
  refine ⟨by decide, ?_⟩
  intro r c hr hc
  interval_cases r <;> interval_cases c <;> decide

theorem solveWithSteps_trapGrid :
    (solveWithSteps 82 trapGrid).map (fun steps =>
      ((replay trapGrid steps).isSolved,
        steps.map fun s => (s.row, s.col, s.value, s.technique)))
      = some (false, [(0, 3, 1, "backtrack_guess"), (0, 7, 6, "naked_single"),
          (1, 3, 4, "naked_single"), (1, 7, 1, "naked_single"), (2, 4, 6, "naked_single"),
          (2, 7, 4, "naked_single"), (3, 4, 7, "naked_single"), (3, 3, 6, "naked_single"),
          (7, 4, 1, "hidden_single")]) := by
  decide!

/-- Counterexample to C30: the grid `trapGrid` is valid, not solved, and has the solved sample
puzzle as a completion; `solveWithSteps` guesses 1 at `(0, 3)`, where the completion has 6,
records eight more placements and stops, and replaying its steps on `trapGrid` gives a grid
that is not solved. -/
theorem replay_trapGrid_not_solved :
    trapGrid.isValid = true ∧ trapGrid.isSolved = false ∧ Completion trapGrid sampleSolved ∧
    ∃ steps, solveWithSteps 82 trapGrid = some steps ∧
      steps.map (fun s => (s.row, s.col, s.value, s.technique))
        = [(0, 3, 1, "backtrack_guess"), (0, 7, 6, "naked_single"),
          (1, 3, 4, "naked_single"), (1, 7, 1, "naked_single"), (2, 4, 6, "naked_single"),
          (2, 7, 4, "naked_single"), (3, 4, 7, "naked_single"), (3, 3, 6, "naked_single"),
          (7, 4, 1, "hidden_single")] ∧
      (replay trapGrid steps).isSolved = false := by
  refine ⟨by decide, by decide, trapGrid_completion, ?_⟩
  have heval := solveWithSteps_trapGrid
  cases hres : solveWithSteps 82 trapGrid with
  | none =>
    rw [hres] at heval
    exact Option.noConfusion heval
  | some steps =>
    rw [hres] at heval
    have hpair := Option.some.inj heval
    exact ⟨steps, rfl, congrArg Prod.snd hpair, congrArg Prod.fst hpair⟩

/-- C30 (amended): for a valid grid that is not solved and has a completion, `solveWithSteps`
returns with fuel 81 or more; replaying the returned steps on the input gives a valid grid that
agrees with the input on its non-zero cells, and this grid is solved whenever no returned step
is a `backtrack_guess`. -/
theorem replay_solved_without_guess (fuel : Nat) (g : SudokuGrid) (hv : g.isValid = true)
    (hs : g.isSolved = false) (hc : ∃ h, Completion g h) (hfuel : 81 ≤ fuel) :
    ∃ steps, solveWithSteps fuel g = some steps ∧
      Extends g (replay g steps) ∧ (replay g steps).isValid = true ∧
      ((∀ s ∈ steps, s.technique ≠ "backtrack_guess") → (replay g steps).isSolved = true) := by
  obtain ⟨h, hcomp⟩ := hc
  obtain ⟨steps, hsteps, htrace⟩ := solveWithSteps_trace fuel g ((emptyCount_le g).trans hfuel)
  refine ⟨steps, hsteps, htrace.extends_replay,
    (SudokuGrid.isValid_iff _).2 (htrace.noClash_replay ((g.isValid_iff).1 hv)), fun hno => ?_⟩
  obtain ⟨recurse, hrec⟩ : ∃ recurse, solveWithSteps fuel g = solveWithStepsBody recurse g := by
    cases fuel with
    | zero => exact ⟨_, rfl⟩
    | succ n => exact ⟨_, rfl⟩
  rw [hrec, solveWithStepsBody_unsolved recurse g hv hs] at hsteps
  obtain ⟨new, hloop, _⟩ := stepsLoop_trace 100 true g []
  have hw := stepsLoop_completion 100 true g [] h hcomp
  rw [hloop] at hsteps hw
  simp only [List.nil_append] at hsteps hw
  by_cases hsol : (replay g new).isSolved = true
  · rw [if_pos hsol] at hsteps
    rw [← Option.some.inj hsteps]
    exact hsol
  rw [if_neg hsol] at hsteps
  cases hf : findNextEmptyCell (replay g new) 0 0 with
  | none =>
    rw [hf] at hsteps
    rw [← Option.some.inj hsteps]
    have hfull := full_of_findNextEmptyCell_none (filledBefore_zero _) hf
    rw [← eq_of_extends_full hfull hw.2]
    exact hw.1
  | some cell =>
    obtain ⟨r, c⟩ := cell
    rw [hf] at hsteps
    simp only at hsteps
    obtain ⟨hr, hcol, h0, _⟩ := findNextEmptyCell_some hf
    have hmem := mem_getCandidates hr hcol h0 (completion_isValidValue hw r c hr hcol)
    by_cases hcand : getCandidates (replay g new) r c = []
    · rw [hcand] at hmem
      exact absurd hmem (List.not_mem_nil _)
    · rw [if_neg hcand] at hsteps
      obtain ⟨rem, _, hrem⟩ := Option.map_eq_some'.1 hsteps
      have hguess : guessStep r c ((getCandidates (replay g new) r c).headD 0) ∈ steps := by
        rw [← hrem]
        simp
      exact absurd rfl (hno _ hguess)

/-- Witness of C30 (amended): the sample puzzle with fuel 82. -/
theorem replay_solved_without_guess_witness :
    sampleGrid.isValid = true ∧ sampleGrid.isSolved = false ∧
    (∃ h, Completion sampleGrid h) ∧ 81 ≤ 82 ∧
    ∃ steps, solveWithSteps 82 sampleGrid = some steps ∧
      Extends sampleGrid (replay sampleGrid steps) ∧
      (replay sampleGrid steps).isValid = true ∧
      ((∀ s ∈ steps, s.technique ≠ "backtrack_guess") →
        (replay sampleGrid steps).isSolved = true) :=
  ⟨by decide, by decide, sample_completion.imp fun _ hw => hw.1, by decide,
    replay_solved_without_guess 82 sampleGrid (by decide) (by decide)
      (sample_completion.imp fun _ hw => hw.1) (by decide)⟩

/-! ## Theorems: the phases of the beginner method, centres, cancellation -/

/-- C34: each of the six solver phases returns no moves when its check already holds:
`solveCross` when `isCrossSolved`, `solveFirstLayerCorners` when `isFirstLayerSolved`,
`solveMiddleLayer` when `isMiddleLayerSolved`, `solveTopCross` when `isTopCrossSolved`,
`orientLastLayer` when `isLastLayerOriented` and `permuteLastLayer` when the state is solved;
the last three then leave the random source untouched. -/
theorem phase_without_moves_when_check_holds (state : CubeState) (rng : Rng) :
    (isCrossSolved state = true → solveCross state = []) ∧
    (isFirstLayerSolved state = true → solveFirstLayerCorners state = []) ∧
    (isMiddleLayerSolved state = true → solveMiddleLayer state = []) ∧
    (isTopCrossSolved state = true → solveTopCross state rng = ([], rng)) ∧
    (isLastLayerOriented state = true → orientLastLayer state rng = ([], rng)) ∧
    (state.isSolved = true → permuteLastLayer state rng = ([], rng)) := by
  refine ⟨fun h => ?_, fun h => ?_, fun h => ?_, fun h => ?_, fun h => ?_, fun h => ?_⟩
  · unfold solveCross
    rw [h]
    rfl
  · unfold solveFirstLayerCorners
    rw [h]
    rfl
  · unfold solveMiddleLayer
    rw [h]
    rfl
  · unfold solveTopCross
    rw [h]
    rfl
  · unfold orientLastLayer
    rw [h]
    rfl
  · unfold permuteLastLayer
    rw [h]
    rfl

theorem phase_without_moves_when_check_holds_witness :
    (isCrossSolved initializeSolvedState = true ∧
      isFirstLayerSolved initializeSolvedState = true ∧
      isMiddleLayerSolved initializeSolvedState = true ∧
      isTopCrossSolved initializeSolvedState = true ∧
      isLastLayerOriented initializeSolvedState = true ∧
      initializeSolvedState.isSolved = true) ∧
    (solveCross initializeSolvedState = [] ∧
      solveFirstLayerCorners initializeSolvedState = [] ∧
      solveMiddleLayer initializeSolvedState = [] ∧
      solveTopCross initializeSolvedState zeroRng = ([], zeroRng) ∧
      orientLastLayer initializeSolvedState zeroRng = ([], zeroRng) ∧
      permuteLastLayer initializeSolvedState zeroRng = ([], zeroRng)) :=
  ⟨by decide,
    (phase_without_moves_when_check_holds initializeSolvedState zeroRng).1 (by decide),
    (phase_without_moves_when_check_holds initializeSolvedState zeroRng).2.1 (by decide),
    (phase_without_moves_when_check_holds initializeSolvedState zeroRng).2.2.1 (by decide),
    (phase_without_moves_when_check_holds initializeSolvedState zeroRng).2.2.2.1 (by decide),
    (phase_without_moves_when_check_holds initializeSolvedState zeroRng).2.2.2.2.1 (by decide),
    (phase_without_moves_when_check_holds initializeSolvedState zeroRng).2.2.2.2.2 (by decide)⟩

/-- C37: for every cube whose Up face is not uniform, `orientLastLayer` returns the fixed
fallback sequence `R U R' U R U2 R' F R U R' U' F'`, whatever the random source: the pattern
that `detectPattern` reports for the layer `"oll"` is one of `T`, `Y`, `A`, `U`, `H`, `Z`, and
for none of them is `OLL_<pattern>` a key of the algorithm table. -/
theorem orientLastLayer_fallback (state : CubeState) (rng : Rng)
    (h : isLastLayerOriented state = false) :
    (orientLastLayer state rng).1 = ollFallback ∧
    (detectPattern state "oll" rng).1 ∈ patternNames ∧
    ∀ p ∈ patternNames, algorithmsContains ("OLL_" ++ toUpper p) = false := by
  have hkeys : ∀ p ∈ patternNames, algorithmsContains ("OLL_" ++ toUpper p) = false := by
    decide
  have hpat : (detectPattern state "oll" rng).1 ∈ patternNames := by
    rw [detectPattern_other state "oll" rng (by decide)]
    show patternNames.getD (rng.draws rng.pos % 6) "" ∈ patternNames
    have hlt : rng.draws rng.pos % 6 < 6 := Nat.mod_lt _ (by decide)
    generalize rng.draws rng.pos % 6 = k at hlt
    interval_cases k <;> decide
  refine ⟨?_, hpat, hkeys⟩
  unfold orientLastLayer
  rw [h]
  simp only [Bool.not_false, if_true]
  rw [if_neg (by rw [hkeys _ hpat]; decide)]
  rfl

theorem orientLastLayer_fallback_witness :
    isLastLayerOriented afterR = false ∧
    ((orientLastLayer afterR zeroRng).1 = ollFallback ∧
      (detectPattern afterR "oll" zeroRng).1 ∈ patternNames ∧
      ∀ p ∈ patternNames, algorithmsContains ("OLL_" ++ toUpper p) = false) :=
  ⟨by decide, orientLastLayer_fallback afterR zeroRng (by decide)⟩

/-- C38: `applyMove` leaves the centre sticker (row 1, column 1) of each of the six faces as
it is, for every cube and every move string, so in particular for the twelve moves of the
alphabet. -/
theorem applyMove_keeps_centres (s : CubeState) (move : String) (face : CubeFace) :
    (applyMove s move).get face 1 1 = s.get face 1 1 := by
  apply applyMove_cases (fun t => t.get face 1 1 = s.get face 1 1)
  all_goals cases face <;> rfl

/-- C39: the result of `cancelMoves` has no two adjacent elements that are mutually inverse
moves, in either order, and `cancelMoves` is idempotent. -/
theorem cancelMoves_no_adjacent_inverse (l : List String) :
    (cancelMoves l).Chain' (fun x y => ¬ MutuallyInverse x y ∧ ¬ MutuallyInverse y x) ∧
    cancelMoves (cancelMoves l) = cancelMoves l := by
  have hstack := foldl_cancelStep_chain l [] List.chain'_nil
  have hchain : (cancelMoves l).Chain'
      (fun x y => ¬ MutuallyInverse x y ∧ ¬ MutuallyInverse y x) := by
    unfold cancelMoves
    rw [List.chain'_reverse]
    refine hstack.imp ?_
    intro top next hc
    have hn : ¬ MutuallyInverse top next := fun hm => by
      rw [(cancels_iff top next).2 hm] at hc
      exact Bool.noConfusion hc
    exact ⟨fun hm => hn (mutuallyInverse_symm hm), hn⟩
  refine ⟨hchain, ?_⟩
  have hfold := foldl_cancelStep_of_chain (cancelMoves l) []
    (by simpa using hchain.imp fun _ _ h => h.1)
  show ((cancelMoves l).foldl cancelStep []).reverse = cancelMoves l
  rw [hfold]
  simp

/-- C40: `detectPattern(state, "top")` returns `"dot"` when none of the four Up edge stickers
`(0,1)`, `(1,0)`, `(1,2)`, `(2,1)` equals the Up centre, `"line"` when exactly two do, `"L"`
when exactly three do, and `"cross"` when exactly one or all four do. -/
theorem detectPattern_top_by_count (state : CubeState) (rng : Rng) :
    upEdgeMatches state ≤ 4 ∧
    (detectPattern state "top" rng).1 =
      (if upEdgeMatches state = 0 then "dot"
       else if upEdgeMatches state = 2 then "line"
       else if upEdgeMatches state = 3 then "L"
       else "cross") ∧
    ((detectPattern state "top" rng).1 = "cross" ↔
      upEdgeMatches state = 1 ∨ upEdgeMatches state = 4) := by
  unfold detectPattern upEdgeMatches edgePositions getColor
  simp only [if_true, List.filter_cons, List.filter_nil]
  generalize (state.get .Up 0 1 == state.get .Up 1 1) = b1
  generalize (state.get .Up 1 0 == state.get .Up 1 1) = b2
  generalize (state.get .Up 1 2 == state.get .Up 1 1) = b3
  generalize (state.get .Up 2 1 == state.get .Up 1 1) = b4
  cases b1 <;> cases b2 <;> cases b3 <;> cases b4 <;> simp

/-! ## Theorems: placing a value, one round of techniques, termination -/

/-- C33: on a valid grid, for an in-range cell and a value in `1 .. 9`, the grid obtained by
`setValue` is valid exactly when `isValidValue` held before; this holds for every in-range
cell, so in particular for an empty one. -/
theorem setValue_valid_iff (g : SudokuGrid) (r c v : Nat) (hg : g.isValid = true)
    (hr : r < 9) (hc : c < 9) (hv1 : 1 ≤ v) (hv9 : v ≤ 9) :
    (g.setValue r c v).isValid = true ↔ g.isValidValue r c v = true := by
  constructor
  · intro h
    have hn := (SudokuGrid.isValid_iff _).1 h
    rw [g.isValidValue_iff]
    refine ⟨hr, hc, hv1, hv9, ?_⟩
    intro r' c' hr' hc' hp heq
    have h1 := hn r c r' c' hr hc hr' hc' hp
    rw [g.cell_setValue r c v hr hc hv9, g.cell_setValue r c v hr hc hv9, if_pos ⟨rfl, rfl⟩] at h1
    have hne : ¬ (r' = r ∧ c' = c) := by
      rintro ⟨rfl, rfl⟩
      exact hp.1.elim (fun h => h rfl) (fun h => h rfl)
    rw [if_neg hne] at h1
    exact h1 (by omega) heq.symm
  · intro h
    exact (SudokuGrid.isValid_iff _).2 (noClash_setValue ((g.isValid_iff).1 hg) r c v h)

theorem setValue_valid_iff_witness :
    (sampleGrid.isValid = true ∧ 0 < 9 ∧ 2 < 9 ∧ 1 ≤ 4 ∧ 4 ≤ 9) ∧
    ((sampleGrid.setValue 0 2 4).isValid = true ↔ sampleGrid.isValidValue 0 2 4 = true) :=
  ⟨by decide, setValue_valid_iff sampleGrid 0 2 4 (by decide) (by decide) (by decide)
    (by decide) (by decide)⟩

theorem techniqueLoop_cons (t : String) (rest : List String) (g : SudokuGrid)
    (steps : List SolutionStep) (r : Bool × SudokuGrid × List SolutionStep)
    (hr : (if t = "naked_singles" then applyNakedSingles g steps
        else if t = "hidden_singles" then applyHiddenSingles g steps
        else if t = "naked_pairs" then applyNakedPairs g steps
        else if t = "pointing_pairs" then applyPointingPairs g steps
        else if t = "box_line_reduction" then applyBoxLineReduction g steps
        else (false, g, steps)) = r) :
    techniqueLoop (t :: rest) g steps =
      if r.1 = true then r else techniqueLoop rest r.2.1 r.2.2 := by
  subst hr
  rfl

theorem techniqueLoop_naked (rest : List String) (g : SudokuGrid) (steps : List SolutionStep) :
    techniqueLoop ("naked_singles" :: rest) g steps =
      if (applyNakedSingles g steps).1 = true then applyNakedSingles g steps
      else techniqueLoop rest (applyNakedSingles g steps).2.1 (applyNakedSingles g steps).2.2 :=
  techniqueLoop_cons _ rest g steps _ (if_pos rfl)

theorem techniqueLoop_hidden (rest : List String) (g : SudokuGrid) (steps : List SolutionStep) :
    techniqueLoop ("hidden_singles" :: rest) g steps =
      if (applyHiddenSingles g steps).1 = true then applyHiddenSingles g steps
      else techniqueLoop rest (applyHiddenSingles g steps).2.1 (applyHiddenSingles g steps).2.2 :=
  techniqueLoop_cons _ rest g steps _
    ((if_neg (show ¬ ("hidden_singles" = "naked_singles") by decide)).trans (if_pos rfl))

theorem techniqueLoop_stubs (g : SudokuGrid) (steps : List SolutionStep) :
    techniqueLoop ["naked_pairs", "pointing_pairs", "box_line_reduction"] g steps =
      if (applyNakedPairs g steps).1 = true then applyNakedPairs g steps
      else if (applyPointingPairs g steps).1 = true then applyPointingPairs g steps
      else if (applyBoxLineReduction g steps).1 = true then applyBoxLineReduction g steps
      else (false, g, steps) :=
  rfl

/-- The ladder of `applySolvingTechniques`: the result is that of the first technique, in the
order of `m_techniqueOrder`, that reports progress, each technique being run on the grid as
the caller passed it. -/
theorem applySolvingTechniques_ladder (g : SudokuGrid) (steps : List SolutionStep) :
    applySolvingTechniques g steps =
      if (applyNakedSingles g steps).1 = true then applyNakedSingles g steps
      else if (applyHiddenSingles g steps).1 = true then applyHiddenSingles g steps
      else if (applyNakedPairs g steps).1 = true then applyNakedPairs g steps
      else if (applyPointingPairs g steps).1 = true then applyPointingPairs g steps
      else if (applyBoxLineReduction g steps).1 = true then applyBoxLineReduction g steps
      else (false, g, steps) := by
  have hn := applyNakedSingles_run g steps
  have hh := applyHiddenSingles_run g steps
  unfold applySolvingTechniques m_techniqueOrder
  rw [techniqueLoop_naked]
  by_cases h1 : (applyNakedSingles g steps).1 = true
  · rw [if_pos h1, if_pos h1]
  rw [if_neg h1, if_neg h1]
  have e1 := hn.of_no_progress (by simpa using h1)
  rw [e1]
  dsimp only
  rw [techniqueLoop_hidden]
  by_cases h2 : (applyHiddenSingles g steps).1 = true
  · rw [if_pos h2, if_pos h2]
  rw [if_neg h2, if_neg h2]
  have e2 := hh.of_no_progress (by simpa using h2)
  rw [e2]
  exact techniqueLoop_stubs g steps

/-- C35: one invocation of `applySolvingTechniques` delivers the result of the first technique,
in the order naked singles, hidden singles, naked pairs, pointing pairs, box/line reduction,
that reports progress, and runs none after it; it only fills empty cells; it returns `true`
exactly when the grid has fewer empty cells afterwards, that is, when at least one empty cell
was filled; and when it returns `false` the grid is unchanged. -/
theorem applySolvingTechniques_first_progress (g : SudokuGrid) (steps : List SolutionStep) :
    (applySolvingTechniques g steps =
      if (applyNakedSingles g steps).1 = true then applyNakedSingles g steps
      else if (applyHiddenSingles g steps).1 = true then applyHiddenSingles g steps
      else if (applyNakedPairs g steps).1 = true then applyNakedPairs g steps
      else if (applyPointingPairs g steps).1 = true then applyPointingPairs g steps
      else if (applyBoxLineReduction g steps).1 = true then applyBoxLineReduction g steps
      else (false, g, steps)) ∧
    Extends g (applySolvingTechniques g steps).2.1 ∧
    ((applySolvingTechniques g steps).1 = true ↔
      emptyCount (applySolvingTechniques g steps).2.1 < emptyCount g) ∧
    ((applySolvingTechniques g steps).1 = true ↔
      ∃ r c, r < 9 ∧ c < 9 ∧ g.cell r c = 0 ∧
        (applySolvingTechniques g steps).2.1.cell r c ≠ 0) ∧
    ((applySolvingTechniques g steps).1 = false → (applySolvingTechniques g steps).2.1 = g) := by
  obtain ⟨hext, _, ht, hf⟩ := applySolvingTechniques_inv g steps
  have hiff : (applySolvingTechniques g steps).1 = true ↔
      emptyCount (applySolvingTechniques g steps).2.1 < emptyCount g := by
    constructor
    · exact ht
    · intro hlt
      cases hb : (applySolvingTechniques g steps).1 with
      | true => rfl
      | false =>
        rw [hf hb] at hlt
        exact absurd hlt (Nat.lt_irrefl _)
  refine ⟨applySolvingTechniques_ladder g steps, hext, hiff, ?_, hf⟩
  constructor
  · intro hb
    by_contra hno
    have hsame : (applySolvingTechniques g steps).2.1 = g := by
      apply SudokuGrid.ext_cell
      intro r c hr hc
      by_cases h0 : g.cell r c = 0
      · by_contra hne
        exact hno ⟨r, c, hr, hc, h0, by rw [h0] at hne; exact hne⟩
      · exact hext r c hr hc h0
    have hlt := ht hb
    rw [hsame] at hlt
    exact Nat.lt_irrefl _ hlt
  · rintro ⟨r, c, hr, hc, h0, hne⟩
    cases hb : (applySolvingTechniques g steps).1 with
    | true => rfl
    | false =>
      rw [hf hb] at hne
      exact absurd h0 hne

/-! ## Theorems: termination of the recursive searches -/

/-- The loop over the values of `backtrackSolve` returns, and gives the grid back on `false`,
when the recursive call does so on the grid with each legal value placed. -/
theorem tryValues_returns (recurse : SudokuGrid → Option (Bool × SudokuGrid)) (g : SudokuGrid)
    (r c : Nat) (h0 : g.cell r c = 0)
    (hrec : ∀ v, g.isValidValue r c v = true →
      ∃ b g', recurse (g.setValue r c v) = some (b, g') ∧ (b = false → g' = g.setValue r c v))
    (vals : List Nat) :
    ∃ b g', tryValues recurse r c vals g = some (b, g') ∧ (b = false → g' = g) := by
  induction vals with
  | nil => exact ⟨false, g, rfl, fun _ => rfl⟩
  | cons v rest ih =>
    unfold tryValues
    by_cases hv : g.isValidValue r c v = true
    · rw [if_pos hv]
      obtain ⟨b, g', hres, hfalse⟩ := hrec v hv
      rw [hres]
      cases b with
      | true => exact ⟨true, g', rfl, fun h => Bool.noConfusion h⟩
      | false =>
        simp only
        rw [hfalse rfl, setValue_restore g r c v h0]
        exact ih
    · rw [if_neg hv]
      exact ih

/-- With fuel above the number of empty cells `backtrackSolve` returns on every grid and from
every start position, and a `false` result comes with the grid as it was. -/
theorem backtrackSolve_returns (fuel : Nat) (g : SudokuGrid) (row col : Nat)
    (hfuel : emptyCount g < fuel) :
    ∃ b g', backtrackSolve fuel g row col = some (b, g') ∧ (b = false → g' = g) := by
  induction fuel generalizing g row col with
  | zero => omega
  | succ fuel ih =>
    unfold backtrackSolve
    cases hfind : findNextEmptyCell g row col with
    | none => exact ⟨g.isSolved, g, rfl, fun _ => rfl⟩
    | some p =>
      obtain ⟨r, c⟩ := p
      simp only
      obtain ⟨hr, hc, h0, _⟩ := findNextEmptyCell_some hfind
      refine tryValues_returns _ g r c h0 (fun v hv => ?_) _
      obtain ⟨_, _, hv1, hv9, _⟩ := (g.isValidValue_iff r c v).1 hv
      have := emptyCount_setValue g r c v hr hc (by omega) hv9 h0
      exact ih (g.setValue r c v) r c (by omega)

/-- The loop over the values of `countSolutions` returns with the grid as it was when the
recursive call does so on the grid with each legal value placed. -/
theorem countValues_returns (recurse : SudokuGrid → Nat → Option (SudokuGrid × Nat))
    (g : SudokuGrid) (r c : Nat) (h0 : g.cell r c = 0)
    (hrec : ∀ v n, g.isValidValue r c v = true →
      ∃ n', recurse (g.setValue r c v) n = some (g.setValue r c v, n'))
    (vals : List Nat) (n : Nat) :
    ∃ n', countValues recurse r c vals g n = some (g, n') := by
  induction vals generalizing n with
  | nil => exact ⟨n, rfl⟩
  | cons v rest ih =>
    unfold countValues
    by_cases hv : g.isValidValue r c v = true
    · rw [if_pos hv]
      obtain ⟨n', hres⟩ := hrec v n hv
      rw [hres]
      simp only
      rw [setValue_restore g r c v h0]
      by_cases hmax : n' ≥ m_maxSolutions
      · rw [if_pos hmax]
        exact ⟨n', rfl⟩
      · rw [if_neg hmax]
        exact ih n'
    · rw [if_neg hv]
      exact ih n

/-- With fuel above the number of empty cells `countSolutions` returns on every grid, from
every start position and count, with the grid as it was. -/
theorem countSolutions_returns (fuel : Nat) (g : SudokuGrid) (n row col : Nat)
    (hfuel : emptyCount g < fuel) :
    ∃ n', countSolutions fuel g n row col = some (g, n') := by
  induction fuel generalizing g n row col with
  | zero => omega
  | succ fuel ih =>
    unfold countSolutions
    by_cases h2 : n ≥ m_maxSolutions
    · rw [if_pos h2]
      exact ⟨n, rfl⟩
    rw [if_neg h2]
    cases hfind : findNextEmptyCell g row col with
    | none => exact ⟨n + 1, rfl⟩
    | some p =>
      obtain ⟨r, c⟩ := p
      simp only
      obtain ⟨hr, hc, h0, _⟩ := findNextEmptyCell_some hfind
      refine countValues_returns _ g r c h0 (fun v m hv => ?_) _ n
      obtain ⟨_, _, hv1, hv9, _⟩ := (g.isValidValue_iff r c v).1 hv
      have := emptyCount_setValue g r c v hr hc (by omega) hv9 h0
      exact ih (g.setValue r c v) m r c (by omega)

/-- C36: `backtrackSolve`, `countSolutions` and `solveWithSteps` terminate on every grid. The
fuel of the three functions counts the nested calls, and they return as soon as the fuel
exceeds (for `solveWithSteps`: reaches) the number of empty cells of the input, which is at
most 81. Each recursive call is made on a grid with strictly fewer empty cells than the
caller's grid: for `backtrackSolve` and `countSolutions` the grid with a legal value placed at
the empty cell found, the grid being restored after a call that fails; for `solveWithSteps`
the working grid after the techniques with a candidate placed at its first empty cell. -/
theorem searches_terminate (g : SudokuGrid) (row col count : Nat) :
    emptyCount g ≤ 81 ∧
    (∀ fuel, emptyCount g < fuel →
      ∃ b g', backtrackSolve fuel g row col = some (b, g') ∧ (b = false → g' = g)) ∧
    (∀ fuel, emptyCount g < fuel →
      ∃ n, countSolutions fuel g count row col = some (g, n)) ∧
    (∀ fuel, emptyCount g ≤ fuel → ∃ steps, solveWithSteps fuel g = some steps) ∧
    (∀ r c v, findNextEmptyCell g row col = some (r, c) → g.isValidValue r c v = true →
      emptyCount (g.setValue r c v) < emptyCount g) ∧
    (∀ r c v, findNextEmptyCell (stepsLoop 100 true (copyGrid g) []).1 0 0 = some (r, c) →
      v ∈ getCandidates (stepsLoop 100 true (copyGrid g) []).1 r c →
      emptyCount ((stepsLoop 100 true (copyGrid g) []).1.setValue r c v) < emptyCount g) := by
  refine ⟨emptyCount_le g, fun fuel h => backtrackSolve_returns fuel g row col h,
    fun fuel h => countSolutions_returns fuel g count row col h, fun fuel h => ?_, ?_, ?_⟩
  · obtain ⟨steps, hs, _⟩ := solveWithSteps_trace fuel g h
    exact ⟨steps, hs⟩
  · intro r c v hfind hv
    obtain ⟨hr, hc, h0, _⟩ := findNextEmptyCell_some hfind
    obtain ⟨_, _, hv1, hv9, _⟩ := (g.isValidValue_iff r c v).1 hv
    have := emptyCount_setValue g r c v hr hc (by omega) hv9 h0
    omega
  · intro r c v hfind hv
    rw [copyGrid_eq] at hfind hv ⊢
    obtain ⟨new, hloop, htr⟩ := stepsLoop_trace 100 true g []
    rw [hloop] at hfind hv ⊢
    simp only at hfind hv ⊢
    obtain ⟨hr, hc, h0, _⟩ := findNextEmptyCell_some hfind
    obtain ⟨_, _, hv1, hv9, _⟩ :=
      ((replay g new).isValidValue_iff r c v).1 (mem_getValidValues hv)
    have := emptyCount_setValue (replay g new) r c v hr hc (by omega) hv9 h0
    have hle := htr.emptyCount_replay
    omega

/-! ## Theorems: the steps of `solveWithSteps` on a valid, unsolved grid -/

theorem noNotice_append {l : List SolutionStep} (h : ∀ s ∈ l, s ≠ solvedStep)
    (t : SolutionStep) (ht : t.technique ≠ "validation") :
    ∀ s ∈ l ++ [t], s ≠ solvedStep := by
  intro s hs
  rcases List.mem_append.1 hs with h1 | h1
  · exact h s h1
  · rw [List.mem_singleton.1 h1]
    intro heq
    exact ht (congrArg SolutionStep.technique heq)

/-- One cell of `applyNakedSingles` never records the notice of a solved grid. -/
theorem nakedSingleStep_noNotice (p : Nat × Nat) (acc : Bool × SudokuGrid × List SolutionStep)
    (h : ∀ s ∈ acc.2.2, s ≠ solvedStep) :
    ∀ s ∈ (nakedSingleStep acc p).2.2, s ≠ solvedStep := by
  unfold nakedSingleStep
  simp only
  by_cases h0 : (acc.2.1.getValue p.1 p.2 == 0) = true
  · rw [if_pos h0]
    by_cases h1 : ((getCandidates acc.2.1 p.1 p.2).length == 1) = true
    · rw [if_pos h1]
      exact noNotice_append h _ (show "naked_single" ≠ "validation" by decide)
    · rw [if_neg h1]
      exact h
  · rw [if_neg h0]
    exact h

/-- One unit and value of `applyHiddenSingles` never record the notice of a solved grid. -/
theorem hiddenSingleStep_noNotice (unit : String) (uv : List (Nat × Nat) × Nat)
    (acc : Bool × SudokuGrid × List SolutionStep) (h : ∀ s ∈ acc.2.2, s ≠ solvedStep) :
    ∀ s ∈ (hiddenSingleStep unit acc uv).2.2, s ≠ solvedStep := by
  unfold hiddenSingleStep
  simp only
  by_cases h1 : ((uv.1.filter fun p =>
      acc.2.1.getValue p.1 p.2 == 0 && acc.2.1.isValidValue p.1 p.2 uv.2).length == 1) = true
  · rw [if_pos h1]
    exact noNotice_append h _ (show "hidden_single" ≠ "validation" by decide)
  · rw [if_neg h1]
    exact h

theorem applyNakedSingles_noNotice (w : SudokuGrid) (steps : List SolutionStep)
    (h : ∀ s ∈ steps, s ≠ solvedStep) :
    ∀ s ∈ (applyNakedSingles w steps).2.2, s ≠ solvedStep := by
  unfold applyNakedSingles
  exact foldl_inv
    (fun acc : Bool × SudokuGrid × List SolutionStep => ∀ s ∈ acc.2.2, s ≠ solvedStep)
    (fun _ => True) nakedSingleStep (fun acc p hb _ => nakedSingleStep_noNotice p acc hb)
    allCells (fun _ _ => trivial) (false, w, steps) h

theorem hiddenSingles_fold_noNotice (unit : String) (l : List (List (Nat × Nat) × Nat))
    (acc : Bool × SudokuGrid × List SolutionStep) (h : ∀ s ∈ acc.2.2, s ≠ solvedStep) :
    ∀ s ∈ (l.foldl (hiddenSingleStep unit) acc).2.2, s ≠ solvedStep :=
  foldl_inv (fun acc : Bool × SudokuGrid × List SolutionStep => ∀ s ∈ acc.2.2, s ≠ solvedStep)
    (fun _ => True) (hiddenSingleStep unit)
    (fun acc uv hb _ => hiddenSingleStep_noNotice unit uv acc hb) l (fun _ _ => trivial) _ h

theorem applyHiddenSingles_noNotice (w : SudokuGrid) (steps : List SolutionStep)
    (h : ∀ s ∈ steps, s ≠ solvedStep) :
    ∀ s ∈ (applyHiddenSingles w steps).2.2, s ≠ solvedStep := by
  unfold applyHiddenSingles
  simp only
  apply hiddenSingles_fold_noNotice
  apply hiddenSingles_fold_noNotice
  apply hiddenSingles_fold_noNotice
  exact h

theorem chain_steps_cases (n h : Bool × SudokuGrid × List SolutionStep) :
    (if n.1 = true then n else if h.1 = true then h else (false, h.2.1, h.2.2)).2.2 = n.2.2 ∨
    (if n.1 = true then n else if h.1 = true then h else (false, h.2.1, h.2.2)).2.2 = h.2.2 := by
  by_cases h1 : n.1 = true
  · rw [if_pos h1]
    exact Or.inl rfl
  rw [if_neg h1]
  by_cases h2 : h.1 = true
  · rw [if_pos h2]
    exact Or.inr rfl
  rw [if_neg h2]
  exact Or.inr rfl

theorem techniqueChain_noNotice (w : SudokuGrid) (steps : List SolutionStep)
    (h : ∀ s ∈ steps, s ≠ solvedStep) :
    ∀ s ∈ (techniqueChain w steps).2.2, s ≠ solvedStep := by
  have hn := applyNakedSingles_noNotice w steps h
  have hh := applyHiddenSingles_noNotice (applyNakedSingles w steps).2.1
    (applyNakedSingles w steps).2.2 hn
  rw [techniqueChain_eq]
  rcases chain_steps_cases (applyNakedSingles w steps)
    (applyHiddenSingles (applyNakedSingles w steps).2.1 (applyNakedSingles w steps).2.2)
    with e | e
  · rw [e]
    exact hn
  · rw [e]
    exact hh

/-- The loop of `solveWithSteps` never records the notice of a solved grid. -/
theorem stepsLoop_noNotice (n : Nat) (p : Bool) (w : SudokuGrid) (steps : List SolutionStep)
    (h : ∀ s ∈ steps, s ≠ solvedStep) :
    ∀ s ∈ (stepsLoop n p w steps).2, s ≠ solvedStep := by
  induction n generalizing p w steps with
  | zero => exact h
  | succ n ih =>
    rw [stepsLoop_succ]
    by_cases hc : (p && !w.isSolved) = true
    · rw [if_pos hc]
      exact ih _ _ _ (techniqueChain_noNotice w steps h)
    · rw [if_neg hc]
      exact h

theorem stepsLoop_false (n : Nat) (w : SudokuGrid) (steps : List SolutionStep) :
    stepsLoop n false w steps = (w, steps) := by
  cases n with
  | zero => rfl
  | succ m =>
    rw [stepsLoop_succ, if_neg (by simp)]

/-- With more rounds than empty cells, the loop of `solveWithSteps` ends on a solved grid or on
a grid on which a round of techniques reports no progress. -/
theorem stepsLoop_end (n : Nat) (p : Bool) (w : SudokuGrid) (steps : List SolutionStep)
    (hn : emptyCount w < n) (hp : p = false → (techniqueChain w steps).1 = false) :
    (stepsLoop n p w steps).1.isSolved = true ∨
      (techniqueChain (stepsLoop n p w steps).1 (stepsLoop n p w steps).2).1 = false := by
  induction n generalizing p w steps with
  | zero => omega
  | succ n ih =>
    rw [stepsLoop_succ]
    by_cases hc : (p && !w.isSolved) = true
    · rw [if_pos hc]
      have hrun := (techniqueChain_run w steps).1
      have hinv := techniqueChain_inv w steps
      cases h1 : (techniqueChain w steps).1 with
      | false =>
        have e := hrun.of_no_progress h1
        have hq : (if ((techniqueChain w steps).2.2.length == steps.length) = true then false
            else false) = false := by
          split_ifs <;> rfl
        rw [hq, stepsLoop_false, e]
        right
        show (techniqueChain w steps).1 = false
        exact h1
      | true =>
        obtain ⟨new, h2, _, _, h4⟩ := hrun
        have hne := h4.1 h1
        have hlen : ((techniqueChain w steps).2.2.length == steps.length) = false := by
          rw [h2, List.length_append]
          have : new.length ≠ 0 := fun h0 => hne (List.length_eq_zero.1 h0)
          simp only [beq_eq_false_iff_ne, ne_eq]
          omega
        rw [hlen]
        have hlt := hinv.2.2.1 h1
        exact ih _ _ _ (by omega) (fun h => by simp at h)
    · rw [if_neg hc]
      cases hsol : w.isSolved with
      | true => exact Or.inl rfl
      | false =>
        right
        apply hp
        cases p with
        | false => rfl
        | true => simp [hsol] at hc

/-- A cell that `applyNakedSingles` leaves alone is not an empty cell with one candidate. -/
theorem nakedSingleStep_false (p : Nat × Nat) (acc : Bool × SudokuGrid × List SolutionStep)
    (h : (nakedSingleStep acc p).1 = false) :
    nakedSingleStep acc p = acc ∧
      (acc.2.1.getValue p.1 p.2 = 0 → (getCandidates acc.2.1 p.1 p.2).length ≠ 1) := by
  unfold nakedSingleStep at h ⊢
  simp only at h ⊢
  by_cases h0 : (acc.2.1.getValue p.1 p.2 == 0) = true
  · rw [if_pos h0] at h ⊢
    by_cases h1 : ((getCandidates acc.2.1 p.1 p.2).length == 1) = true
    · rw [if_pos h1] at h
      exact Bool.noConfusion h
    · rw [if_neg h1]
      exact ⟨rfl, fun _ hlen => h1 (by simp [hlen])⟩
  · rw [if_neg h0]
    exact ⟨rfl, fun hz => absurd (by simp [hz]) h0⟩

theorem nakedSingles_fold_none (l : List (Nat × Nat))
    (acc : Bool × SudokuGrid × List SolutionStep)
    (h : (l.foldl nakedSingleStep acc).1 = false) :
    l.foldl nakedSingleStep acc = acc ∧ acc.1 = false ∧
      ∀ p ∈ l, acc.2.1.getValue p.1 p.2 = 0 → (getCandidates acc.2.1 p.1 p.2).length ≠ 1 := by
  induction l generalizing acc with
  | nil => exact ⟨rfl, h, fun _ hp => absurd hp (List.not_mem_nil _)⟩
  | cons p rest ih =>
    rw [List.foldl_cons] at h ⊢
    obtain ⟨e, hf, hall⟩ := ih _ h
    obtain ⟨e2, hp⟩ := nakedSingleStep_false p acc hf
    rw [e2] at hf hall
    refine ⟨e.trans e2, hf, fun q hq => ?_⟩
    rcases List.mem_cons.1 hq with rfl | hq'
    · exact hp
    · exact hall q hq'

/-- When `applyNakedSingles` reports no progress, no empty cell has exactly one candidate. -/
theorem applyNakedSingles_none (w : SudokuGrid) (steps : List SolutionStep)
    (h : (applyNakedSingles w steps).1 = false) (r c : Nat) (hr : r < 9) (hc : c < 9)
    (h0 : w.cell r c = 0) : (getCandidates w r c).length ≠ 1 := by
  obtain ⟨_, _, hall⟩ := nakedSingles_fold_none allCells (false, w, steps) h
  exact hall (r, c) ((mem_allCells _).2 ⟨hr, hc⟩) (by rw [SudokuGrid.getValue_eq_cell]; exact h0)

/-- A value that completes a grid to a solved one is the only candidate of its cell. -/
theorem candidates_of_last_cell (w : SudokuGrid) (r c v : Nat) (hr : r < 9) (hc : c < 9)
    (hv9 : v ≤ 9) (hsol : (w.setValue r c v).isSolved = true) (u : Nat)
    (hu : u ∈ getCandidates w r c) : u = v := by
  by_contra hne
  obtain ⟨_, _, hu1, hu9, hfree⟩ := (w.isValidValue_iff r c u).1 (mem_getValidValues hu)
  obtain ⟨p, hp, hcell⟩ := unit_has_value hsol (isUnit_rowCells r hr) u hu1 hu9
  unfold rowCells at hp
  obtain ⟨c', hc', rfl⟩ := List.mem_map.1 hp
  rw [List.mem_range] at hc'
  rw [w.cell_setValue r c v hr hc hv9] at hcell
  by_cases hcc : c' = c
  · rw [if_pos ⟨rfl, hcc⟩] at hcell
    exact hne hcell.symm
  · rw [if_neg (fun h => hcc h.2)] at hcell
    exact hfree r c' hr hc' ⟨Or.inr (fun h => hcc h.symm), Or.inl rfl⟩ hcell

theorem getCandidates_pairwise (w : SudokuGrid) (r c : Nat) :
    (getCandidates w r c).Pairwise (fun a b => a < b) := by
  unfold getCandidates SudokuGrid.getValidValues
  split_ifs
  · exact List.Pairwise.nil
  · exact List.Pairwise.sublist (List.filter_sublist _) (by decide)

theorem candidates_length_of_last_cell (w : SudokuGrid) (r c v : Nat) (rest : List Nat)
    (hr : r < 9) (hc : c < 9) (hcand : getCandidates w r c = v :: rest)
    (hsol : (w.setValue r c v).isSolved = true) : (getCandidates w r c).length = 1 := by
  have hv : v ∈ getCandidates w r c := by rw [hcand]; exact List.mem_cons_self _ _
  obtain ⟨_, _, _, hv9, _⟩ := (w.isValidValue_iff r c v).1 (mem_getValidValues hv)
  have hall := candidates_of_last_cell w r c v hr hc hv9 hsol
  have hpw := getCandidates_pairwise w r c
  have hpw' : (v :: rest).Pairwise (fun a b => a < b) := by
    rw [← hcand]
    exact hpw
  cases rest with
  | nil => rw [hcand]; rfl
  | cons u tl =>
    have h1 : v < u := (List.pairwise_cons.1 hpw').1 u (List.mem_cons_self _ _)
    have h2 : u = v := hall u (by rw [hcand]; exact List.mem_cons_of_mem _ (List.mem_cons_self _ _))
    omega

/-- On a valid, unsolved grid the body of `solveWithSteps` returns no notice of a solved grid
when the recursive call does so on every valid, unsolved grid with fewer empty cells: the grid
after a guess is valid and never solved. -/
theorem solveWithStepsBody_noNotice (recurse : SudokuGrid → Option (List SolutionStep))
    (g : SudokuGrid) (hv : g.isValid = true) (hs : g.isSolved = false)
    (hrec : ∀ w, w.isValid = true → w.isSolved = false → emptyCount w + 1 ≤ emptyCount g →
      ∃ steps, recurse w = some steps ∧ ∀ s ∈ steps, s ≠ solvedStep) :
    ∃ steps, solveWithStepsBody recurse g = some steps ∧ ∀ s ∈ steps, s ≠ solvedStep := by
  rw [solveWithStepsBody_unsolved recurse g hv hs]
  obtain ⟨new, hloop, htr⟩ := stepsLoop_trace 100 true g []
  have hno := stepsLoop_noNotice 100 true g [] (fun _ h => absurd h (List.not_mem_nil _))
  have hend := stepsLoop_end 100 true g []
    (Nat.lt_of_le_of_lt (emptyCount_le g) (by decide)) (fun h => Bool.noConfusion h)
  rw [hloop] at hno hend ⊢
  simp only [List.nil_append] at hno hend ⊢
  by_cases hsol : (replay g new).isSolved = true
  · rw [if_pos hsol]
    exact ⟨new, rfl, hno⟩
  rw [if_neg hsol]
  cases hf : findNextEmptyCell (replay g new) 0 0 with
  | none => exact ⟨new, rfl, hno⟩
  | some nextCell =>
    obtain ⟨r, c⟩ := nextCell
    simp only
    by_cases hcand : getCandidates (replay g new) r c = []
    · rw [if_pos hcand]
      exact ⟨new, rfl, hno⟩
    rw [if_neg hcand]
    obtain ⟨v, rest, hvr⟩ := List.exists_cons_of_ne_nil hcand
    rw [hvr, List.headD_cons]
    obtain ⟨hr, hc, h0, _⟩ := findNextEmptyCell_some hf
    have hmem : v ∈ getCandidates (replay g new) r c := by
      rw [hvr]
      exact List.mem_cons_self _ _
    have hval := mem_getValidValues hmem
    obtain ⟨_, _, hv1, hv9, _⟩ := ((replay g new).isValidValue_iff r c v).1 hval
    have hclash := htr.noClash_replay ((g.isValid_iff).1 hv)
    have hvalid' : ((replay g new).setValue r c v).isValid = true :=
      (SudokuGrid.isValid_iff _).2 (noClash_setValue hclash r c v hval)
    have hchain : (techniqueChain (replay g new) new).1 = false := by
      rcases hend with h | h
      · exact absurd h hsol
      · exact h
    have hnaked := ((techniqueChain_run (replay g new) new).2.1 hchain).1
    have hunsolved : ((replay g new).setValue r c v).isSolved = false := by
      cases hsol' : ((replay g new).setValue r c v).isSolved with
      | false => rfl
      | true =>
        exact absurd (candidates_length_of_last_cell _ r c v rest hr hc hvr hsol')
          (applyNakedSingles_none _ new hnaked r c hr hc h0)
    have hcount := emptyCount_setValue (replay g new) r c v hr hc (by omega) hv9 h0
    have hle := htr.emptyCount_replay
    obtain ⟨steps, hsteps, hno'⟩ := hrec ((replay g new).setValue r c v) hvalid' hunsolved
      (by omega)
    rw [hsteps]
    refine ⟨new ++ [guessStep r c v] ++ steps, rfl, ?_⟩
    intro s hmem'
    rcases List.mem_append.1 hmem' with h1 | h1
    · exact noNotice_append hno (guessStep r c v)
        (show "backtrack_guess" ≠ "validation" by decide) s h1
    · exact hno' s h1

/-- With fuel for every empty cell `solveWithSteps` returns, on a valid, unsolved grid, a list
without the notice of a solved grid. -/
theorem solveWithSteps_noNotice (fuel : Nat) (g : SudokuGrid) (hfuel : emptyCount g ≤ fuel)
    (hv : g.isValid = true) (hs : g.isSolved = false) :
    ∃ steps, solveWithSteps fuel g = some steps ∧ ∀ s ∈ steps, s ≠ solvedStep := by
  induction fuel generalizing g with
  | zero =>
    rw [solveWithSteps_zero]
    exact solveWithStepsBody_noNotice _ g hv hs fun w _ _ hw => by omega
  | succ fuel ih =>
    rw [solveWithSteps_succ]
    exact solveWithStepsBody_noNotice _ g hv hs fun w hv' hs' hw => ih w (by omega) hv' hs'

theorem traceOk_take {g : SudokuGrid} {steps : List SolutionStep} (h : TraceOk g steps)
    (i : Nat) : TraceOk g (steps.take i) := by
  have := (traceOk_append g (steps.take i) (steps.drop i)).1
    (by rw [List.take_append_drop]; exact h)
  exact this.1

/-- C32: for every valid, unsolved grid, `solveWithSteps` (with fuel for every cell) returns
steps that all have row and column in `0 .. 8` and value in `1 .. 9`; replaying the steps in
order on the input, each step writes into a cell that is empty at that moment a value that is
legal there, that is, conflicts with nothing in its row, column or box; and every intermediate
grid of the replay is valid and agrees with the input on all its non-zero cells. -/
theorem solveWithSteps_placements (fuel : Nat) (g : SudokuGrid) (hfuel : 81 ≤ fuel)
    (hv : g.isValid = true) (hs : g.isSolved = false) :
    ∃ steps, solveWithSteps fuel g = some steps ∧
      (∀ s ∈ steps, 0 ≤ s.row ∧ s.row ≤ 8 ∧ 0 ≤ s.col ∧ s.col ≤ 8 ∧
        1 ≤ s.value ∧ s.value ≤ 9) ∧
      (∀ i (hi : i < steps.length), ∃ r c : Nat,
        (steps.get ⟨i, hi⟩).row = (r : Int) ∧ (steps.get ⟨i, hi⟩).col = (c : Int) ∧
        (replay g (steps.take i)).getValue r c = 0 ∧
        (replay g (steps.take i)).isValidValue r c (steps.get ⟨i, hi⟩).value = true ∧
        replay g (steps.take (i + 1)) =
          (replay g (steps.take i)).setValue r c (steps.get ⟨i, hi⟩).value) ∧
      (∀ i, i ≤ steps.length →
        (replay g (steps.take i)).isValid = true ∧ Extends g (replay g (steps.take i))) := by
  have hfuel' : emptyCount g ≤ fuel := (emptyCount_le g).trans hfuel
  obtain ⟨steps, hres, htr⟩ := solveWithSteps_trace fuel g hfuel'
  obtain ⟨steps', hres', hno⟩ := solveWithSteps_noNotice fuel g hfuel' hv hs
  have heq : steps' = steps := Option.some.inj (hres'.symm.trans hres)
  rw [heq] at hno
  have hplace : ∀ i (hi : i < steps.length), ∃ r c : Nat,
      EmptyCellOf (replay g (steps.take i)) (steps.get ⟨i, hi⟩) r c ∧
      (replay g (steps.take i)).isValidValue r c (steps.get ⟨i, hi⟩).value = true := by
    intro i hi
    rcases (traceOk_get htr i hi).placement with ⟨h1, _⟩ | h1
    · exact absurd h1 (hno _ (List.get_mem _ _ _))
    · exact h1
  refine ⟨steps, hres, ?_, ?_, ?_⟩
  · intro s hmem
    obtain ⟨n, hn⟩ := List.get_of_mem hmem
    obtain ⟨r, c, ⟨hr, hc, hrow, hcol, _⟩, hval⟩ := hplace n.1 n.2
    obtain ⟨_, _, hv1, hv9, _⟩ := (SudokuGrid.isValidValue_iff _ r c _).1 hval
    rw [hn] at hrow hcol hv1 hv9
    rw [hrow, hcol]
    omega
  · intro i hi
    obtain ⟨r, c, hcell, hval⟩ := hplace i hi
    refine ⟨r, c, hcell.2.2.1, hcell.2.2.2.1, hcell.2.2.2.2, hval, ?_⟩
    have htake : steps.take (i + 1) = steps.take i ++ [steps.get ⟨i, hi⟩] := by
      rw [List.take_succ, List.get_eq_getElem, List.getElem?_eq_getElem hi]
      rfl
    rw [htake, replay_append]
    show applyStep (replay g (steps.take i)) (steps.get ⟨i, hi⟩) = _
    exact applyStep_of_emptyCellOf hcell
  · intro i _
    have ht := traceOk_take htr i
    exact ⟨(SudokuGrid.isValid_iff _).2 (ht.noClash_replay ((g.isValid_iff).1 hv)),
      ht.extends_replay⟩

theorem solveWithSteps_placements_witness :
    (81 ≤ 81 ∧ trapGrid.isValid = true ∧ trapGrid.isSolved = false) ∧
    ∃ steps, solveWithSteps 81 trapGrid = some steps ∧
      (∀ s ∈ steps, 0 ≤ s.row ∧ s.row ≤ 8 ∧ 0 ≤ s.col ∧ s.col ≤ 8 ∧
        1 ≤ s.value ∧ s.value ≤ 9) ∧
      (∀ i (hi : i < steps.length), ∃ r c : Nat,
        (steps.get ⟨i, hi⟩).row = (r : Int) ∧ (steps.get ⟨i, hi⟩).col = (c : Int) ∧
        (replay trapGrid (steps.take i)).getValue r c = 0 ∧
        (replay trapGrid (steps.take i)).isValidValue r c (steps.get ⟨i, hi⟩).value = true ∧
        replay trapGrid (steps.take (i + 1)) =
          (replay trapGrid (steps.take i)).setValue r c (steps.get ⟨i, hi⟩).value) ∧
      (∀ i, i ≤ steps.length →
        (replay trapGrid (steps.take i)).isValid = true ∧
          Extends trapGrid (replay trapGrid (steps.take i))) :=
  ⟨by decide, solveWithSteps_placements 81 trapGrid (by decide) (by decide) (by decide)⟩

/-! ## Theorems: the completion found by `solve` -/

theorem lex_map_of_split {α : Type} (f f' : α → Nat) (pre post : List α) (p : α)
    (hpre : ∀ q ∈ pre, f q = f' q) (hlt : f p < f' p) :
    List.Lex (fun a b => a < b) ((pre ++ p :: post).map f) ((pre ++ p :: post).map f') := by
  induction pre with
  | nil => exact List.Lex.rel hlt
  | cons q pre ih =>
    simp only [List.cons_append, List.map_cons]
    rw [hpre q (List.mem_cons_self _ _)]
    exact List.Lex.cons (ih fun x hx => hpre x (List.mem_cons_of_mem _ hx))

theorem allCells_split : ∀ r : Nat, r < 9 → ∀ c : Nat, c < 9 →
    allCells = allCells.take (9 * r + c) ++ (r, c) :: allCells.drop (9 * r + c + 1) ∧
    ∀ q ∈ allCells.take (9 * r + c), q.1 < r ∨ (q.1 = r ∧ q.2 < c) := by
  decide

/-- Two grids that agree before the cell `(r, c)` in row-major order and differ there are
ordered by their values at `(r, c)`. -/
theorem lexLe_of_first_difference (g h : SudokuGrid) (r c : Nat) (hr : r < 9) (hc : c < 9)
    (hbefore : ∀ r' c', r' < 9 → c' < 9 → (r' < r ∨ (r' = r ∧ c' < c)) →
      g.cell r' c' = h.cell r' c')
    (hlt : g.cell r c < h.cell r c) : LexLe g h := by
  right
  obtain ⟨hsplit, hpre⟩ := allCells_split r hr c hc
  unfold rowMajor
  rw [hsplit]
  refine lex_map_of_split (fun p : Nat × Nat => g.cell p.1 p.2) (fun p => h.cell p.1 p.2)
    _ _ _ (fun q hq => ?_) hlt
  have hq' : q ∈ allCells := List.mem_of_mem_take hq
  obtain ⟨h1, h2⟩ := (mem_allCells q).1 hq'
  exact hbefore q.1 q.2 h1 h2 (hpre q hq)

/-- The loop over the values of `backtrackSolve`, tried in increasing order at the first empty
cell: a grid it finds is lexicographically at most every completion whose value at the cell is
still to be tried. -/
theorem tryValues_lex (recurse : SudokuGrid → Option (Bool × SudokuGrid)) (g : SudokuGrid)
    (r c : Nat) (hr : r < 9) (hc : c < 9) (h0 : g.cell r c = 0) (hf : FilledBefore g r c)
    (hrec : ∀ v, 1 ≤ v → v ≤ 9 →
      SearchOk (g.setValue r c v) (recurse (g.setValue r c v)) ∧
      ∀ g', recurse (g.setValue r c v) = some (true, g') →
        ∀ h, Completion (g.setValue r c v) h → LexLe g' h)
    (vals : List Nat) (hsorted : vals.Pairwise fun a b => a < b) :
    ∀ g', tryValues recurse r c vals g = some (true, g') →
      ∀ h, Completion g h → h.cell r c ∈ vals → LexLe g' h := by
  induction vals with
  | nil =>
    intro g' _ h _ hmem
    exact absurd hmem (List.not_mem_nil _)
  | cons v rest ih =>
    obtain ⟨hlt, hrest⟩ := List.pairwise_cons.1 hsorted
    intro g' hres h hcomp hmem
    unfold tryValues at hres
    by_cases hv : g.isValidValue r c v = true
    · rw [if_pos hv] at hres
      obtain ⟨_, _, hv1, hv9, _⟩ := (g.isValidValue_iff r c v).1 hv
      obtain ⟨⟨b, g1, hres1, htrue, hfalse⟩, hlex⟩ := hrec v hv1 hv9
      rw [hres1] at hres
      cases b with
      | true =>
        simp only [Option.some.injEq, Prod.mk.injEq, true_and] at hres
        subst hres
        rcases List.mem_cons.1 hmem with heq | hmem'
        · apply hlex g1 hres1 h
          rw [← heq]
          exact completion_setValue hcomp r c hr hc
        · obtain ⟨_, hext⟩ := htrue rfl
          apply lexLe_of_first_difference g1 h r c hr hc
          · intro r' c' hr' hc' hpos
            have hne := hf r' c' hr' hc' hpos
            have e1 := (extends_setValue g r c v h0).trans hext r' c' hr' hc' hne
            have e2 := hcomp.2 r' c' hr' hc' hne
            rw [e1, e2]
          · have e1 := hext r c hr hc
            rw [g.cell_setValue r c v hr hc hv9, if_pos ⟨rfl, rfl⟩] at e1
            rw [e1 (by omega)]
            exact hlt _ hmem'
      | false =>
        obtain ⟨hg1, hnone⟩ := hfalse rfl
        simp only at hres
        rw [hg1, setValue_restore g r c v h0] at hres
        rcases List.mem_cons.1 hmem with heq | hmem'
        · exfalso
          apply hnone h
          rw [← heq]
          exact completion_setValue hcomp r c hr hc
        · exact ih hrest g' hres h hcomp hmem'
    · rw [if_neg hv] at hres
      rcases List.mem_cons.1 hmem with heq | hmem'
      · exfalso
        apply hv
        rw [← heq]
        exact completion_isValidValue hcomp r c hr hc
      · exact ih hrest g' hres h hcomp hmem'

/-- The depth-first search of `backtrackSolve` finds the lexicographically least completion:
a grid it finds is lexicographically at most every completion of its input. -/
theorem backtrackSolve_lex (fuel : Nat) (g : SudokuGrid) (row col : Nat)
    (hfuel : emptyCount g < fuel) (hf : FilledBefore g row col) :
    ∀ g', backtrackSolve fuel g row col = some (true, g') →
      ∀ h, Completion g h → LexLe g' h := by
  induction fuel generalizing g row col with
  | zero => omega
  | succ fuel ih =>
    intro g' hres h hcomp
    unfold backtrackSolve at hres
    cases hfind : findNextEmptyCell g row col with
    | none =>
      rw [hfind] at hres
      simp only [Option.some.injEq, Prod.mk.injEq] at hres
      have hfull := full_of_findNextEmptyCell_none hf hfind
      have : h = g := eq_of_extends_full hfull hcomp.2
      rw [this, hres.2]
      exact Or.inl rfl
    | some p =>
      obtain ⟨r, c⟩ := p
      rw [hfind] at hres
      simp only at hres
      obtain ⟨hr, hc, h0, _⟩ := findNextEmptyCell_some hfind
      have hf' := filledBefore_of_findNextEmptyCell hf hfind
      have hrec : ∀ v, 1 ≤ v → v ≤ 9 →
          SearchOk (g.setValue r c v) (backtrackSolve fuel (g.setValue r c v) r c) ∧
          ∀ g', backtrackSolve fuel (g.setValue r c v) r c = some (true, g') →
            ∀ h, Completion (g.setValue r c v) h → LexLe g' h := by
        intro v hv1 hv9
        have hcount := emptyCount_setValue g r c v hr hc (by omega) hv9 h0
        have hfb := filledBefore_setValue r c v hr hc hv9 hf'
        exact ⟨backtrackSolve_spec fuel _ r c (by omega) hfb, ih _ r c (by omega) hfb⟩
      apply tryValues_lex (fun g => backtrackSolve fuel g r c) g r c hr hc h0 hf' hrec
        (List.range' 1 9) (by decide) g' hres h hcomp
      have hfullh := ((h.isSolved_iff).1 hcomp.1).2 r c hr hc
      have := h.cell_le r c
      rw [List.mem_range'_1]
      omega

/-- C31: for every valid grid with at least one completion, `solve` (with fuel 82 or more)
returns `true`, and the grid it produces is a completion of the input whose 81 cells, read in
row-major order, are lexicographically at most those of every completion of the input. The
placements of naked and hidden singles made before the backtracking never exclude a
completion: every completion of a grid is a completion of the grid after `applyNakedSingles`,
after `applyHiddenSingles` and after a round of `applySolvingTechniques`, and every completion
of the input is one of the working grid at the end of the loop of techniques. -/
theorem solve_lex_least (fuel : Nat) (g : SudokuGrid) (hfuel : 82 ≤ fuel)
    (hv : g.isValid = true) (hex : ∃ h, Completion g h) :
    (∃ g', SudokuSolver.solve fuel g = some (true, g') ∧ Completion g g' ∧
      ∀ h, Completion g h → LexLe g' h) ∧
    (∀ w steps h, Completion w h →
      Completion (applyNakedSingles w steps).2.1 h ∧
      Completion (applyHiddenSingles w steps).2.1 h ∧
      Completion (applySolvingTechniques w steps).2.1 h) ∧
    (∃ b w steps, solveLoop fuel (copyGrid g) [] = some (b, w, steps) ∧
      ∀ h, Completion g h → Completion w h) := by
  have hcount := emptyCount_le g
  obtain ⟨b1, w, st, hloop, hext, hcomp, hb1⟩ := solveLoop_spec fuel g [] (by omega)
  refine ⟨?_, fun w steps h hc => ⟨(applyNakedSingles_inv w steps).2.1 h hc,
    (applyHiddenSingles_inv w steps).2.1 h hc, (applySolvingTechniques_inv w steps).2.1 h hc⟩,
    ⟨b1, w, st, by rw [copyGrid_eq]; exact hloop, hcomp⟩⟩
  unfold SudokuSolver.solve
  have hv' : ¬ ((!g.isValid) = true) := by simp [hv]
  rw [if_neg hv']
  by_cases hs : g.isSolved = true
  · rw [if_pos hs]
    refine ⟨g, rfl, ⟨hs, Extends.refl g⟩, fun h hc => ?_⟩
    have : h = g := eq_of_extends_full ((g.isSolved_iff).1 hs).2 hc.2
    rw [this]
    exact Or.inl rfl
  rw [if_neg hs]
  simp only [m_useLogicalTechniques, if_true, copyGrid_eq]
  rw [hloop]
  cases b1 with
  | true =>
    simp only [copyBack_eq]
    have hsw := hb1 rfl
    refine ⟨w, rfl, ⟨hsw, hext⟩, fun h hc => ?_⟩
    have : h = w := eq_of_extends_full ((w.isSolved_iff).1 hsw).2 (hcomp h hc).2
    rw [this]
    exact Or.inl rfl
  | false =>
    simp only
    have hcw := emptyCount_le w
    have hlex := backtrackSolve_lex fuel w 0 0 (by omega) (filledBefore_zero w)
    obtain ⟨b2, w', hres, htrue, hfalse⟩ :=
      backtrackSolve_spec fuel w 0 0 (by omega) (filledBefore_zero w)
    rw [hres] at hlex ⊢
    cases b2 with
    | true =>
      simp only [copyBack_eq]
      obtain ⟨hsw, hext'⟩ := htrue rfl
      exact ⟨w', rfl, ⟨hsw, hext.trans hext'⟩, fun h hc => hlex w' rfl h (hcomp h hc)⟩
    | false =>
      obtain ⟨h, hh⟩ := hex
      exact absurd (hcomp h hh) ((hfalse rfl).2 h)

theorem solve_lex_least_witness :
    (82 ≤ 82 ∧ sampleGrid.isValid = true ∧ ∃ h, Completion sampleGrid h) ∧
    ((∃ g', SudokuSolver.solve 82 sampleGrid = some (true, g') ∧ Completion sampleGrid g' ∧
      ∀ h, Completion sampleGrid h → LexLe g' h) ∧
    (∀ w steps h, Completion w h →
      Completion (applyNakedSingles w steps).2.1 h ∧
      Completion (applyHiddenSingles w steps).2.1 h ∧
      Completion (applySolvingTechniques w steps).2.1 h) ∧
    (∃ b w steps, solveLoop 82 (copyGrid sampleGrid) [] = some (b, w, steps) ∧
      ∀ h, Completion sampleGrid h → Completion w h)) :=
  ⟨⟨by decide, by decide, sample_completion.imp fun _ h => h.1⟩,
    solve_lex_least 82 sampleGrid (by decide) (by decide)
      (sample_completion.imp fun _ h => h.1)⟩

/-! ## Theorems: the effect of the optimised list -/

end SolverSphere
